import Mathlib

/-!
# Order import pipeline (`src/index.js`): cell normalisers

A shallow embedding of the spreadsheet ingestion code of `src/index.js`:
`parseAmount`, `parseExcelDate`, `parseStatus`, the row loop of the
`POST /api/import` handler, its sheet selection and the settlement of the
upserts it issues; and of two more handlers of the same file, the update data
of `PUT /api/orders/:id` and the grouping of `GET /api/stats/monthly`.

Conventions of the embedding.

* A JavaScript string is a Lean `String`; the operations work on its list of
  characters.  Lengths are counted in UTF-16 code units as JavaScript does
  (`jsLength`).  Lone surrogates, which a Lean `Char` cannot hold, are outside
  the model.
* A JavaScript number is a `JSNum`: `NaN`, the two infinities, or a finite
  value held as the exact rational it denotes.  Rounding to the nearest
  double inside the finite range and the sign of zero are outside the model;
  a decimal literal too large for a double is read as `Infinity`, as
  `parseFloat` does.
* Library functions whose result depends on the Unicode tables or on the host
  (`toLowerCase`, `normalize`, `String(number)`, `String(date)`, `Date.parse`
  on strings other than the date-only ISO form of a real day) are fields of
  `Runtime`; the general theorems hold for every runtime, the closed examples
  are evaluated in `testRuntime`.
* An exception thrown by the code is an `Except.error`.
* The persistent store is a parameter `Store`: a state type and the effect of
  one `upsert` on it.  The operations run one after the other in the order
  the loop issued them; the interleaving of the concurrent promises is
  outside the model.  `specStore` is the store the specification describes.
-/

set_option autoImplicit false

namespace OrderImport

/-! ## JavaScript numbers -/

/-- A JavaScript number. -/
inductive JSNum where
  | nan
  | posInf
  | negInf
  | fin (q : ℚ)
  deriving DecidableEq

namespace JSNum

/-- Unary minus. -/
def neg : JSNum → JSNum
  | nan => nan
  | posInf => negInf
  | negInf => posInf
  | fin q => fin (-q)

/-- The test `isNaN(x)`. -/
def isNaN : JSNum → Bool
  | nan => true
  | _ => false

end JSNum

/-! ## JavaScript strings -/

/-- The characters `trim`, `trimStart` and `parseFloat` treat as white space:
the ECMAScript `WhiteSpace` and `LineTerminator` productions. -/
def isJSWhitespace (c : Char) : Bool :=
  c.toNat = 0x09 || c.toNat = 0x0A || c.toNat = 0x0B || c.toNat = 0x0C ||
  c.toNat = 0x0D || c.toNat = 0x20 || c.toNat = 0xA0 || c.toNat = 0x1680 ||
  (0x2000 ≤ c.toNat && c.toNat ≤ 0x200A) || c.toNat = 0x2028 ||
  c.toNat = 0x2029 || c.toNat = 0x202F || c.toNat = 0x205F ||
  c.toNat = 0x3000 || c.toNat = 0xFEFF

/-- The regular-expression class `\d`: the ten ASCII digits. -/
def isDigit (c : Char) : Bool :=
  48 ≤ c.toNat && c.toNat ≤ 57

/-- The method `String.prototype.trimStart` on a list of characters. -/
def trimStart (cs : List Char) : List Char :=
  cs.dropWhile isJSWhitespace

/-- The method `String.prototype.trim` on a list of characters. -/
def trim (cs : List Char) : List Char :=
  ((cs.dropWhile isJSWhitespace).reverse.dropWhile isJSWhitespace).reverse

/-- Number of UTF-16 code units of one character. -/
def unitLength (c : Char) : Nat :=
  if c.toNat < 0x10000 then 1 else 2

/-- The property `length` of a JavaScript string: its number of UTF-16 code
units. -/
def jsLength (cs : List Char) : Nat :=
  (cs.map unitLength).sum

/-- The call `s.replace(a, b)` with a one-character string pattern `a`:
only the first occurrence is replaced. -/
def replaceFirst (a b : Char) : List Char → List Char
  | [] => []
  | c :: cs => if c = a then b :: cs else c :: replaceFirst a b cs

/-- Replacement of every occurrence of the character `a` by `b`. -/
def replaceAll (a b : Char) (cs : List Char) : List Char :=
  cs.map fun c => if c = a then b else c

/-- Value of a run of ASCII digits read in base ten. -/
def digitsVal (cs : List Char) : Nat :=
  cs.foldl (fun acc c => 10 * acc + (c.toNat - 48)) 0

/-! ## `parseFloat` -/

/-- The exponent part of a `StrDecimalLiteral`: `e` or `E`, an optional sign
and at least one digit; zero when the input does not start with one. -/
def exponentPart : List Char → Int
  | c :: rest =>
    if c = 'e' ∨ c = 'E' then
      match rest with
      | '+' :: r =>
        if (r.takeWhile isDigit).isEmpty then 0 else (digitsVal (r.takeWhile isDigit) : Int)
      | '-' :: r =>
        if (r.takeWhile isDigit).isEmpty then 0 else -(digitsVal (r.takeWhile isDigit) : Int)
      | r =>
        if (r.takeWhile isDigit).isEmpty then 0 else (digitsVal (r.takeWhile isDigit) : Int)
    else 0
  | [] => 0

/-- Mathematical value of the decimal literal with integer digits `ip`,
fraction digits `fp` and exponent `e`. -/
def decimalValue (ip fp : List Char) (e : Int) : ℚ :=
  ((digitsVal ip : ℚ) + (digitsVal fp : ℚ) / (10 : ℚ) ^ fp.length) * (10 : ℚ) ^ e

/-- The least value that rounds to `Infinity`: `2^1024 - 2^970`, halfway
between the largest double `2^1024 - 2^971` and `2^1024`; written as
`(2^54 - 1) * 2^970` with `2^970 = (2^194)^5`. -/
def overflowBound : ℚ :=
  (((2 ^ 54 - 1) * (2 ^ 194) ^ 5 : Nat) : ℚ)

/-- The number a non-negative mathematical value is converted to: `Infinity`
from `overflowBound` on, the value itself below it (rounding inside the
range of the doubles is outside the model). -/
def JSNum.ofDecimal (q : ℚ) : JSNum :=
  if overflowBound ≤ q then JSNum.posInf else JSNum.fin q

/-- The longest prefix that is an unsigned decimal literal
(`digits`, `digits.`, `digits.digits`, `.digits`, each with an optional
exponent), or `NaN` when there is none. -/
def parseUnsignedDecimal (cs : List Char) : JSNum :=
  let ip := cs.takeWhile isDigit
  match cs.dropWhile isDigit with
  | '.' :: r =>
    let fp := r.takeWhile isDigit
    if ip.isEmpty && fp.isEmpty then JSNum.nan
    else JSNum.ofDecimal (decimalValue ip fp (exponentPart (r.dropWhile isDigit)))
  | r =>
    if ip.isEmpty then JSNum.nan
    else JSNum.ofDecimal (decimalValue ip [] (exponentPart r))

/-- The unsigned part of a `StrDecimalLiteral`: `Infinity` or a decimal. -/
def parseUnsigned (cs : List Char) : JSNum :=
  if "Infinity".data.isPrefixOf cs then JSNum.posInf else parseUnsignedDecimal cs

/-- The global function `parseFloat` on a list of characters: leading white
space is skipped, then the longest prefix that is a `StrDecimalLiteral` is
read; `NaN` when no prefix is one. -/
def parseFloat (cs : List Char) : JSNum :=
  match trimStart cs with
  | '+' :: r => parseUnsigned r
  | '-' :: r => (parseUnsigned r).neg
  | r => parseUnsigned r

/-! ## Cell values -/

/-- A value read from a worksheet cell by `sheet_to_json` with `raw: true` and
`cellDates: true`: a hole (`undefined`), `null`, a boolean, a number, a string
or a native `Date`, whose time value is a number of milliseconds since
1970-01-01T00:00:00Z or `none` for an invalid date. -/
inductive Cell where
  | undefined
  | null
  | bool (b : Bool)
  | num (n : JSNum)
  | str (s : String)
  | date (t : Option Int)
  deriving DecidableEq

/-- JavaScript truthiness (`ToBoolean`). -/
def Cell.truthy : Cell → Bool
  | .undefined => false
  | .null => false
  | .bool b => b
  | .num .nan => false
  | .num (.fin q) => decide (q ≠ 0)
  | .num _ => true
  | .str s => !s.data.isEmpty
  | .date _ => true

/-! ## `parseAmount` (`src/index.js`, lines 61-70) -/

/-- The character filter of `value.replace(/[^\d.,]/g, "")`. -/
def isAmountChar (c : Char) : Bool :=
  isDigit c || c = '.' || c = ','

/-- The cleaning chain of `parseAmount`:
`value.replace(/[^\d.,]/g, "").replace(/\./g, "").replace(",", ".")`. -/
def cleanAmount (cs : List Char) : List Char :=
  replaceFirst ',' '.' ((cs.filter isAmountChar).filter fun c => c ≠ '.')

/-- The function `parseAmount`; `none` is `null`. -/
def parseAmount : Cell → Option JSNum
  | .undefined => none
  | .null => none
  | .num n => some n
  | .str s =>
    let num := parseFloat (cleanAmount s.data)
    if num.isNaN then none else some num
  | _ => none

/-- The amount parsing as the specification words it: delete every character
that is not a digit, comma or period, remove all `.`, replace `,` with `.`,
parse the result as a decimal number, absent when the parse fails. -/
def specParseAmount (s : String) : Option JSNum :=
  let stripped := s.data.filter isAmountChar
  let noDots := stripped.filter fun c => c ≠ '.'
  let num := parseFloat (replaceAll ',' '.' noDots)
  if num.isNaN then none else some num

/-! ## Time values and `Date.prototype.toISOString` (ECMAScript 21.4.1) -/

/-- Milliseconds per day. -/
def msPerDay : Int := 86400000

/-- The abstract operation `DaysInYear`. -/
def daysInYear (y : Int) : Int :=
  if y % 4 ≠ 0 then 365
  else if y % 100 ≠ 0 then 366
  else if y % 400 ≠ 0 then 365
  else 366

/-- The abstract operation `DayFromYear`: the day number of 1 January of
year `y`, day 0 being 1970-01-01. -/
def dayFromYear (y : Int) : Int :=
  365 * (y - 1970) + (y - 1969) / 4 - (y - 1901) / 100 + (y - 1601) / 400

/-- The year of day number `D` (`YearFromTime`): the largest `y` with
`dayFromYear y ≤ D`, found among the three years around the estimate given
by the mean year length of 146097/400 days. -/
def yearFromDay (D : Int) : Int :=
  let y := 1970 + (D * 400) / 146097
  if dayFromYear (y + 1) ≤ D then y + 1
  else if dayFromYear y ≤ D then y
  else y - 1

/-- The abstract operation `DayWithinYear`. -/
def dayWithinYear (D : Int) : Int :=
  D - dayFromYear (yearFromDay D)

/-- The abstract operation `InLeapYear`: 1 in a leap year, else 0. -/
def inLeapYear (D : Int) : Int :=
  if daysInYear (yearFromDay D) = 366 then 1 else 0

/-- The month (0 is January) of day `d` of a year, `l` being 1 in a leap
year and 0 otherwise: the table of `MonthFromTime`. -/
def monthOfYearDay (l d : Int) : Int :=
  if d < 31 then 0
  else if d < 59 + l then 1
  else if d < 90 + l then 2
  else if d < 120 + l then 3
  else if d < 151 + l then 4
  else if d < 181 + l then 5
  else if d < 212 + l then 6
  else if d < 243 + l then 7
  else if d < 273 + l then 8
  else if d < 304 + l then 9
  else if d < 334 + l then 10
  else 11

/-- The day of the month (from 1) of day `d` of a year: the table of
`DateFromTime`. -/
def dateOfYearDay (l d : Int) : Int :=
  match monthOfYearDay l d with
  | 0 => d + 1
  | 1 => d - 30
  | 2 => d - 58 - l
  | 3 => d - 89 - l
  | 4 => d - 119 - l
  | 5 => d - 150 - l
  | 6 => d - 180 - l
  | 7 => d - 211 - l
  | 8 => d - 242 - l
  | 9 => d - 272 - l
  | 10 => d - 303 - l
  | _ => d - 333 - l

/-- The abstract operation `MonthFromTime`: 0 is January, 11 is December. -/
def monthFromDay (D : Int) : Int :=
  monthOfYearDay (inLeapYear D) (dayWithinYear D)

/-- The abstract operation `DateFromTime`: the day of the month, from 1. -/
def dateFromDay (D : Int) : Int :=
  dateOfYearDay (inLeapYear D) (dayWithinYear D)

/-- The decimal digit character of `n % 10`. -/
def digitChar (n : Nat) : Char :=
  Char.ofNat (48 + n % 10)

/-- Two decimal digits, zero padded. -/
def pad2 (n : Nat) : List Char :=
  [digitChar (n / 10), digitChar n]

/-- Three decimal digits, zero padded. -/
def pad3 (n : Nat) : List Char :=
  [digitChar (n / 100), digitChar (n / 10), digitChar n]

/-- Four decimal digits, zero padded. -/
def pad4 (n : Nat) : List Char :=
  [digitChar (n / 1000), digitChar (n / 100), digitChar (n / 10), digitChar n]

/-- Six decimal digits, zero padded. -/
def pad6 (n : Nat) : List Char :=
  [digitChar (n / 100000), digitChar (n / 10000), digitChar (n / 1000),
    digitChar (n / 100), digitChar (n / 10), digitChar n]

/-- The year field of `toISOString`: four digits for the years 0 to 9999,
otherwise a sign and six digits. -/
def isoYear (y : Int) : List Char :=
  if 0 ≤ y ∧ y ≤ 9999 then pad4 y.toNat
  else if 0 ≤ y then '+' :: pad6 y.toNat
  else '-' :: pad6 (-y).toNat

/-- The method `Date.prototype.toISOString` of a valid date with time value
`t`: `YYYY-MM-DDTHH:mm:ss.sssZ` in UTC. -/
def toISOString (t : Int) : List Char :=
  let D := t / msPerDay
  isoYear (yearFromDay D) ++ ['-'] ++ pad2 (monthFromDay D + 1).toNat ++ ['-'] ++
    pad2 (dateFromDay D).toNat ++ ['T'] ++ pad2 ((t / 3600000) % 24).toNat ++ [':'] ++
    pad2 ((t / 60000) % 60).toNat ++ [':'] ++ pad2 ((t / 1000) % 60).toNat ++ ['.'] ++
    pad3 (t % 1000).toNat ++ ['Z']

/-- The largest magnitude of a time value (`TimeClip`): 8.64e15 ms. -/
def maxTime : Int := 8640000000000000

/-- The constructor `new Date(value)` on a number: `TimeClip`; `none` is an
invalid date. -/
def newDateOfNum : JSNum → Option Int
  | .fin q => if |q| ≤ (maxTime : ℚ) then some (if 0 ≤ q then ⌊q⌋ else ⌈q⌉) else none
  | _ => none

namespace JSNum

/-- Subtraction of numbers. -/
def sub : JSNum → JSNum → JSNum
  | fin a, fin b => fin (a - b)
  | nan, _ => nan
  | _, nan => nan
  | posInf, posInf => nan
  | negInf, negInf => nan
  | posInf, _ => posInf
  | negInf, _ => negInf
  | fin _, posInf => negInf
  | fin _, negInf => posInf

/-- Sign of a number that is not `NaN`: -1, 0 or 1. -/
def sign : JSNum → Int
  | fin q => if q < 0 then -1 else if q = 0 then 0 else 1
  | negInf => -1
  | _ => 1

/-- Multiplication of numbers. -/
def mul : JSNum → JSNum → JSNum
  | fin a, fin b => fin (a * b)
  | nan, _ => nan
  | _, nan => nan
  | a, b =>
    if a.sign * b.sign = 0 then nan
    else if a.sign * b.sign = 1 then posInf
    else negInf

/-- The function `Math.round`: the nearest integer, ties towards +∞. -/
def round : JSNum → JSNum
  | fin q => fin (⌊q + 1 / 2⌋ : Int)
  | x => x

end JSNum

/-! ## The host runtime -/

/-- The library functions whose results depend on the Unicode tables or on
the host; the code is embedded for an arbitrary runtime. -/
structure Runtime where
  /-- The method `String.prototype.toLowerCase`. -/
  toLowerCase : List Char → List Char
  /-- The call `s.normalize("NFD")`. -/
  normalizeNFD : List Char → List Char
  /-- The conversion `String(x)` of a number. -/
  numberToString : JSNum → List Char
  /-- The conversion `String(d)` of a native date (local time zone). -/
  dateToString : Option Int → List Char
  /-- The function `Date.parse` on every string that is not the ISO
  date-only form `YYYY-MM-DD` of a real calendar day. -/
  dateParseOther : List Char → Option Int

/-- The conversion `String(value)`. -/
def jsString (R : Runtime) : Cell → List Char
  | .undefined => "undefined".data
  | .null => "null".data
  | .bool true => "true".data
  | .bool false => "false".data
  | .num n => R.numberToString n
  | .str s => s.data
  | .date t => R.dateToString t

/-! ## More string operations -/

/-- The call `s.split(sep)` with a one-character separator. -/
def splitOn (sep : Char) : List Char → List (List Char)
  | [] => [[]]
  | c :: cs =>
    if c = sep then [] :: splitOn sep cs
    else
      match splitOn sep cs with
      | [] => [[c]]
      | p :: ps => (c :: p) :: ps

/-- The call `s.padStart(n, "0")`. -/
def padStart (n : Nat) (cs : List Char) : List Char :=
  List.replicate (n - jsLength cs) '0' ++ cs

/-- The UTF-16 code units of a character. -/
def utf16Units (c : Char) : List Nat :=
  if c.toNat < 0x10000 then [c.toNat]
  else [0xD800 + (c.toNat - 0x10000) / 0x400, 0xDC00 + (c.toNat - 0x10000) % 0x400]

/-- Strict lexicographic order on lists of code units. -/
def unitsLt : List Nat → List Nat → Bool
  | _, [] => false
  | [], _ :: _ => true
  | a :: as, b :: bs => a < b || (a = b && unitsLt as bs)

/-- The comparison `a > b` of two strings: lexicographic on UTF-16 code
units. -/
def jsGt (a b : List Char) : Bool :=
  unitsLt (b.map utf16Units).flatten (a.map utf16Units).flatten

/-- The call `s.includes(needle)`. -/
def includes (needle : List Char) : List Char → Bool
  | [] => needle.isEmpty
  | c :: cs => needle.isPrefixOf (c :: cs) || includes needle cs

/-! ## `new Date(string)` -/

/-- The number of days of month `m` (1 to 12), `l` being 1 in a leap year and
0 otherwise. -/
def monthLength (l m : Int) : Int :=
  if m = 2 then 28 + l
  else if m = 4 ∨ m = 6 ∨ m = 9 ∨ m = 11 then 30
  else 31

/-- The number of days of month `m` (1 to 12) of year `y`. -/
def daysInMonth (y m : Int) : Int :=
  monthLength (if daysInYear y = 366 then 1 else 0) m

/-- The day number within a common year on which month `m` (1 to 12)
starts. -/
def monthStart (m : Nat) : Int :=
  match m with
  | 1 => 0
  | 2 => 31
  | 3 => 59
  | 4 => 90
  | 5 => 120
  | 6 => 151
  | 7 => 181
  | 8 => 212
  | 9 => 243
  | 10 => 273
  | 11 => 304
  | _ => 334

/-- The abstract operation `MakeDay` for a real calendar day: the day number
of year `y`, month `m` (1 to 12), day `d`. -/
def makeDay (y : Int) (m d : Nat) : Int :=
  dayFromYear y + monthStart m + (if 2 < m ∧ daysInYear y = 366 then 1 else 0) + (d - 1 : Int)

/-- The fields of a string of the date-only form `YYYY-MM-DD`. -/
def parseIsoDateOnly : List Char → Option (Nat × Nat × Nat)
  | [y1, y2, y3, y4, '-', m1, m2, '-', d1, d2] =>
    if [y1, y2, y3, y4, m1, m2, d1, d2].all isDigit then
      some (digitsVal [y1, y2, y3, y4], digitsVal [m1, m2], digitsVal [d1, d2])
    else none
  | _ => none

/-- The time value of `new Date(s)`; `none` is an invalid date.  ECMAScript
fixes the result for the date-only form of a real calendar day (UTC
midnight); every other string is left to the runtime, whose answer is
clipped to the range of time values. -/
def dateParse (R : Runtime) (cs : List Char) : Option Int :=
  let other : Option Int :=
    match R.dateParseOther cs with
    | some t => if -maxTime ≤ t ∧ t ≤ maxTime then some t else none
    | none => none
  match parseIsoDateOnly cs with
  | some (y, m, d) =>
    if 1 ≤ m ∧ m ≤ 12 ∧ 1 ≤ d ∧ (d : Int) ≤ daysInMonth y m then some (msPerDay * makeDay y m d)
    else other
  | none => other

/-! ## `parseExcelDate` (`src/index.js`, lines 26-59) -/

/-- An exception thrown by the code. -/
inductive JSError where
  | rangeError
  deriving DecidableEq

/-- The expression `date.toISOString().slice(0, 10)`; `toISOString` throws a
`RangeError` on an invalid date. -/
def isoSlice : Option Int → Except JSError (Option String)
  | some t => .ok (some (String.mk ((toISOString t).take 10)))
  | none => .error .rangeError

/-- The year token after the two-digit rule of line 42:
`y > "50" ? "19" + y : "20" + y`. -/
def expandYear (y : List Char) : List Char :=
  if jsLength y = 2 then
    if jsGt y "50".data then "19".data ++ y else "20".data ++ y
  else y

/-- The function `parseExcelDate`; `.ok none` is `null`, `.error` a thrown
exception. -/
def parseExcelDate (R : Runtime) (value : Cell) : Except JSError (Option String) :=
  if !value.truthy then .ok none
  else
    match value with
    | .date t => isoSlice t
    | .num n =>
      isoSlice (newDateOfNum (((n.sub (.fin 25569)).mul (.fin 86400)).mul (.fin 1000)).round)
    | .str s =>
      let trimmed := trim s.data
      if trimmed.isEmpty then .ok none
      else
        let parts := if trimmed.contains '/' then splitOn '/' trimmed else splitOn '-' trimmed
        let generic : Except JSError (Option String) :=
          match dateParse R trimmed with
          | some t => isoSlice (some t)
          | none => .ok none
        match parts with
        | [d, m, y] =>
          let iso := padStart 4 (expandYear y) ++ ['-'] ++ padStart 2 m ++ ['-'] ++ padStart 2 d
          if (dateParse R iso).isSome then .ok (some (String.mk iso)) else generic
        | _ => generic
    | _ => .ok none

/-! ## `parseStatus` (`src/index.js`, lines 72-80) -/

/-- The three order statuses. -/
inductive Status where
  | CHUA_NHAN
  | HOAN
  | DA_NHAN
  deriving DecidableEq

/-- The class of combining diacritical marks, U+0300 to U+036F. -/
def isCombiningMark (c : Char) : Bool :=
  0x0300 ≤ c.toNat && c.toNat ≤ 0x036F

/-- The normalised text of `parseStatus`:
lower case, NFD, then every combining mark U+0300 to U+036F removed. -/
def plainText (R : Runtime) (raw : List Char) : List Char :=
  (R.normalizeNFD (R.toLowerCase raw)).filter fun c => !isCombiningMark c

/-- The function `parseStatus`. -/
def parseStatus (R : Runtime) (receivedCell : Cell) : Status :=
  if !receivedCell.truthy then .CHUA_NHAN
  else
    let raw := trim (jsString R receivedCell)
    if raw.isEmpty then .CHUA_NHAN
    else if includes "hoan".data (plainText R raw) then .HOAN
    else .DA_NHAN

/-! ## Calendar dates -/

/-- A calendar date. -/
structure CalDate where
  year : Int
  month : Int
  day : Int
  deriving DecidableEq

/-- The calendar day that follows `dt`. -/
def nextDay (dt : CalDate) : CalDate :=
  if dt.day < daysInMonth dt.year dt.month then { dt with day := dt.day + 1 }
  else if dt.month < 12 then { dt with month := dt.month + 1, day := 1 }
  else { year := dt.year + 1, month := 1, day := 1 }

/-- The calendar date of day number `D`, as `toISOString` computes it. -/
def civilOfDay (D : Int) : CalDate :=
  { year := yearFromDay D, month := monthFromDay D + 1, day := dateFromDay D }

/-- The ISO rendering `YYYY-MM-DD` of a date of the years 0 to 9999. -/
def isoDate (dt : CalDate) : String :=
  String.mk (pad4 dt.year.toNat ++ ['-'] ++ pad2 dt.month.toNat ++ ['-'] ++ pad2 dt.day.toNat)

/-- The calendar date 1899-12-30, day 0 of the spreadsheet serials. -/
def spreadsheetEpoch : CalDate :=
  { year := 1899, month := 12, day := 30 }

/-! ## Day-first date strings -/

/-- A day or month token: one or two ASCII digits. -/
def isShortToken (t : List Char) : Prop :=
  (t.length = 1 ∨ t.length = 2) ∧ ∀ c ∈ t, isDigit c = true

/-- A year token: two or four ASCII digits. -/
def isYearToken (t : List Char) : Prop :=
  (t.length = 2 ∨ t.length = 4) ∧ ∀ c ∈ t, isDigit c = true

/-- The year a year token stands for under the rule of line 42: a two-digit
token above 50 is a year of the 1900s, any other two-digit token a year of
the 2000s; a four-digit token is the year itself. -/
def yearValue (y : List Char) : Nat :=
  if y.length = 2 then
    if 50 < digitsVal y then 1900 + digitsVal y else 2000 + digitsVal y
  else digitsVal y

/-- A real calendar day: month 1 to 12 and day within the month's length. -/
def isRealDay (dt : CalDate) : Prop :=
  1 ≤ dt.month ∧ dt.month ≤ 12 ∧ 1 ≤ dt.day ∧ dt.day ≤ daysInMonth dt.year dt.month

instance (dt : CalDate) : Decidable (isRealDay dt) := by
  unfold isRealDay
  infer_instance

/-- The date named by day, month and year tokens. -/
def tokenDate (d m y : List Char) : CalDate :=
  { year := yearValue y, month := digitsVal m, day := digitsVal d }

/-- The text `D<sep>M<sep>Y` between leading and trailing white space. -/
def dmyString (ws1 d m y ws2 : List Char) (sep : Char) : String :=
  String.mk (ws1 ++ (d ++ [sep] ++ m ++ [sep] ++ y) ++ ws2)

/-! ## The row loop of `POST /api/import` (`src/index.js`, lines 129-191) -/

/-- The fields the import writes in both the `create` and the `update` data
of an upsert. -/
structure ImportFields where
  product_name : Cell
  original_amount : Option JSNum
  discounted_amount : Option JSNum
  address_code : Option String
  order_date : Option String
  received_date : Option String
  status : Status
  note : Option String
  shop_name : Option String

/-- The argument of `prisma.order.upsert`: the `where` key, the `create`
data (the import fields and `tracking_code`) and the `update` data. -/
structure UpsertArgs where
  whereTrackingCode : String
  createFields : ImportFields
  createTrackingCode : String
  updateFields : ImportFields

/-- The element `row[i]` of a row array: `undefined` past the end. -/
def cellAt (row : List Cell) (i : Nat) : Cell :=
  row.getD i .undefined

/-- The expression `cell ? String(cell).trim() : null`. -/
def trimmedText (R : Runtime) (c : Cell) : Option String :=
  if c.truthy then some (String.mk (trim (jsString R c))) else none

/-- What the loop body does with one row. -/
inductive RowOutcome where
  /-- The `continue` of line 135: nothing is counted. -/
  | ignored
  /-- The row has no tracking code: `skipped += 1`. -/
  | skipped
  /-- An upsert is issued and pushed on `operations`. -/
  | upsert (args : UpsertArgs)

/-- The body of the `for` loop for the row `rows[i]`; `none` is an
`undefined` row.  An exception thrown by `parseExcelDate` leaves the loop. -/
def processRow (R : Runtime) (row : Option (List Cell)) : Except JSError RowOutcome :=
  match row with
  | none => .ok .ignored
  | some row =>
    if row.length = 0 then .ok .ignored
    else
      let productName := cellAt row 1
      let originalAmount := parseAmount (cellAt row 2)
      let discountedAmount := parseAmount (cellAt row 3)
      let addressCode := trimmedText R (cellAt row 4)
      match parseExcelDate R (cellAt row 5) with
      | .error e => .error e
      | .ok orderDate =>
        let trackingCode := trimmedText R (cellAt row 6)
        let receivedCell := cellAt row 7
        let received : Except JSError (Option String) :=
          if parseStatus R receivedCell = .DA_NHAN then parseExcelDate R receivedCell
          else .ok none
        match received with
        | .error e => .error e
        | .ok receivedDate =>
          let status := parseStatus R receivedCell
          match trackingCode with
          | none => .ok .skipped
          | some code =>
            if code.data.isEmpty then .ok .skipped
            else
              let fields : ImportFields :=
                { product_name := if productName.truthy then productName else .null
                  original_amount := originalAmount
                  discounted_amount := discountedAmount
                  address_code := addressCode
                  order_date := orderDate
                  received_date := receivedDate
                  status := status
                  note := none
                  shop_name := none }
              .ok (.upsert
                { whereTrackingCode := code
                  createFields := fields
                  createTrackingCode := code
                  updateFields := fields })

/-- The state the loop carries: the counter `skipped` and the store
operations issued so far (`operations`), oldest first. -/
structure LoopState where
  skipped : Nat
  operations : List UpsertArgs

/-- One iteration of the `for` loop. -/
def loopStep (R : Runtime) (st : LoopState) (row : Option (List Cell)) :
    Except JSError LoopState :=
  match processRow R row with
  | .error e => .error e
  | .ok .ignored => .ok st
  | .ok .skipped => .ok { st with skipped := st.skipped + 1 }
  | .ok (.upsert args) => .ok { st with operations := st.operations ++ [args] }

/-- A tracking-code cell that is empty, missing or made of white space
only. -/
def isBlankCell (c : Cell) : Prop :=
  c = .undefined ∨ c = .null ∨ ∃ s : String, c = .str s ∧ ∀ ch ∈ s.data, isJSWhitespace ch = true

/-! ## The store and the import handler (`src/index.js`, lines 113-206) -/

/-- A record of the `order` table: its surrogate `id`, its `tracking_code`
and the nine other columns. -/
structure OrderRecord where
  id : Nat
  tracking_code : String
  fields : ImportFields

/-- The reason a store promise is rejected with. -/
inductive StoreError where
  /-- A violation of the uniqueness constraint on `tracking_code`. -/
  | uniqueViolation
  /-- Any other failure of the write. -/
  | ioError
  deriving DecidableEq

/-- What the promise of one `upsert` settles with: a rejection, or the
resolved value, `none` for `null` and `some r` for a record object. -/
abbrev UpsertResult := Except StoreError (Option OrderRecord)

/-- The persistent store as the handler uses it: `prisma.order.upsert` run
on a store state gives the settlement of its promise and the next state.
Operations run one after the other in the order they were issued. -/
structure Store (σ : Type) where
  upsert : σ → UpsertArgs → UpsertResult × σ

/-- The three counters `inserted`, `updated`, `skipped`. -/
structure Counters where
  inserted : Nat
  updated : Nat
  skipped : Nat
  deriving DecidableEq

/-- The callbacks of lines 180-189 on the settlement of one upsert:
`.then(result => result ? updated += 1 : inserted += 1)` and
`.catch(() => skipped += 1)`. -/
def settle (c : Counters) : UpsertResult → Counters
  | .ok (some _) => { c with updated := c.updated + 1 }
  | .ok none => { c with inserted := c.inserted + 1 }
  | .error _ => { c with skipped := c.skipped + 1 }

/-- The settlements of the operations, run in order from the state `s`. -/
def operationResults {σ : Type} (S : Store σ) : σ → List UpsertArgs → List UpsertResult
  | _, [] => []
  | s, op :: ops => (S.upsert s op).1 :: operationResults S (S.upsert s op).2 ops

/-- The operations run in order from the state `s`, each settlement passed
to the callbacks: the counters and the store state when `Promise.all`
resolves. -/
def runOperations {σ : Type} (S : Store σ) : σ → Counters → List UpsertArgs → Counters × σ
  | s, c, [] => (c, s)
  | s, c, op :: ops => runOperations S (S.upsert s op).2 (settle c (S.upsert s op).1) ops

/-- The `for` loop of lines 133-191 over the rows below the header: the
exception that left the loop, if any, and the state reached. -/
def importLoop (R : Runtime) : LoopState → List (Option (List Cell)) → Option JSError × LoopState
  | st, [] => (none, st)
  | st, row :: rest =>
    match loopStep R st row with
    | .error e => (some e, st)
    | .ok st' => importLoop R st' rest

/-- The response of the handler: the counters, or a status code with an
error message. -/
inductive ImportResponse where
  | counters (c : Counters)
  | failure (status : Nat) (message : String)
  deriving DecidableEq

/-- Lines 126-205 on the row array `rows` of the selected sheet: the
response and the store state once every issued operation has run.  When the
loop throws, the `catch` of line 202 answers 500; the operations issued
before the exception still run. -/
def importRows {σ : Type} (R : Runtime) (S : Store σ) (s : σ)
    (rows : List (Option (List Cell))) : ImportResponse × σ :=
  if rows.length ≤ 1 then (.failure 400 "Sheet không có dữ liệu", s)
  else
    match importLoop R { skipped := 0, operations := [] } (rows.drop 1) with
    | (some _, st) =>
      (.failure 500 "Lỗi đọc file Excel",
        (runOperations S s { inserted := 0, updated := 0, skipped := st.skipped }
          st.operations).2)
    | (none, st) =>
      let done := runOperations S s { inserted := 0, updated := 0, skipped := st.skipped }
        st.operations
      (.counters done.1, done.2)

/-- A worksheet, given by the row array `sheet_to_json` returns for it with
`header: 1`. -/
structure Sheet where
  rows : List (Option (List Cell))

/-- A workbook read by `xlsx.readFile`: the ordered sheet names and the
object `Sheets` from names to sheets. -/
structure Workbook where
  SheetNames : List String
  Sheets : String → Option Sheet

/-- The sheet selection of lines 120-121:
`workbook.Sheets["2025"] || workbook.Sheets[workbook.SheetNames[0]]`. -/
def selectSheet (wb : Workbook) : Option Sheet :=
  match wb.Sheets "2025" with
  | some sheet => some sheet
  | none =>
    match wb.SheetNames with
    | name :: _ => wb.Sheets name
    | [] => wb.Sheets "undefined"

/-- The handler of `POST /api/import` on a workbook that was read. -/
def importWorkbook {σ : Type} (R : Runtime) (S : Store σ) (s : σ) (wb : Workbook) :
    ImportResponse × σ :=
  match selectSheet wb with
  | none => (.failure 400 "Không tìm thấy sheet dữ liệu", s)
  | some sheet => importRows R S s sheet.rows

/-- A row the loop body handles: defined and with at least one cell. -/
def isHandledRow : Option (List Cell) → Bool
  | none => false
  | some row => !row.isEmpty

/-- The upsert the loop issues for a row, if it issues one. -/
def rowOperation (R : Runtime) (row : Option (List Cell)) : Option UpsertArgs :=
  match processRow R row with
  | .ok (.upsert args) => some args
  | _ => none

/-! ## The store of the specification -/

/-- Modelled from the spec: the store operation `findByTrackingCode` of
section 6; the table and its client are not under `src/`.  The store state
is the list of records. -/
def findByTrackingCode (db : List OrderRecord) (code : String) : Option OrderRecord :=
  db.find? fun r => r.tracking_code = code

/-- Modelled from the spec: the surrogate identifier given to a created
record, larger than every identifier in use. -/
def nextId (db : List OrderRecord) : Nat :=
  (db.map fun r => r.id).foldl max 0 + 1

/-- Modelled from the spec: the atomic upsert by tracking code built from the
store contracts `findByTrackingCode`, `create` and `update` of section 6.
When a record with the `where` key exists its import fields are overwritten
by the `update` data; otherwise the `create` data becomes a new record,
unless its key is taken, which is the uniqueness violation.  The promise
resolves with the written record. -/
def specUpsert (db : List OrderRecord) (args : UpsertArgs) : UpsertResult × List OrderRecord :=
  match findByTrackingCode db args.whereTrackingCode with
  | some r =>
    (.ok (some { r with fields := args.updateFields }),
      db.map fun x =>
        if x.tracking_code = args.whereTrackingCode then { x with fields := args.updateFields }
        else x)
  | none =>
    match findByTrackingCode db args.createTrackingCode with
    | some _ => (.error .uniqueViolation, db)
    | none =>
      (.ok (some
          { id := nextId db, tracking_code := args.createTrackingCode,
            fields := args.createFields }),
        db ++ [{ id := nextId db, tracking_code := args.createTrackingCode,
                 fields := args.createFields }])

/-- Modelled from the spec: the store of section 6. -/
def specStore : Store (List OrderRecord) where
  upsert := specUpsert

/-- Modelled from the spec: the store of section 6 in which the writes for
the tracking codes selected by `bad` fail. -/
def faultyStore (bad : String → Bool) : Store (List OrderRecord) where
  upsert := fun db args =>
    if bad args.whereTrackingCode then (.error .ioError, db) else specUpsert db args

/-- Modelled from the spec: the uniqueness constraint, at most one record
per tracking code. -/
def uniqueCodes (db : List OrderRecord) : Prop :=
  (db.map fun r => r.tracking_code).Nodup

/-! ## The sheet selection in the words of the specification -/

/-- The sheet selection as the specification words it: the sheet named for
the current year `year` if present, else the first sheet. -/
def specSelectSheet (year : String) (wb : Workbook) : Option Sheet :=
  match wb.Sheets year with
  | some sheet => some sheet
  | none =>
    match wb.SheetNames with
    | name :: _ => wb.Sheets name
    | [] => none

/-! ## The status rule in the words of the specification -/

/-- An empty cell: no value, or the empty string. -/
def isEmptyCell (c : Cell) : Bool :=
  match c with
  | .undefined => true
  | .null => true
  | .str s => s.data.isEmpty
  | _ => false

/-- The status rule as the specification words it: `CHUA_NHAN` for an empty
cell or one whose string form is empty after trimming, else `HOAN` when the
lower-cased text without diacritics contains `hoan`, else `DA_NHAN`. -/
def specStatus (R : Runtime) (c : Cell) : Status :=
  if isEmptyCell c ∨ trim (jsString R c) = [] then .CHUA_NHAN
  else if includes "hoan".data (plainText R (trim (jsString R c))) then .HOAN
  else .DA_NHAN

/-- The values JavaScript treats as false: no value, the empty string, the
numbers 0 and `NaN`, and `false`. -/
def isFalsy (c : Cell) : Prop :=
  c = .undefined ∨ c = .null ∨ c = .str "" ∨ c = .num (.fin 0) ∨ c = .num .nan ∨
    c = .bool false

/-! ## A concrete runtime -/

/-- Canonical decompositions of the accented lower-case letters of the
Vietnamese alphabet (code points). -/
def vietnameseDecompositions : List (Nat × List Nat) :=
  [(0x00E0, [0x0061, 0x0300]), (0x00E1, [0x0061, 0x0301]), (0x1EA3, [0x0061, 0x0309]),
   (0x00E3, [0x0061, 0x0303]), (0x1EA1, [0x0061, 0x0323]), (0x0103, [0x0061, 0x0306]),
   (0x1EB1, [0x0061, 0x0306, 0x0300]), (0x1EAF, [0x0061, 0x0306, 0x0301]),
   (0x1EB3, [0x0061, 0x0306, 0x0309]), (0x1EB5, [0x0061, 0x0306, 0x0303]),
   (0x1EB7, [0x0061, 0x0323, 0x0306]), (0x00E2, [0x0061, 0x0302]),
   (0x1EA7, [0x0061, 0x0302, 0x0300]), (0x1EA5, [0x0061, 0x0302, 0x0301]),
   (0x1EA9, [0x0061, 0x0302, 0x0309]), (0x1EAB, [0x0061, 0x0302, 0x0303]),
   (0x1EAD, [0x0061, 0x0323, 0x0302]), (0x00E8, [0x0065, 0x0300]), (0x00E9, [0x0065, 0x0301]),
   (0x1EBB, [0x0065, 0x0309]), (0x1EBD, [0x0065, 0x0303]), (0x1EB9, [0x0065, 0x0323]),
   (0x00EA, [0x0065, 0x0302]), (0x1EC1, [0x0065, 0x0302, 0x0300]),
   (0x1EBF, [0x0065, 0x0302, 0x0301]), (0x1EC3, [0x0065, 0x0302, 0x0309]),
   (0x1EC5, [0x0065, 0x0302, 0x0303]), (0x1EC7, [0x0065, 0x0323, 0x0302]),
   (0x00EC, [0x0069, 0x0300]), (0x00ED, [0x0069, 0x0301]), (0x1EC9, [0x0069, 0x0309]),
   (0x0129, [0x0069, 0x0303]), (0x1ECB, [0x0069, 0x0323]), (0x00F2, [0x006F, 0x0300]),
   (0x00F3, [0x006F, 0x0301]), (0x1ECF, [0x006F, 0x0309]), (0x00F5, [0x006F, 0x0303]),
   (0x1ECD, [0x006F, 0x0323]), (0x00F4, [0x006F, 0x0302]), (0x1ED3, [0x006F, 0x0302, 0x0300]),
   (0x1ED1, [0x006F, 0x0302, 0x0301]), (0x1ED5, [0x006F, 0x0302, 0x0309]),
   (0x1ED7, [0x006F, 0x0302, 0x0303]), (0x1ED9, [0x006F, 0x0323, 0x0302]),
   (0x01A1, [0x006F, 0x031B]), (0x1EDD, [0x006F, 0x031B, 0x0300]),
   (0x1EDB, [0x006F, 0x031B, 0x0301]), (0x1EDF, [0x006F, 0x031B, 0x0309]),
   (0x1EE1, [0x006F, 0x031B, 0x0303]), (0x1EE3, [0x006F, 0x031B, 0x0323]),
   (0x00F9, [0x0075, 0x0300]), (0x00FA, [0x0075, 0x0301]), (0x1EE7, [0x0075, 0x0309]),
   (0x0169, [0x0075, 0x0303]), (0x1EE5, [0x0075, 0x0323]), (0x01B0, [0x0075, 0x031B]),
   (0x1EEB, [0x0075, 0x031B, 0x0300]), (0x1EE9, [0x0075, 0x031B, 0x0301]),
   (0x1EED, [0x0075, 0x031B, 0x0309]), (0x1EEF, [0x0075, 0x031B, 0x0303]),
   (0x1EF1, [0x0075, 0x031B, 0x0323]), (0x1EF3, [0x0079, 0x0300]), (0x00FD, [0x0079, 0x0301]),
   (0x1EF7, [0x0079, 0x0309]), (0x1EF9, [0x0079, 0x0303]), (0x1EF5, [0x0079, 0x0323])]

/-- Lower case of one character, for ASCII, Latin-1 and the Vietnamese
alphabet. -/
def sampleLower (c : Char) : Char :=
  let n := c.toNat
  if (0x41 ≤ n ∧ n ≤ 0x5A) ∨ (0xC0 ≤ n ∧ n ≤ 0xDE ∧ n ≠ 0xD7) then Char.ofNat (n + 32)
  else if n = 0x102 ∨ n = 0x110 ∨ n = 0x128 ∨ n = 0x168 ∨ n = 0x1A0 ∨ n = 0x1AF ∨
      (0x1EA0 ≤ n ∧ n ≤ 0x1EF8 ∧ n % 2 = 0) then Char.ofNat (n + 1)
  else c

/-- Canonical decomposition of one character, for the Vietnamese alphabet. -/
def sampleDecompose (c : Char) : List Char :=
  match vietnameseDecompositions.lookup c.toNat with
  | some d => d.map Char.ofNat
  | none => [c]

/-- Decimal digits of a natural number, with fuel. -/
def natDigits : Nat → Nat → List Char
  | 0, _ => []
  | fuel + 1, n => if n < 10 then [digitChar n] else natDigits fuel (n / 10) ++ [digitChar n]

/-- A runtime for the closed examples: case mapping and canonical
decomposition restricted to ASCII, Latin-1 and the Vietnamese alphabet,
numbers printed by their integer part, and a `Date.parse` that rejects every
string outside the ISO date-only form. -/
def testRuntime : Runtime where
  toLowerCase := fun cs => cs.map sampleLower
  normalizeNFD := fun cs => (cs.map sampleDecompose).flatten
  numberToString := fun n =>
    match n with
    | .nan => "NaN".data
    | .posInf => "Infinity".data
    | .negInf => "-Infinity".data
    | .fin q => (if q < 0 then ['-'] else []) ++ natDigits 400 (⌊|q|⌋).toNat
  dateToString := fun _ => "Invalid Date".data
  dateParseOther := fun _ => none

/-! ## Sample rows -/

/-- A data row: column A unused, then name, amounts, address, order date,
tracking code and received cell. -/
def sampleRow : List Cell :=
  [.num (.fin 1), .str "Ao thun", .str "120.000", .num (.fin 99000), .str " HN01 ",
    .num (.fin 45000), .str " VN123 ", .str "15/6/2023"]

/-- The import fields built from `sampleRow`. -/
def sampleFields : ImportFields :=
  { product_name := .str "Ao thun"
    original_amount := some (.fin 120000)
    discounted_amount := some (.fin 99000)
    address_code := some "HN01"
    order_date := some "2023-03-15"
    received_date := some "2023-06-15"
    status := .DA_NHAN
    note := none
    shop_name := none }

/-- The upsert issued for `sampleRow`. -/
def sampleArgs : UpsertArgs :=
  { whereTrackingCode := "VN123"
    createFields := sampleFields
    createTrackingCode := "VN123"
    updateFields := sampleFields }

/-- A row whose tracking-code cell holds white space only. -/
def blankCodeRow : List Cell :=
  [.num (.fin 2), .str "Ao thun", .str "120.000", .num (.fin 99000), .str "HN01",
    .num (.fin 45000), .str "   ", .str "hoan"]

/-! ## The year rule in the words of the specification -/

/-- The two-digit year rule in the words of the specification: a token below
50 is a year of the 2000s, a token of 50 or above a year of the 1900s. -/
def specYearValue (y : List Char) : Nat :=
  if digitsVal y < 50 then 2000 + digitsVal y else 1900 + digitsVal y

instance (c : Cell) : Decidable (isFalsy c) := by
  unfold isFalsy
  infer_instance

/-! ## Settlements -/

/-- A rejected settlement. -/
def isRejected : UpsertResult → Bool
  | .error _ => true
  | .ok _ => false

/-- A settlement resolved with a record object. -/
def isRecord : UpsertResult → Bool
  | .ok (some _) => true
  | _ => false

/-- A settlement resolved with `null`. -/
def isNull : UpsertResult → Bool
  | .ok none => true
  | _ => false

/-! ## Sample sheets and records -/

/-- A header row; the import never reads it. -/
def headerRow : Option (List Cell) :=
  some [.str "STT", .str "Ten san pham", .str "Gia goc", .str "Gia giam", .str "Ma dia chi",
    .str "Ngay dat", .str "Ma van don", .str "Ngay nhan"]

/-- A later row with the tracking code of `sampleRow` and other values. -/
def sampleRowLater : List Cell :=
  [.num (.fin 2), .str "Quan dai", .str "250.000", .str "200.000", .str "HN02",
    .str "16/6/2023", .str "VN123", .str "hoan hang"]

/-- The import fields built from `sampleRowLater`. -/
def sampleFieldsLater : ImportFields :=
  { product_name := .str "Quan dai"
    original_amount := some (.fin 250000)
    discounted_amount := some (.fin 200000)
    address_code := some "HN02"
    order_date := some "2023-06-16"
    received_date := none
    status := .HOAN
    note := none
    shop_name := none }

/-- The upsert issued for `sampleRowLater`. -/
def sampleArgsLater : UpsertArgs :=
  { whereTrackingCode := "VN123"
    createFields := sampleFieldsLater
    createTrackingCode := "VN123"
    updateFields := sampleFieldsLater }

/-- A row with another tracking code. -/
def otherRow : List Cell :=
  [.num (.fin 3), .str "Mu len", .num (.fin 50000), .num (.fin 45000), .str "HN03",
    .str "17/6/2023", .str "VN456", .undefined]

/-- The import fields built from `otherRow`. -/
def otherFields : ImportFields :=
  { product_name := .str "Mu len"
    original_amount := some (.fin 50000)
    discounted_amount := some (.fin 45000)
    address_code := some "HN03"
    order_date := some "2023-06-17"
    received_date := none
    status := .CHUA_NHAN
    note := none
    shop_name := none }

/-- The upsert issued for `otherRow`. -/
def otherArgs : UpsertArgs :=
  { whereTrackingCode := "VN456"
    createFields := otherFields
    createTrackingCode := "VN456"
    updateFields := otherFields }

/-- A row with a tracking code whose order-date cell holds the number
123456789012. -/
def badDateRow : List Cell :=
  [.num (.fin 4), .str "Ao thun", .str "120.000", .num (.fin 99000), .str "HN01",
    .num (.fin 123456789012), .str "VN999", .undefined]

/-- The record of `sampleRow` after a manual edit of `note` and
`shop_name`. -/
def editedRecord : OrderRecord :=
  { id := 7
    tracking_code := "VN123"
    fields := { sampleFields with note := some "VIP", shop_name := some "Shop A" } }

/-- A workbook with the single sheet `2025` holding the given rows. -/
def workbookOf (rows : List (Option (List Cell))) : Workbook :=
  { SheetNames := ["2025"]
    Sheets := fun name => if name = "2025" then some { rows := rows } else none }

/-- The `k`-th cell of a row, counting cells from 1. -/
def cellNumber (row : List Cell) (k : Nat) : Cell :=
  cellAt row (k - 1)

/-- A workbook with a sheet `2026` before a sheet `2025`. -/
def twoYearWorkbook : Workbook :=
  { SheetNames := ["2026", "2025"]
    Sheets := fun name =>
      if name = "2026" then some { rows := [headerRow, some sampleRow] }
      else if name = "2025" then some { rows := [headerRow, some otherRow] }
      else none }

/-- A workbook without a sheet `2025`. -/
def plainWorkbook : Workbook :=
  { SheetNames := ["Sheet1", "Sheet2"]
    Sheets := fun name =>
      if name = "Sheet1" then some { rows := [headerRow, some sampleRow] }
      else if name = "Sheet2" then some { rows := [headerRow, some otherRow] }
      else none }

/-! ## A store that records -/

/-- A store that only records the operations it receives, oldest first, and
resolves each of them with `null`. -/
def recordingStore : Store (List UpsertArgs) where
  upsert := fun log args => (.ok none, log ++ [args])

/-! ## The cleaning of amounts in the words of the specification -/

/-- The cleaning as the specification words it: every character that is not
a digit, comma or period deleted, every `.` removed, every `,` replaced by
`.`. -/
def specCleanAmount (cs : List Char) : List Char :=
  replaceAll ',' '.' ((cs.filter isAmountChar).filter fun c => c ≠ '.')

/-! ## The manual edit `PUT /api/orders/:id` (`src/index.js`, lines 286-323) -/

/-- A JavaScript value of a parsed request body. -/
inductive JSValue where
  | undefined
  | null
  | bool (b : Bool)
  | num (n : JSNum)
  | str (s : String)
  | arr (items : List JSValue)
  | obj (props : List (String × JSValue))

/-- The test `value == null`: true for `null` and `undefined` only. -/
def JSValue.isNullish : JSValue → Bool
  | .undefined => true
  | .null => true
  | _ => false

/-- The array `fields` of lines 289-300. -/
def orderFieldNames : List String :=
  ["product_name", "original_amount", "discounted_amount", "address_code", "order_date",
    "tracking_code", "received_date", "status", "note", "shop_name"]

/-- The value stored in `data[key]` for the own property `key` of the body
with value `v` (lines 303-311); `toNumber` is the conversion `Number(v)`. -/
def editValue (toNumber : JSValue → JSNum) (key : String) (v : JSValue) : JSValue :=
  if key = "original_amount" ∨ key = "discounted_amount" then
    if v.isNullish then .null else .num (toNumber v)
  else v

/-- The object `data` built by lines 288-313 from the request body, an
object given by its own properties: for each of the ten fields that is an own
property of the body, in the order of `fields`, the key and its value. -/
def editData (toNumber : JSValue → JSNum) (body : List (String × JSValue)) :
    List (String × JSValue) :=
  orderFieldNames.filterMap fun key =>
    (body.lookup key).map fun v => (key, editValue toNumber key v)

/-- The argument of `prisma.order.update` of lines 315-318. -/
structure UpdateArgs where
  whereId : JSNum
  data : List (String × JSValue)

/-- The update the handler issues for the route parameter `id` and the
request body. -/
def editArgs (toNumber : JSValue → JSNum) (id : String) (body : List (String × JSValue)) :
    UpdateArgs :=
  { whereId := toNumber (.str id), data := editData toNumber body }

/-- Modelled from the spec: the partial field update of a record, seen as a
map from column names to values; the table and its client are not under
`src/`.  The columns named in `data` take the values of `data`, every other
column keeps its value. -/
def applyData (record : String → JSValue) (data : List (String × JSValue)) :
    String → JSValue :=
  fun column =>
    match data.lookup column with
    | some v => v
    | none => record column

/-- A request body that sets `note`, gives `original_amount` as text and
`discounted_amount` as `null`, and carries a key that is no order field. -/
def sampleBody : List (String × JSValue) :=
  [("note", .str "VIP"), ("original_amount", .str "120000"), ("discounted_amount", .null),
    ("id", .num (.fin 99))]

/-- A conversion `Number(v)` for the closed examples: numbers are kept, the
text `120000` is the number 120000, every other value is `NaN`. -/
def sampleToNumber : JSValue → JSNum
  | .num n => n
  | .str s => if s = "120000" then .fin 120000 else .nan
  | _ => .nan

/-- A record before the edit, as a map from column names to values. -/
def sampleColumns : String → JSValue :=
  fun column =>
    if column = "tracking_code" then .str "VN123"
    else if column = "status" then .str "DA_NHAN"
    else if column = "original_amount" then .num (.fin 5)
    else .null

/-! ## The monthly statistics `GET /api/stats/monthly` (`src/index.js`, lines 426-455) -/

/-- Addition of numbers. -/
def JSNum.add : JSNum → JSNum → JSNum
  | .fin a, .fin b => .fin (a + b)
  | .nan, _ => .nan
  | _, .nan => .nan
  | .posInf, .negInf => .nan
  | .negInf, .posInf => .nan
  | .posInf, _ => .posInf
  | .negInf, _ => .negInf
  | .fin _, .posInf => .posInf
  | .fin _, .negInf => .negInf

/-- A row fetched by `findMany` with the three selected columns. -/
structure StatRow where
  order_date : Cell
  original_amount : Cell
  discounted_amount : Cell

/-- An entry of the object `map`, one per month key. -/
structure MonthEntry where
  month : String
  total_orders : Nat
  total_original : JSNum
  total_discounted : JSNum
  total_profit : JSNum
  deriving DecidableEq

/-- The call `s.slice(0, n)`: the longest prefix of at most `n` UTF-16 code
units.  A character of two code units that straddles the limit is left out
(JavaScript keeps its first half, a lone surrogate). -/
def sliceUnits : Nat → List Char → List Char
  | _, [] => []
  | n, c :: cs => if unitLength c ≤ n then c :: sliceUnits (n - unitLength c) cs else []

/-- The property names every plain object inherits from `Object.prototype`;
the inherited values are functions or objects, so they are truthy. -/
def objectPrototypeKeys : List String :=
  ["constructor", "__defineGetter__", "__defineSetter__", "hasOwnProperty",
    "__lookupGetter__", "__lookupSetter__", "isPrototypeOf", "propertyIsEnumerable",
    "toString", "valueOf", "__proto__", "toLocaleString"]

/-- The key of a row (lines 429-431): none when `order_date` is falsy or the
key is empty, else `String(row.order_date).slice(0, 7)`. -/
def monthKey (R : Runtime) (row : StatRow) : Option String :=
  if !row.order_date.truthy then none
  else
    let key := sliceUnits 7 (jsString R row.order_date)
    if key.isEmpty then none else some (String.mk key)

/-- The entry created by lines 433-439. -/
def emptyEntry (key : String) : MonthEntry :=
  { month := key, total_orders := 0, total_original := .fin 0, total_discounted := .fin 0,
    total_profit := .fin 0 }

/-- The amount a column adds to a total: the value when
`typeof value === "number"`, nothing otherwise. -/
def addAmount (total : JSNum) : Cell → JSNum
  | .num n => total.add n
  | _ => total

/-- Lines 441-449 on the entry of the row's key. -/
def addRow (e : MonthEntry) (row : StatRow) : MonthEntry :=
  { month := e.month
    total_orders := e.total_orders + 1
    total_original := addAmount e.total_original row.original_amount
    total_discounted := addAmount e.total_discounted row.discounted_amount
    total_profit :=
      (addAmount e.total_original row.original_amount).sub
        (addAmount e.total_discounted row.discounted_amount) }

/-- The body of `rows.forEach` on the own entries of `map`, in insertion
order.  When `map` has no own entry for the key but `map[key]` is an
inherited property, `!map[key]` is false: no entry is created and the updates
of lines 441-449 land on the inherited object, so the own entries stay as
they are. -/
def statsStep (R : Runtime) (map : List MonthEntry) (row : StatRow) : List MonthEntry :=
  match monthKey R row with
  | none => map
  | some key =>
    if map.any (fun e => e.month = key) then
      map.map fun e => if e.month = key then addRow e row else e
    else if key ∈ objectPrototypeKeys then map
    else map ++ [addRow (emptyEntry key) row]

/-- An array index: the canonical decimal text of an integer below
`2^32 - 1`. -/
def isArrayIndex (key : String) : Bool :=
  !key.data.isEmpty && key.data.all isDigit && (key.data.head? != some '0' || key.data.length = 1)
    && digitsVal key.data < 4294967295

/-- The call `Object.values(map)`: the entries under array-index keys in
ascending numeric order, then the other entries in insertion order. -/
def objectValues (map : List MonthEntry) : List MonthEntry :=
  (map.filter fun e => isArrayIndex e.month).insertionSort
      (fun a b => digitsVal a.month.data ≤ digitsVal b.month.data) ++
    map.filter fun e => !isArrayIndex e.month

/-- The handler of lines 426-454 on the fetched rows: the entries of `map`
sorted by `a.month.localeCompare(b.month)`.  `Array.prototype.sort` is
stable; for a comparator that is a total preorder the result is the stable
sorted arrangement, computed here by insertion. -/
def monthlyStats (R : Runtime) (localeCompare : String → String → Int) (rows : List StatRow) :
    List MonthEntry :=
  (objectValues (rows.foldl (statsStep R) [])).insertionSort
    fun a b => localeCompare a.month b.month ≤ 0

/-- The comparison of two strings by code units, as a stand-in for
`localeCompare` in the closed examples: -1, 0 or 1. -/
def codeUnitCompare (a b : String) : Int :=
  if jsGt b.data a.data then -1 else if jsGt a.data b.data then 1 else 0

/-- Fetched rows of June and March 2023. -/
def sampleStatRows : List StatRow :=
  [{ order_date := .str "2023-06-15", original_amount := .num (.fin 120000),
     discounted_amount := .num (.fin 99000) },
    { order_date := .str "2023-03-15", original_amount := .num (.fin 50000),
      discounted_amount := .null },
    { order_date := .str "2023-06-16", original_amount := .num (.fin 250000),
      discounted_amount := .num (.fin 200000) },
    { order_date := .null, original_amount := .num (.fin 1), discounted_amount := .null }]

/-- A fetched row whose `order_date` is the text `valueOf`. -/
def inheritedKeyRow : StatRow :=
  { order_date := .str "valueOf", original_amount := .num (.fin 70000),
    discounted_amount := .num (.fin 60000) }

/-- The distinct elements of a list of keys, in order of first occurrence. -/
def distinctKeys (keys : List String) : List String :=
  keys.foldl (fun acc k => if k ∈ acc then acc else acc ++ [k]) []

/-- The entry of a month key accumulated over the rows of that key, in row
order. -/
def entryOf (R : Runtime) (key : String) (rows : List StatRow) : MonthEntry :=
  (rows.filter fun row => monthKey R row = some key).foldl addRow (emptyEntry key)

/-- The amount a column contributes to a sum: the value of a number, zero for
anything else. -/
def amountOf : Cell → JSNum
  | .num n => n
  | _ => .fin 0

/-- The sum of a list of numbers, added from the left starting from zero. -/
def sumAmounts (xs : List JSNum) : JSNum :=
  xs.foldl JSNum.add (.fin 0)

/-- The rows of a month key. -/
def rowsOfMonth (R : Runtime) (key : String) (rows : List StatRow) : List StatRow :=
  rows.filter fun row => monthKey R row = some key

/-! ## Lemmas on `parseFloat` over cleaned amount strings -/

/-- Characters that survive the first two replacements of `cleanAmount`. -/
def isDigitOrComma (c : Char) : Bool :=
  isDigit c || c = ','

theorem isDigit_not_special {c : Char} (h : isDigit c = true) :
    isJSWhitespace c = false ∧ c ≠ '+' ∧ c ≠ '-' ∧ c ≠ 'I' ∧ c ≠ '.' ∧ c ≠ ',' ∧
      c ≠ 'e' ∧ c ≠ 'E' := by
  simp only [isDigit, Bool.and_eq_true, decide_eq_true_eq] at h
  refine ⟨?_, ?_, ?_, ?_, ?_, ?_, ?_, ?_⟩
  · simp only [isJSWhitespace, Bool.or_eq_false_iff, decide_eq_false_iff_not,
      Bool.and_eq_false_imp, decide_eq_true_eq]
    omega
  all_goals
    rintro rfl
    revert h
    decide

theorem amountChar_cases {c : Char} (h : isAmountChar c = true) :
    isDigit c = true ∨ c = '.' ∨ c = ',' := by
  simpa [isAmountChar, or_assoc] using h

theorem parseFloat_amountChars (x : List Char) (hx : ∀ c ∈ x, isAmountChar c = true) :
    parseFloat x = parseUnsignedDecimal x := by
  cases x with
  | nil => rfl
  | cons c t =>
    have hc := amountChar_cases (hx c (List.mem_cons_self _ _))
    have hws : isJSWhitespace c = false := by
      rcases hc with h | rfl | rfl
      · exact (isDigit_not_special h).1
      · decide
      · decide
    have hplus : c ≠ '+' := by
      rcases hc with h | rfl | rfl
      · exact (isDigit_not_special h).2.1
      · decide
      · decide
    have hminus : c ≠ '-' := by
      rcases hc with h | rfl | rfl
      · exact (isDigit_not_special h).2.2.1
      · decide
      · decide
    have hI : c ≠ 'I' := by
      rcases hc with h | rfl | rfl
      · exact (isDigit_not_special h).2.2.2.1
      · decide
      · decide
    have htrim : trimStart (c :: t) = c :: t := by
      simp [trimStart, List.dropWhile_cons, hws]
    unfold parseFloat
    rw [htrim]
    have hpre : ("Infinity".data.isPrefixOf (c :: t)) = false := by
      show (['I', 'n', 'f', 'i', 'n', 'i', 't', 'y'].isPrefixOf (c :: t)) = false
      simp [List.isPrefixOf, Ne.symm hI]
    split
    · rename_i r heq
      exact absurd (List.cons.inj heq).1 hplus
    · rename_i r heq
      exact absurd (List.cons.inj heq).1 hminus
    · simp [parseUnsigned, hpre]

theorem isDigit_comma : isDigit ',' = false := by decide

theorem isDigit_dot : isDigit '.' = false := by decide

theorem takeWhile_replaceAll (l : List Char) :
    (replaceAll ',' '.' l).takeWhile isDigit = l.takeWhile isDigit := by
  induction l with
  | nil => rfl
  | cons c t ih =>
    by_cases hc : c = ','
    · subst hc
      simp [replaceAll, List.takeWhile_cons, isDigit_comma, isDigit_dot]
    · have : replaceAll ',' '.' (c :: t) = c :: replaceAll ',' '.' t := by
        simp [replaceAll, hc]
      rw [this, List.takeWhile_cons, List.takeWhile_cons, ih]

theorem dropWhile_replaceAll (l : List Char) :
    (replaceAll ',' '.' l).dropWhile isDigit = replaceAll ',' '.' (l.dropWhile isDigit) := by
  induction l with
  | nil => rfl
  | cons c t ih =>
    by_cases hc : c = ','
    · subst hc
      simp [replaceAll, List.dropWhile_cons, isDigit_comma, isDigit_dot]
    · have : replaceAll ',' '.' (c :: t) = c :: replaceAll ',' '.' t := by
        simp [replaceAll, hc]
      rw [this, List.dropWhile_cons, List.dropWhile_cons, ih]
      split
      · rfl
      · exact this.symm

theorem takeWhile_replaceFirst (l : List Char) :
    (replaceFirst ',' '.' l).takeWhile isDigit = l.takeWhile isDigit := by
  induction l with
  | nil => rfl
  | cons c t ih =>
    by_cases hc : c = ','
    · subst hc
      simp [replaceFirst, List.takeWhile_cons, isDigit_comma, isDigit_dot]
    · simp only [replaceFirst, hc, if_false, List.takeWhile_cons, ih]

theorem dropWhile_replaceFirst (l : List Char) :
    (replaceFirst ',' '.' l).dropWhile isDigit = replaceFirst ',' '.' (l.dropWhile isDigit) := by
  induction l with
  | nil => rfl
  | cons c t ih =>
    by_cases hc : c = ','
    · subst hc
      simp [replaceFirst, List.dropWhile_cons, isDigit_comma, isDigit_dot]
    · simp only [replaceFirst, hc, if_false, List.dropWhile_cons, ih]
      split
      · rfl
      · simp [replaceFirst, hc]

/-- After the digits of a list of digits and commas comes a comma or the
end. -/
theorem dropWhile_digitOrComma (l : List Char) (hl : ∀ c ∈ l, isDigitOrComma c = true) :
    l.dropWhile isDigit = [] ∨ ∃ r, l.dropWhile isDigit = ',' :: r ∧
      ∀ c ∈ r, isDigitOrComma c = true := by
  induction l with
  | nil => exact Or.inl rfl
  | cons c t ih =>
    have ht : ∀ c ∈ t, isDigitOrComma c = true := fun x hx => hl x (List.mem_cons_of_mem _ hx)
    by_cases hd : isDigit c = true
    · simpa [List.dropWhile_cons, hd] using ih ht
    · have hc : c = ',' := by
        have := hl c (List.mem_cons_self _ _)
        simpa [isDigitOrComma, hd] using this
      subst hc
      exact Or.inr ⟨t, by simp [List.dropWhile_cons, isDigit_comma], ht⟩

theorem exponentPart_comma (r : List Char) : exponentPart (',' :: r) = 0 := by
  simp [exponentPart]

theorem exponentPart_dot (r : List Char) : exponentPart ('.' :: r) = 0 := by
  simp [exponentPart]

/-- The exponent part is empty after the fraction digits of a cleaned amount,
whether its later commas were replaced or not. -/
theorem exponentPart_after_fraction (r : List Char) (hr : ∀ c ∈ r, isDigitOrComma c = true) :
    exponentPart (r.dropWhile isDigit) = 0 ∧
      exponentPart ((replaceAll ',' '.' r).dropWhile isDigit) = 0 := by
  rw [dropWhile_replaceAll]
  rcases dropWhile_digitOrComma r hr with h | ⟨r2, h, _⟩
  · rw [h]
    exact ⟨rfl, rfl⟩
  · rw [h]
    exact ⟨exponentPart_comma _, by simp [replaceAll, exponentPart]⟩

/-- Replacing the first comma or every comma of a list of digits and commas
gives the same longest decimal prefix. -/
theorem parseUnsignedDecimal_replace (l : List Char) (hl : ∀ c ∈ l, isDigitOrComma c = true) :
    parseUnsignedDecimal (replaceFirst ',' '.' l) =
      parseUnsignedDecimal (replaceAll ',' '.' l) := by
  unfold parseUnsignedDecimal
  simp only [takeWhile_replaceFirst, takeWhile_replaceAll, dropWhile_replaceFirst,
    dropWhile_replaceAll]
  rcases dropWhile_digitOrComma l hl with h | ⟨r, h, hr⟩
  · rw [h]
    rfl
  · rw [h]
    have h1 : replaceFirst ',' '.' (',' :: r) = '.' :: r := by simp [replaceFirst]
    have h2 : replaceAll ',' '.' (',' :: r) = '.' :: replaceAll ',' '.' r := by
      simp [replaceAll]
    rw [h1, h2]
    simp only [takeWhile_replaceAll, (exponentPart_after_fraction r hr).1,
      (exponentPart_after_fraction r hr).2]

theorem mem_replaceFirst {l : List Char} {c : Char} (h : c ∈ replaceFirst ',' '.' l) :
    c = '.' ∨ c ∈ l := by
  induction l with
  | nil => simp [replaceFirst] at h
  | cons a t ih =>
    by_cases ha : a = ','
    · simp only [replaceFirst, ha, if_true, List.mem_cons] at h
      rcases h with h | h
      · exact Or.inl h
      · exact Or.inr (List.mem_cons_of_mem _ h)
    · simp only [replaceFirst, ha, if_false, List.mem_cons] at h
      rcases h with h | h
      · exact Or.inr (h ▸ List.mem_cons_self _ _)
      · rcases ih h with h | h
        · exact Or.inl h
        · exact Or.inr (List.mem_cons_of_mem _ h)

theorem mem_replaceAll {l : List Char} {c : Char} (h : c ∈ replaceAll ',' '.' l) :
    c = '.' ∨ c ∈ l := by
  simp only [replaceAll, List.mem_map] at h
  obtain ⟨a, ha, rfl⟩ := h
  by_cases hc : a = ','
  · simp [hc]
  · simp [hc, ha]

/-- The code's cleaning and the cleaning with every comma replaced parse to
the same number. -/
theorem parseFloat_clean_eq (cs : List Char) :
    parseFloat (cleanAmount cs) =
      parseFloat (replaceAll ',' '.' ((cs.filter isAmountChar).filter fun c => c ≠ '.')) := by
  have hl : ∀ c ∈ (cs.filter isAmountChar).filter (fun c => c ≠ '.'),
      isDigitOrComma c = true := by
    intro c hc
    simp only [List.mem_filter, decide_eq_true_eq] at hc
    rcases amountChar_cases hc.1.2 with h | h | h
    · simp [isDigitOrComma, h]
    · exact absurd h hc.2
    · simp [isDigitOrComma, h]
  have hamount : ∀ c, isDigitOrComma c = true → isAmountChar c = true := by
    intro c hc
    simp only [isDigitOrComma, Bool.or_eq_true, decide_eq_true_eq] at hc
    rcases hc with h | h
    · simp [isAmountChar, h]
    · simp [isAmountChar, h]
  have hdot : isAmountChar '.' = true := by decide
  rw [cleanAmount, parseFloat_amountChars, parseFloat_amountChars,
    parseUnsignedDecimal_replace _ hl]
  · intro c hc
    rcases mem_replaceAll hc with h | h
    · exact h ▸ hdot
    · exact hamount c (hl c h)
  · intro c hc
    rcases mem_replaceFirst hc with h | h
    · exact h ▸ hdot
    · exact hamount c (hl c h)

/-! ## Calendar lemmas -/

theorem yearFromDay_spec (D : Int) :
    dayFromYear (yearFromDay D) ≤ D ∧ D < dayFromYear (yearFromDay D + 1) := by
  unfold yearFromDay
  simp only []
  split_ifs with h1 h2
  · refine ⟨h1, ?_⟩
    unfold dayFromYear
    omega
  · exact ⟨h2, not_le.mp h1⟩
  · refine ⟨?_, ?_⟩
    · unfold dayFromYear
      omega
    · have : (1970 + D * 400 / 146097 - 1 + 1 : Int) = 1970 + D * 400 / 146097 := by omega
      rw [this]
      exact not_le.mp h2

theorem dayFromYear_succ (y : Int) : dayFromYear (y + 1) = dayFromYear y + daysInYear y := by
  unfold dayFromYear daysInYear
  split_ifs <;> omega

theorem daysInYear_cases (y : Int) : daysInYear y = 365 ∨ daysInYear y = 366 := by
  unfold daysInYear
  split_ifs <;> simp

theorem dayFromYear_add (y : Int) (k : Nat) : dayFromYear y ≤ dayFromYear (y + k) := by
  induction k with
  | zero => simp
  | succ k ih =>
    have h := dayFromYear_succ (y + k)
    have hc := daysInYear_cases (y + k)
    have e : y + ((k + 1 : Nat) : Int) = y + (k : Int) + 1 := by push_cast; ring
    rw [e, h]
    omega

theorem dayFromYear_mono {y z : Int} (h : y ≤ z) : dayFromYear y ≤ dayFromYear z := by
  obtain ⟨k, rfl⟩ := Int.le.dest h
  exact dayFromYear_add y k

theorem yearFromDay_unique (D y : Int) (h1 : dayFromYear y ≤ D) (h2 : D < dayFromYear (y + 1)) :
    yearFromDay D = y := by
  have hs := yearFromDay_spec D
  rcases lt_trichotomy (yearFromDay D) y with h | h | h
  · have := dayFromYear_mono (show yearFromDay D + 1 ≤ y by omega)
    omega
  · exact h
  · have := dayFromYear_mono (show y + 1 ≤ yearFromDay D by omega)
    omega

set_option maxRecDepth 1000000 in
/-- Within a year the month and day tables advance as the calendar does. -/
theorem yearDay_succ : ∀ l : Nat, l < 2 → ∀ d : Nat, d < 366 → (d : Int) + 1 < 365 + l →
    (dateOfYearDay l d < monthLength l (monthOfYearDay l d + 1) ∧
        monthOfYearDay l (d + 1) = monthOfYearDay l d ∧
        dateOfYearDay l (d + 1) = dateOfYearDay l d + 1) ∨
      (¬ dateOfYearDay l d < monthLength l (monthOfYearDay l d + 1) ∧
        monthOfYearDay l d + 1 < 12 ∧
        monthOfYearDay l (d + 1) = monthOfYearDay l d + 1 ∧
        dateOfYearDay l (d + 1) = 1) := by
  decide

/-- The last day of a year is 31 December. -/
theorem yearDay_last : ∀ l : Nat, l < 2 →
    monthOfYearDay l (364 + l) = 11 ∧ dateOfYearDay l (364 + l) = 31 := by
  decide

theorem inLeapYear_cases (y : Int) :
    ((if daysInYear y = 366 then 1 else 0 : Int) = ((0 : Nat) : Int) ∧ daysInYear y = 365) ∨
      ((if daysInYear y = 366 then 1 else 0 : Int) = ((1 : Nat) : Int) ∧ daysInYear y = 366) := by
  rcases daysInYear_cases y with h | h <;> simp [h]

/-- The date of the next day number is the next calendar day. -/
theorem civilOfDay_succ (D : Int) : civilOfDay (D + 1) = nextDay (civilOfDay D) := by
  have hs := yearFromDay_spec D
  have hsucc := dayFromYear_succ (yearFromDay D)
  obtain ⟨d, hd⟩ : ∃ d : Nat, D - dayFromYear (yearFromDay D) = (d : Int) :=
    ⟨(D - dayFromYear (yearFromDay D)).toNat, by omega⟩
  by_cases hlast : D + 1 < dayFromYear (yearFromDay D + 1)
  · have hy : yearFromDay (D + 1) = yearFromDay D :=
      yearFromDay_unique (D + 1) _ (by omega) hlast
    have hd1 : D + 1 - dayFromYear (yearFromDay D) = (d : Int) + 1 := by omega
    simp only [civilOfDay, nextDay, monthFromDay, dateFromDay, dayWithinYear, inLeapYear,
      daysInMonth, hy, hd, hd1]
    rcases inLeapYear_cases (yearFromDay D) with ⟨hl, hdy⟩ | ⟨hl, hdy⟩
    · rw [hl]
      rcases yearDay_succ 0 (by decide) d (by omega) (by push_cast; omega) with h | h
      · rw [if_pos h.1, h.2.1, h.2.2]
      · rw [if_neg h.1, if_pos h.2.1, h.2.2.1, h.2.2.2]
    · rw [hl]
      rcases yearDay_succ 1 (by decide) d (by omega) (by push_cast; omega) with h | h
      · rw [if_pos h.1, h.2.1, h.2.2]
      · rw [if_neg h.1, if_pos h.2.1, h.2.2.1, h.2.2.2]
  · have hD : D + 1 = dayFromYear (yearFromDay D + 1) := by omega
    have hy : yearFromDay (D + 1) = yearFromDay D + 1 := by
      apply yearFromDay_unique
      · omega
      · have := dayFromYear_succ (yearFromDay D + 1)
        have := daysInYear_cases (yearFromDay D + 1)
        omega
    have hd1 : D + 1 - dayFromYear (yearFromDay D + 1) = 0 := by omega
    have hfirst : ∀ l : Int, monthOfYearDay l 0 = 0 ∧ dateOfYearDay l 0 = 1 := by
      intro l
      have hm : monthOfYearDay l 0 = 0 := by simp [monthOfYearDay]
      exact ⟨hm, by simp [dateOfYearDay, hm]⟩
    simp only [civilOfDay, nextDay, monthFromDay, dateFromDay, dayWithinYear, inLeapYear,
      daysInMonth, hy, hd, hd1, (hfirst _).1, (hfirst _).2]
    rcases inLeapYear_cases (yearFromDay D) with ⟨hl, hdy⟩ | ⟨hl, hdy⟩
    · rw [hl]
      have hd364 : (d : Int) = 364 + ((0 : Nat) : Int) := by push_cast; omega
      have h := yearDay_last 0 (by decide)
      rw [hd364, h.1, h.2]
      simp [monthLength]
    · rw [hl]
      have hd364 : (d : Int) = 364 + ((1 : Nat) : Int) := by push_cast; omega
      have h := yearDay_last 1 (by decide)
      rw [hd364, h.1, h.2]
      simp [monthLength]

theorem civilOfDay_iterate (D : Int) (n : Nat) :
    nextDay^[n] (civilOfDay D) = civilOfDay (D + n) := by
  induction n with
  | zero => simp
  | succ k ih =>
    rw [Function.iterate_succ_apply', ih, ← civilOfDay_succ]
    congr 1
    push_cast
    ring

theorem civilOfDay_epoch : civilOfDay (-25569) = spreadsheetEpoch := by
  decide

theorem yearFromDay_range (D : Int) (h1 : -719528 ≤ D) (h2 : D ≤ 2932896) :
    0 ≤ yearFromDay D ∧ yearFromDay D ≤ 9999 := by
  have hs := yearFromDay_spec D
  have e0 : dayFromYear 0 = -719528 := by decide
  have e1 : dayFromYear 10000 = 2932897 := by decide
  constructor
  · by_contra hneg
    have := dayFromYear_mono (show yearFromDay D + 1 ≤ 0 by omega)
    omega
  · by_contra hbig
    have := dayFromYear_mono (show (10000 : Int) ≤ yearFromDay D by omega)
    omega

/-- The first ten characters of `toISOString` for a date of the years 0 to
9999 are its calendar date. -/
theorem toISOString_take (t : Int) (h : 0 ≤ yearFromDay (t / msPerDay) ∧
    yearFromDay (t / msPerDay) ≤ 9999) :
    String.mk ((toISOString t).take 10) = isoDate (civilOfDay (t / msPerDay)) := by
  simp only [toISOString, isoYear, h, and_self, if_true, isoDate, civilOfDay, pad4, pad2]
  rfl

/-- The time value `new Date(Math.round((n - 25569) * 86400 * 1000))` of a
whole serial `n` in the range of time values. -/
theorem serial_time (k : Int) (hk : -maxTime ≤ (k - 25569) * 86400000 ∧
    (k - 25569) * 86400000 ≤ maxTime) :
    newDateOfNum ((((JSNum.fin k).sub (.fin 25569)).mul (.fin 86400)).mul (.fin 1000)).round =
      some ((k - 25569) * 86400000) := by
  have e : ((k : ℚ) - 25569) * 86400 * 1000 + 1 / 2 = (((k - 25569) * 86400000 : Int) : ℚ) + 1 / 2 := by
    push_cast
    ring
  have hfl : ⌊((k : ℚ) - 25569) * 86400 * 1000 + 1 / 2⌋ = (k - 25569) * 86400000 := by
    rw [e, Int.floor_int_add]
    have : ⌊(1 / 2 : ℚ)⌋ = 0 := by
      rw [Int.floor_eq_iff]
      norm_num
    rw [this, add_zero]
  simp only [JSNum.sub, JSNum.mul, JSNum.round, hfl, newDateOfNum]
  have habs : |(((k - 25569) * 86400000 : Int) : ℚ)| ≤ (maxTime : ℚ) := by
    rw [abs_le]
    constructor
    · exact_mod_cast hk.1
    · exact_mod_cast hk.2
  rw [if_pos habs]
  simp only [Int.floor_intCast, Int.ceil_intCast, ite_self]

/-! ## Lemmas on day-first date strings -/

theorem isDigit_bounds {c : Char} (h : isDigit c = true) : 48 ≤ c.toNat ∧ c.toNat ≤ 57 := by
  simpa [isDigit] using h

theorem isDigit_ne_slash {c : Char} (h : isDigit c = true) : c ≠ '/' := by
  rintro rfl
  revert h
  decide

theorem unitLength_digit {c : Char} (h : isDigit c = true) : unitLength c = 1 := by
  have := isDigit_bounds h
  simp only [unitLength]
  rw [if_pos (by omega)]

theorem utf16Units_digit {c : Char} (h : isDigit c = true) : utf16Units c = [c.toNat] := by
  have := isDigit_bounds h
  simp only [utf16Units]
  rw [if_pos (by omega)]

theorem digitChar_toNat (n : Nat) : (digitChar n).toNat = 48 + n % 10 := by
  have h : n % 10 < 10 := Nat.mod_lt _ (by decide)
  unfold digitChar
  generalize n % 10 = k at h
  interval_cases k <;> rfl

theorem isDigit_digitChar (n : Nat) : isDigit (digitChar n) = true := by
  have h : n % 10 < 10 := Nat.mod_lt _ (by decide)
  simp only [isDigit, digitChar_toNat, Bool.and_eq_true, decide_eq_true_eq]
  omega

theorem digitChar_eq {c : Char} (h : isDigit c = true) (n : Nat) (hn : n % 10 = c.toNat - 48) :
    digitChar n = c := by
  have hb := isDigit_bounds h
  unfold digitChar
  rw [hn, show 48 + (c.toNat - 48) = c.toNat by omega, Char.ofNat_toNat]

theorem digitChar_zero (n : Nat) (hn : n % 10 = 0) : digitChar n = '0' := by
  unfold digitChar
  rw [hn]

theorem splitOn_ne_nil (sep : Char) (cs : List Char) : splitOn sep cs ≠ [] := by
  cases cs with
  | nil => simp [splitOn]
  | cons c t =>
    simp only [splitOn]
    split_ifs
    · simp
    · split <;> simp

theorem splitOn_single (sep : Char) (t : List Char) (ht : sep ∉ t) : splitOn sep t = [t] := by
  induction t with
  | nil => rfl
  | cons c t ih =>
    have hc : c ≠ sep := fun h => ht (h ▸ List.mem_cons_self _ _)
    have ht' : sep ∉ t := fun h => ht (List.mem_cons_of_mem _ h)
    simp only [splitOn, hc, if_false, ih ht']

theorem splitOn_append (sep : Char) (t rest : List Char) (ht : sep ∉ t) :
    splitOn sep (t ++ sep :: rest) = t :: splitOn sep rest := by
  induction t with
  | nil => simp [splitOn]
  | cons c t ih =>
    have hc : c ≠ sep := fun h => ht (h ▸ List.mem_cons_self _ _)
    have ht' : sep ∉ t := fun h => ht (List.mem_cons_of_mem _ h)
    show splitOn sep (c :: (t ++ sep :: rest)) = (c :: t) :: splitOn sep rest
    simp only [splitOn, hc, if_false, ih ht']

/-- Trimming removes the white space around a text that starts and ends with
characters that are not white space. -/
theorem trim_surrounded (ws1 ws2 core t t2 : List Char) (x z : Char)
    (h1 : ∀ c ∈ ws1, isJSWhitespace c = true) (h2 : ∀ c ∈ ws2, isJSWhitespace c = true)
    (hx : isJSWhitespace x = false) (hz : isJSWhitespace z = false)
    (hcore : core = x :: t) (hrev : core.reverse = z :: t2) :
    trim (ws1 ++ core ++ ws2) = core := by
  have h2r : ∀ c ∈ ws2.reverse, isJSWhitespace c = true := fun c hc =>
    h2 c (List.mem_reverse.mp hc)
  unfold trim
  rw [List.append_assoc, List.dropWhile_append_of_pos h1]
  have e1 : (core ++ ws2).dropWhile isJSWhitespace = core ++ ws2 := by
    rw [hcore]
    simp [List.dropWhile_cons, hx]
  rw [e1, List.reverse_append, List.dropWhile_append_of_pos h2r, hrev]
  have e2 : (z :: t2).dropWhile isJSWhitespace = z :: t2 := by
    simp [List.dropWhile_cons, hz]
  rw [e2, ← hrev, List.reverse_reverse]

theorem digitsVal_two (a b : Char) : digitsVal [a, b] = 10 * (a.toNat - 48) + (b.toNat - 48) := by
  simp [digitsVal]

theorem digitsVal_one (a : Char) : digitsVal [a] = a.toNat - 48 := by
  simp [digitsVal]

theorem digitsVal_four (a b c e : Char) :
    digitsVal [a, b, c, e] =
      1000 * (a.toNat - 48) + 100 * (b.toNat - 48) + 10 * (c.toNat - 48) + (e.toNat - 48) := by
  simp only [digitsVal, List.foldl]
  omega

theorem pad2_spec (n : Nat) (h : n < 100) :
    (pad2 n).all isDigit = true ∧ digitsVal (pad2 n) = n := by
  refine ⟨by simp [pad2, isDigit_digitChar], ?_⟩
  simp only [pad2, digitsVal_two, digitChar_toNat]
  omega

theorem pad4_spec (n : Nat) (h : n < 10000) :
    (pad4 n).all isDigit = true ∧ digitsVal (pad4 n) = n := by
  refine ⟨by simp [pad4, isDigit_digitChar], ?_⟩
  simp only [pad4, digitsVal_four, digitChar_toNat]
  omega

theorem parseIsoDateOnly_pads (Y M D : Nat) (hY : Y < 10000) (hM : M < 100) (hD : D < 100) :
    parseIsoDateOnly (pad4 Y ++ ['-'] ++ pad2 M ++ ['-'] ++ pad2 D) = some (Y, M, D) := by
  have h4 := pad4_spec Y hY
  have hm := pad2_spec M hM
  have hd := pad2_spec D hD
  simp only [pad4, pad2] at h4 hm hd
  simp only [pad4, pad2, List.cons_append, List.nil_append, parseIsoDateOnly]
  simp only [List.all_cons, List.all_nil, Bool.and_true, Bool.and_eq_true] at h4 hm hd
  simp only [List.all_cons, List.all_nil, Bool.and_true, h4.1, hm.1, hd.1, Bool.and_self, if_true,
    h4.2, hm.2, hd.2]

theorem padStart_short (t : List Char) (ht : isShortToken t) :
    padStart 2 t = pad2 (digitsVal t) ∧ digitsVal t < 100 := by
  obtain ⟨hlen, hdig⟩ := ht
  rcases hlen with h | h
  · obtain ⟨a, rfl⟩ := List.length_eq_one.mp h
    have ha := hdig a (List.mem_cons_self _ _)
    have hb := isDigit_bounds ha
    refine ⟨?_, by rw [digitsVal_one]; omega⟩
    simp only [padStart, jsLength, List.map, List.sum_cons, List.sum_nil, unitLength_digit ha,
      pad2, digitsVal_one]
    rw [digitChar_zero _ (by omega), digitChar_eq ha _ (by omega)]
    rfl
  · obtain ⟨a, b, rfl⟩ := List.length_eq_two.mp h
    have ha := hdig a (List.mem_cons_self _ _)
    have hb := hdig b (List.mem_cons_of_mem _ (List.mem_cons_self _ _))
    have hab := isDigit_bounds ha
    have hbb := isDigit_bounds hb
    refine ⟨?_, by rw [digitsVal_two]; omega⟩
    simp only [padStart, jsLength, List.map, List.sum_cons, List.sum_nil, unitLength_digit ha,
      unitLength_digit hb, pad2, digitsVal_two]
    rw [digitChar_eq ha _ (by omega), digitChar_eq hb _ (by omega)]
    rfl

theorem length_eq_four {l : List Char} (h : l.length = 4) : ∃ a b c e, l = [a, b, c, e] := by
  match l, h with
  | [a, b, c, e], _ => exact ⟨a, b, c, e, rfl⟩

/-- On two-digit tokens the string comparison `y > "50"` is the numeric one. -/
theorem jsGt_fifty (a b : Char) (ha : isDigit a = true) (hb : isDigit b = true) :
    jsGt [a, b] "50".data = decide (50 < digitsVal [a, b]) := by
  have hab := isDigit_bounds ha
  have hbb := isDigit_bounds hb
  have e5 : utf16Units '5' = [53] := by decide
  have e0 : utf16Units '0' = [48] := by decide
  show unitsLt (['5', '0'].map utf16Units).flatten ([a, b].map utf16Units).flatten = _
  simp only [List.map, List.flatten, List.append_nil, List.cons_append, List.nil_append,
    utf16Units_digit ha, utf16Units_digit hb, e5, e0, List.singleton_append, unitsLt,
    digitsVal_two]
  rw [Bool.eq_iff_iff]
  simp only [Bool.or_eq_true, Bool.and_eq_true, decide_eq_true_eq, Bool.or_false,
    Bool.and_false]
  omega

theorem padStart_year (y : List Char) (hy : isYearToken y) :
    padStart 4 (expandYear y) = pad4 (yearValue y) ∧ yearValue y < 10000 := by
  obtain ⟨hlen, hdig⟩ := hy
  rcases hlen with h | h
  · obtain ⟨a, b, rfl⟩ := List.length_eq_two.mp h
    have ha := hdig a (List.mem_cons_self _ _)
    have hb := hdig b (List.mem_cons_of_mem _ (List.mem_cons_self _ _))
    have hab := isDigit_bounds ha
    have hbb := isDigit_bounds hb
    have hlen2 : jsLength [a, b] = 2 := by
      simp [jsLength, unitLength_digit ha, unitLength_digit hb]
    have h1 : unitLength '1' = 1 := by decide
    have h9 : unitLength '9' = 1 := by decide
    have h2 : unitLength '2' = 1 := by decide
    have h0 : unitLength '0' = 1 := by decide
    have hv := digitsVal_two a b
    have t1 : '1'.toNat = 49 := rfl
    have t9 : '9'.toNat = 57 := rfl
    have t2 : '2'.toNat = 50 := rfl
    have t0 : '0'.toNat = 48 := rfl
    simp only [expandYear, hlen2, if_true, jsGt_fifty a b ha hb, yearValue, List.length_cons,
      List.length_nil, decide_eq_true_eq]
    by_cases hgt : 50 < digitsVal [a, b]
    · simp only [hgt, if_true]
      refine ⟨?_, by omega⟩
      show padStart 4 ['1', '9', a, b] = _
      simp only [padStart, jsLength, List.map, List.sum_cons, List.sum_nil, h1, h9,
        unitLength_digit ha, unitLength_digit hb, pad4]
      rw [digitChar_eq (c := '1') (by decide) _ (by simp only [hv]; omega),
        digitChar_eq (c := '9') (by decide) _ (by simp only [hv]; omega),
        digitChar_eq ha _ (by simp only [hv]; omega), digitChar_eq hb _ (by simp only [hv]; omega)]
      rfl
    · simp only [hgt, if_false]
      refine ⟨?_, by omega⟩
      show padStart 4 ['2', '0', a, b] = _
      simp only [padStart, jsLength, List.map, List.sum_cons, List.sum_nil, h2, h0,
        unitLength_digit ha, unitLength_digit hb, pad4]
      rw [digitChar_eq (c := '2') (by decide) _ (by simp only [hv]; omega),
        digitChar_eq (c := '0') (by decide) _ (by simp only [hv]; omega),
        digitChar_eq ha _ (by simp only [hv]; omega), digitChar_eq hb _ (by simp only [hv]; omega)]
      rfl
  · obtain ⟨a, b, c, e, rfl⟩ := length_eq_four h
    have ha := hdig a (by simp)
    have hb := hdig b (by simp)
    have hc := hdig c (by simp)
    have he := hdig e (by simp)
    have hab := isDigit_bounds ha
    have hbb := isDigit_bounds hb
    have hcb := isDigit_bounds hc
    have heb := isDigit_bounds he
    have hlen4 : jsLength [a, b, c, e] = 4 := by
      simp [jsLength, unitLength_digit ha, unitLength_digit hb, unitLength_digit hc,
        unitLength_digit he]
    have hv := digitsVal_four a b c e
    have hyv : yearValue [a, b, c, e] = digitsVal [a, b, c, e] := by
      simp [yearValue]
    rw [hyv]
    refine ⟨?_, by omega⟩
    simp only [expandYear, hlen4, show ¬ ((4 : Nat) = 2) by decide, if_false, padStart,
      Nat.sub_self, List.replicate, List.nil_append, pad4]
    rw [digitChar_eq ha _ (by simp only [hv]; omega), digitChar_eq hb _ (by simp only [hv]; omega),
      digitChar_eq hc _ (by simp only [hv]; omega), digitChar_eq he _ (by simp only [hv]; omega)]

theorem not_mem_digits {t : List Char} {c : Char} (ht : ∀ x ∈ t, isDigit x = true)
    (hc : isDigit c = false) : c ∉ t := by
  intro h
  rw [ht c h] at hc
  exact Bool.noConfusion hc

theorem short_token_head {t : List Char} (ht : isShortToken t) :
    ∃ x r, t = x :: r ∧ isDigit x = true := by
  obtain ⟨hlen, hdig⟩ := ht
  cases t with
  | nil => simp at hlen
  | cons x r => exact ⟨x, r, rfl, hdig x (List.mem_cons_self _ _)⟩

theorem year_token_last {t : List Char} (ht : isYearToken t) :
    ∃ z r, t.reverse = z :: r ∧ isDigit z = true := by
  obtain ⟨hlen, hdig⟩ := ht
  cases hrev : t.reverse with
  | nil =>
    have : t = [] := by simpa using hrev
    subst this
    simp at hlen
  | cons z r =>
    refine ⟨z, r, rfl, hdig z ?_⟩
    have : z ∈ t.reverse := by rw [hrev]; exact List.mem_cons_self _ _
    exact List.mem_reverse.mp this

/-- A day-first string of digit tokens that name a real calendar day is
parsed by the three-token branch to the ISO date of that day. -/
theorem parseExcelDate_dmy (R : Runtime) (ws1 ws2 d m y : List Char) (sep : Char)
    (hsep : sep = '/' ∨ sep = '-')
    (h1 : ∀ c ∈ ws1, isJSWhitespace c = true) (h2 : ∀ c ∈ ws2, isJSWhitespace c = true)
    (hd : isShortToken d) (hm : isShortToken m) (hy : isYearToken y)
    (hreal : isRealDay (tokenDate d m y)) :
    parseExcelDate R (.str (dmyString ws1 d m y ws2 sep)) =
      .ok (some (isoDate (tokenDate d m y))) := by
  obtain ⟨x, dr, hdx, hx⟩ := short_token_head hd
  obtain ⟨z, yr, hyz, hz⟩ := year_token_last hy
  have hcore : d ++ [sep] ++ m ++ [sep] ++ y = x :: (dr ++ [sep] ++ m ++ [sep] ++ y) := by
    rw [hdx]; simp
  have hrev : (d ++ [sep] ++ m ++ [sep] ++ y).reverse = z :: (yr ++ ([sep] ++ (m.reverse ++ ([sep] ++ d.reverse)))) := by
    simp [hyz]
  have htrim := trim_surrounded ws1 ws2 _ _ _ x z h1 h2 (isDigit_not_special hx).1
    (isDigit_not_special hz).1 hcore hrev
  have htruthy : (Cell.str (dmyString ws1 d m y ws2 sep)).truthy = true := by
    simp [Cell.truthy, dmyString, hdx]
  have hne : (d ++ [sep] ++ m ++ [sep] ++ y).isEmpty = false := by
    rw [hcore]; rfl
  have hslash_d : '/' ∉ d := not_mem_digits hd.2 (by decide)
  have hslash_m : '/' ∉ m := not_mem_digits hm.2 (by decide)
  have hslash_y : '/' ∉ y := not_mem_digits hy.2 (by decide)
  have hdash_d : '-' ∉ d := not_mem_digits hd.2 (by decide)
  have hdash_m : '-' ∉ m := not_mem_digits hm.2 (by decide)
  have hdash_y : '-' ∉ y := not_mem_digits hy.2 (by decide)
  have hparts : (if (d ++ [sep] ++ m ++ [sep] ++ y).contains '/' then
      splitOn '/' (d ++ [sep] ++ m ++ [sep] ++ y)
      else splitOn '-' (d ++ [sep] ++ m ++ [sep] ++ y)) = [d, m, y] := by
    rcases hsep with rfl | rfl
    · have hc : (d ++ ['/'] ++ m ++ ['/'] ++ y).contains '/' = true := by simp
      rw [if_pos hc]
      have e : d ++ ['/'] ++ m ++ ['/'] ++ y = d ++ '/' :: (m ++ '/' :: y) := by simp
      rw [e, splitOn_append _ _ _ hslash_d, splitOn_append _ _ _ hslash_m,
        splitOn_single _ _ hslash_y]
    · have hc : (d ++ ['-'] ++ m ++ ['-'] ++ y).contains '/' = false := by
        simp [hslash_d, hslash_m, hslash_y]
      rw [if_neg (by rw [hc]; exact Bool.false_ne_true)]
      have e : d ++ ['-'] ++ m ++ ['-'] ++ y = d ++ '-' :: (m ++ '-' :: y) := by simp
      rw [e, splitOn_append _ _ _ hdash_d, splitOn_append _ _ _ hdash_m,
        splitOn_single _ _ hdash_y]
  obtain ⟨hpy, hylt⟩ := padStart_year y hy
  obtain ⟨hpm, hmlt⟩ := padStart_short m hm
  obtain ⟨hpd, hdlt⟩ := padStart_short d hd
  have hiso := parseIsoDateOnly_pads (yearValue y) (digitsVal m) (digitsVal d) hylt hmlt hdlt
  have hvalid : 1 ≤ digitsVal m ∧ digitsVal m ≤ 12 ∧ 1 ≤ digitsVal d ∧
      ((digitsVal d : Nat) : Int) ≤ daysInMonth (yearValue y : Nat) (digitsVal m : Nat) := by
    obtain ⟨a, b, c, e⟩ := hreal
    simp only [tokenDate] at a b c e
    exact ⟨by exact_mod_cast a, by exact_mod_cast b, by exact_mod_cast c, e⟩
  have hparse : (dateParse R (pad4 (yearValue y) ++ ['-'] ++ pad2 (digitsVal m) ++ ['-'] ++
      pad2 (digitsVal d))).isSome = true := by
    simp only [dateParse, hiso]
    rw [if_pos hvalid]
    rfl
  have hdata : (dmyString ws1 d m y ws2 sep).data = ws1 ++ (d ++ [sep] ++ m ++ [sep] ++ y) ++ ws2 :=
    rfl
  unfold parseExcelDate
  simp only [htruthy, Bool.not_true, Bool.false_eq_true, if_false, hdata, htrim, hne, hparts,
    hpy, hpm, hpd, hparse, if_true]
  simp only [isoDate, tokenDate, Int.toNat_ofNat]

/-! ## Lemmas on the status rule and the row loop -/

theorem truthy_false_iff (c : Cell) : c.truthy = false ↔ isFalsy c := by
  unfold isFalsy
  cases c with
  | undefined => simp [Cell.truthy]
  | null => simp [Cell.truthy]
  | bool b => cases b <;> simp [Cell.truthy]
  | num n =>
    cases n with
    | nan => simp [Cell.truthy]
    | posInf => simp [Cell.truthy]
    | negInf => simp [Cell.truthy]
    | fin q => simp [Cell.truthy]
  | str s =>
    have : s.data = [] ↔ s = "" := by
      constructor
      · intro h
        cases s
        simp_all
      · intro h
        rw [h]
    simp [Cell.truthy, this]
  | date t => simp [Cell.truthy]

theorem trim_whitespace (cs : List Char) (h : ∀ c ∈ cs, isJSWhitespace c = true) :
    trim cs = [] := by
  unfold trim
  rw [List.dropWhile_eq_nil_iff.mpr h]
  rfl

theorem trimmedText_blank (R : Runtime) (c : Cell) (h : isBlankCell c) :
    trimmedText R c = none ∨ ∃ code, trimmedText R c = some code ∧ code.data.isEmpty = true := by
  rcases h with rfl | rfl | ⟨s, rfl, hs⟩
  · exact Or.inl rfl
  · exact Or.inl rfl
  · by_cases ht : (Cell.str s).truthy = true
    · right
      refine ⟨String.mk (trim s.data), by simp [trimmedText, ht, jsString], ?_⟩
      rw [trim_whitespace _ hs]
      rfl
    · left
      simp [trimmedText, ht]

/-! ## Lemmas on the import loop and the settlement of the operations -/

theorem processRow_unhandled (R : Runtime) (row : Option (List Cell))
    (h : isHandledRow row = false) : processRow R row = .ok .ignored := by
  cases row with
  | none => rfl
  | some cells =>
    cases cells with
    | nil => rfl
    | cons c t => simp [isHandledRow] at h

theorem processRow_handled (R : Runtime) (row : Option (List Cell))
    (h : isHandledRow row = true) : processRow R row ≠ .ok .ignored := by
  cases row with
  | none => simp [isHandledRow] at h
  | some cells =>
    cases cells with
    | nil => simp [isHandledRow] at h
    | cons c t =>
      unfold processRow
      simp only [List.length_cons, Nat.succ_ne_zero, if_false]
      intro hp
      split at hp
      · exact absurd hp (by simp)
      · split at hp
        · exact absurd hp (by simp)
        · split at hp
          · exact absurd hp (by simp)
          · split_ifs at hp <;> exact absurd hp (by simp)

/-- One iteration adds one to `skipped` or one operation exactly when the
row is handled, and the operation is the one of the row. -/
theorem loopStep_ok (R : Runtime) (st st' : LoopState) (row : Option (List Cell))
    (h : loopStep R st row = .ok st') :
    st'.skipped + st'.operations.length =
        st.skipped + st.operations.length + (if isHandledRow row then 1 else 0) ∧
      st'.operations = st.operations ++ (rowOperation R row).toList ∧
      st.skipped ≤ st'.skipped := by
  unfold loopStep at h
  unfold rowOperation
  cases hrow : isHandledRow row
  · rw [processRow_unhandled R row hrow] at h ⊢
    simp only at h
    have := Except.ok.inj h
    subst this
    simp
  · have hne := processRow_handled R row hrow
    cases hp : processRow R row with
    | error e => rw [hp] at h; exact absurd h (by simp)
    | ok out =>
      rw [hp] at h
      cases out with
      | ignored => exact absurd hp hne
      | skipped =>
        simp only at h
        have := Except.ok.inj h
        subst this
        simp
        omega
      | upsert args =>
        simp only at h
        have := Except.ok.inj h
        subst this
        simp
        omega

/-- When the loop completes, `skipped` and the operations issued account for
every handled row, and the operations are those of the rows, in order. -/
theorem importLoop_complete (R : Runtime) (rows : List (Option (List Cell)))
    (st st' : LoopState) (h : importLoop R st rows = (none, st')) :
    st'.skipped + st'.operations.length =
        st.skipped + st.operations.length + (rows.filter isHandledRow).length ∧
      st'.operations = st.operations ++ rows.filterMap (rowOperation R) ∧
      st.skipped ≤ st'.skipped := by
  induction rows generalizing st with
  | nil =>
    simp only [importLoop, Prod.mk.injEq, true_and] at h
    subst h
    simp
  | cons row rest ih =>
    unfold importLoop at h
    cases hs : loopStep R st row with
    | error e => rw [hs] at h; simp at h
    | ok st1 =>
      rw [hs] at h
      simp only at h
      obtain ⟨h1, h2, h3⟩ := loopStep_ok R st st1 row hs
      obtain ⟨i1, i2, i3⟩ := ih st1 h
      refine ⟨?_, ?_, by omega⟩
      · rw [i1, h1]
        cases hrow : isHandledRow row
        · simp [List.filter_cons, hrow]
        · simp [List.filter_cons, hrow]
          omega
      · rw [i2, h2]
        cases hop : rowOperation R row <;> simp [List.filterMap_cons, hop]

/-- The counters after the operations are the callbacks folded over the
settlements. -/
theorem runOperations_fold {σ : Type} (S : Store σ) (ops : List UpsertArgs) (s : σ)
    (c : Counters) :
    (runOperations S s c ops).1 = (operationResults S s ops).foldl settle c := by
  induction ops generalizing s c with
  | nil => rfl
  | cons op rest ih =>
    simp only [runOperations, operationResults, List.foldl_cons]
    exact ih _ _

theorem operationResults_length {σ : Type} (S : Store σ) (ops : List UpsertArgs) (s : σ) :
    (operationResults S s ops).length = ops.length := by
  induction ops generalizing s with
  | nil => rfl
  | cons op rest ih => simp [operationResults, ih]

/-- Each settlement moves exactly one counter: a rejection `skipped`, a
record `updated`, `null` `inserted`. -/
theorem foldl_settle (rs : List UpsertResult) (c : Counters) :
    (rs.foldl settle c).skipped = c.skipped + (rs.filter isRejected).length ∧
      (rs.foldl settle c).updated = c.updated + (rs.filter isRecord).length ∧
      (rs.foldl settle c).inserted = c.inserted + (rs.filter isNull).length ∧
      (rs.filter isRejected).length + (rs.filter isRecord).length +
        (rs.filter isNull).length = rs.length := by
  induction rs generalizing c with
  | nil => simp
  | cons r rest ih =>
    obtain ⟨h1, h2, h3, h4⟩ := ih (settle c r)
    simp only [List.foldl_cons, h1, h2, h3]
    rcases r with e | (_ | rec) <;>
      simp [settle, isRejected, isRecord, isNull, List.filter_cons] <;> omega

/-! ## Lemmas on the rows and on the store of the specification -/

/-- The upsert issued for a row is keyed by the trimmed tracking-code cell
and carries the normalised cells in both its `create` and `update` data. -/
theorem processRow_upsert (R : Runtime) (row : List Cell) (args : UpsertArgs)
    (h : processRow R (some row) = .ok (.upsert args)) :
    args.createTrackingCode = args.whereTrackingCode ∧
      args.createFields = args.updateFields ∧
      trimmedText R (cellAt row 6) = some args.whereTrackingCode ∧
      args.whereTrackingCode.data.isEmpty = false ∧
      args.updateFields.product_name =
        (if (cellAt row 1).truthy then cellAt row 1 else Cell.null) ∧
      args.updateFields.original_amount = parseAmount (cellAt row 2) ∧
      args.updateFields.discounted_amount = parseAmount (cellAt row 3) ∧
      args.updateFields.address_code = trimmedText R (cellAt row 4) ∧
      parseExcelDate R (cellAt row 5) = .ok args.updateFields.order_date ∧
      (if parseStatus R (cellAt row 7) = .DA_NHAN then parseExcelDate R (cellAt row 7)
        else .ok none) = .ok args.updateFields.received_date ∧
      args.updateFields.status = parseStatus R (cellAt row 7) ∧
      args.updateFields.note = none ∧
      args.updateFields.shop_name = none := by
  unfold processRow at h
  simp only at h
  by_cases hlen : row.length = 0
  · rw [if_pos hlen] at h
    exact absurd h (by simp)
  · rw [if_neg hlen] at h
    cases hod : parseExcelDate R (cellAt row 5) with
    | error e => rw [hod] at h; exact absurd h (by simp)
    | ok orderDate =>
      rw [hod] at h
      simp only at h
      cases hrd : (if parseStatus R (cellAt row 7) = Status.DA_NHAN then
          parseExcelDate R (cellAt row 7) else Except.ok none) with
      | error e => rw [hrd] at h; exact absurd h (by simp)
      | ok receivedDate =>
        rw [hrd] at h
        simp only at h
        split at h
        · exact absurd h (by simp)
        · rename_i code hcode
          by_cases hempty : code.data.isEmpty = true
          · rw [if_pos hempty] at h
            exact absurd h (by simp)
          · rw [if_neg hempty] at h
            have hargs := RowOutcome.upsert.inj (Except.ok.inj h)
            subst hargs
            refine ⟨rfl, rfl, hcode, ?_, rfl, rfl, rfl, rfl, rfl, rfl, rfl, rfl, rfl⟩
            simpa using hempty

theorem rowOperation_eq_some (R : Runtime) (row : Option (List Cell)) (args : UpsertArgs)
    (h : rowOperation R row = some args) :
    ∃ cells, row = some cells ∧ processRow R (some cells) = .ok (.upsert args) := by
  unfold rowOperation at h
  cases row with
  | none => simp [processRow] at h
  | some cells =>
    refine ⟨cells, rfl, ?_⟩
    cases hp : processRow R (some cells) with
    | error e => rw [hp] at h; simp at h
    | ok out =>
      rw [hp] at h
      cases out with
      | ignored => simp at h
      | skipped => simp at h
      | upsert a =>
        simp only [Option.some.injEq] at h
        rw [h]

theorem findByTrackingCode_none (db : List OrderRecord) (code : String) :
    findByTrackingCode db code = none ↔ code ∉ db.map fun r => r.tracking_code := by
  unfold findByTrackingCode
  simp only [List.find?_eq_none, decide_eq_true_eq, List.mem_map, not_exists, not_and]

theorem findByTrackingCode_some {db : List OrderRecord} {code : String} {r : OrderRecord}
    (h : findByTrackingCode db code = some r) : r ∈ db ∧ r.tracking_code = code := by
  unfold findByTrackingCode at h
  exact ⟨List.mem_of_find?_eq_some h, by simpa using List.find?_some h⟩

/-- The tracking codes in the store after an upsert: unchanged by an update
and by a rejection, one more after a creation. -/
theorem specUpsert_codes (db : List OrderRecord) (args : UpsertArgs) :
    ((specUpsert db args).2.map fun r => r.tracking_code) = (db.map fun r => r.tracking_code) ∨
      (findByTrackingCode db args.createTrackingCode = none ∧
        ((specUpsert db args).2.map fun r => r.tracking_code) =
          (db.map fun r => r.tracking_code) ++ [args.createTrackingCode]) := by
  unfold specUpsert
  cases h1 : findByTrackingCode db args.whereTrackingCode with
  | some r =>
    left
    simp only [List.map_map]
    apply List.map_congr_left
    intro x _
    simp only [Function.comp]
    split_ifs <;> rfl
  | none =>
    cases h2 : findByTrackingCode db args.createTrackingCode with
    | some r => left; rfl
    | none => right; exact ⟨rfl, by simp⟩

theorem specUpsert_unique (db : List OrderRecord) (args : UpsertArgs) (h : uniqueCodes db) :
    uniqueCodes (specUpsert db args).2 := by
  unfold uniqueCodes at *
  rcases specUpsert_codes db args with e | ⟨hnone, e⟩
  · rw [e]
    exact h
  · rw [e]
    have hnot := (findByTrackingCode_none db _).mp hnone
    exact List.Nodup.append h (List.nodup_singleton _) (by simpa using hnot)

theorem faultyStore_unique (bad : String → Bool) (db : List OrderRecord) (args : UpsertArgs)
    (h : uniqueCodes db) : uniqueCodes ((faultyStore bad).upsert db args).2 := by
  simp only [faultyStore]
  split_ifs
  · exact h
  · exact specUpsert_unique db args h

theorem runOperations_unique (ops : List UpsertArgs) (db : List OrderRecord) (c : Counters)
    (h : uniqueCodes db) : uniqueCodes (runOperations specStore db c ops).2 := by
  induction ops generalizing db c with
  | nil => exact h
  | cons op rest ih =>
    simp only [runOperations]
    exact ih _ _ (specUpsert_unique db op h)

theorem runOperations_append {σ : Type} (S : Store σ) (l1 l2 : List UpsertArgs) (s : σ)
    (c : Counters) :
    runOperations S s c (l1 ++ l2) =
      runOperations S (runOperations S s c l1).2 (runOperations S s c l1).1 l2 := by
  induction l1 generalizing s c with
  | nil => rfl
  | cons op rest ih =>
    simp only [List.cons_append, runOperations]
    exact ih _ _

/-- After a well-keyed upsert the record under its key carries the data of
the upsert; an existing record keeps its identifier. -/
theorem specUpsert_find (db : List OrderRecord) (args : UpsertArgs)
    (hkey : args.createTrackingCode = args.whereTrackingCode) :
    (∀ r, findByTrackingCode db args.whereTrackingCode = some r →
        (specUpsert db args).1 = .ok (some { r with fields := args.updateFields }) ∧
        findByTrackingCode (specUpsert db args).2 args.whereTrackingCode =
          some { r with fields := args.updateFields }) ∧
      (findByTrackingCode db args.whereTrackingCode = none →
        (specUpsert db args).1 = .ok (some
          { id := nextId db, tracking_code := args.whereTrackingCode,
            fields := args.createFields }) ∧
        (specUpsert db args).2 =
          db ++ [(⟨nextId db, args.whereTrackingCode, args.createFields⟩ : OrderRecord)] ∧
        findByTrackingCode (specUpsert db args).2 args.whereTrackingCode =
          some { id := nextId db, tracking_code := args.whereTrackingCode,
                 fields := args.createFields }) := by
  constructor
  · intro r hr
    have hr' := findByTrackingCode_some hr
    unfold specUpsert
    rw [hr]
    refine ⟨rfl, ?_⟩
    simp only
    unfold findByTrackingCode at hr ⊢
    rw [List.find?_map]
    have hcomp : ((fun r : OrderRecord => decide (r.tracking_code = args.whereTrackingCode)) ∘
        fun x : OrderRecord =>
          if x.tracking_code = args.whereTrackingCode then
            { x with fields := args.updateFields }
          else x) = fun r : OrderRecord => decide (r.tracking_code = args.whereTrackingCode) := by
      funext x
      simp only [Function.comp]
      split_ifs <;> rfl
    rw [hcomp, hr]
    simp [hr'.2]
  · intro hnone
    unfold specUpsert
    rw [hnone, hkey, hnone]
    refine ⟨rfl, rfl, ?_⟩
    simp only
    unfold findByTrackingCode at hnone ⊢
    rw [List.find?_append, hnone]
    simp

/-- An upsert under other keys leaves the record under `code` as it is. -/
theorem specUpsert_find_other (db : List OrderRecord) (args : UpsertArgs) (code : String)
    (h1 : args.whereTrackingCode ≠ code) (h2 : args.createTrackingCode ≠ code) :
    findByTrackingCode (specUpsert db args).2 code = findByTrackingCode db code := by
  unfold specUpsert
  cases hw : findByTrackingCode db args.whereTrackingCode with
  | some r =>
    simp only
    unfold findByTrackingCode
    rw [List.find?_map]
    have hcomp : ((fun r : OrderRecord => decide (r.tracking_code = code)) ∘
        fun x : OrderRecord =>
          if x.tracking_code = args.whereTrackingCode then
            { x with fields := args.updateFields }
          else x) = fun r : OrderRecord => decide (r.tracking_code = code) := by
      funext x
      simp only [Function.comp]
      split_ifs <;> rfl
    rw [hcomp]
    cases hf : List.find? (fun r : OrderRecord => decide (r.tracking_code = code)) db with
    | none => rfl
    | some x =>
      have hx : x.tracking_code = code := by simpa using List.find?_some hf
      have hne : ¬ x.tracking_code = args.whereTrackingCode := by
        rw [hx]
        exact fun e => h1 e.symm
      simp [hne]
  | none =>
    cases hc : findByTrackingCode db args.createTrackingCode with
    | some r => rfl
    | none =>
      simp only
      unfold findByTrackingCode
      rw [List.find?_append]
      cases hf : List.find? (fun r : OrderRecord => decide (r.tracking_code = code)) db with
      | some x => rfl
      | none => simp [h2]

/-- A well-keyed upsert on the store of the specification resolves with a
record. -/
theorem specUpsert_resolves (db : List OrderRecord) (args : UpsertArgs)
    (hkey : args.createTrackingCode = args.whereTrackingCode) :
    isRecord (specUpsert db args).1 = true := by
  cases h : findByTrackingCode db args.whereTrackingCode with
  | some r => rw [((specUpsert_find db args hkey).1 r h).1]; rfl
  | none => rw [((specUpsert_find db args hkey).2 h).1]; rfl

theorem specUpsert_not_null (db : List OrderRecord) (args : UpsertArgs) :
    isNull (specUpsert db args).1 = false := by
  unfold specUpsert
  cases findByTrackingCode db args.whereTrackingCode with
  | some r => rfl
  | none =>
    cases findByTrackingCode db args.createTrackingCode with
    | some r => rfl
    | none => rfl

/-! ## Lemmas on the import as a whole -/

/-- A counter result means that the sheet has a row below the header, that
the loop completed, and that the counters account for every handled row. -/
theorem importRows_counters {σ : Type} (R : Runtime) (S : Store σ) (s s' : σ)
    (rows : List (Option (List Cell))) (c : Counters)
    (h : importRows R S s rows = (.counters c, s')) :
    1 < rows.length ∧
      ∃ st, importLoop R { skipped := 0, operations := [] } (rows.drop 1) = (none, st) ∧
        c = (runOperations S s { inserted := 0, updated := 0, skipped := st.skipped }
          st.operations).1 ∧
        s' = (runOperations S s { inserted := 0, updated := 0, skipped := st.skipped }
          st.operations).2 ∧
        c.inserted + c.updated + c.skipped = ((rows.drop 1).filter isHandledRow).length := by
  unfold importRows at h
  by_cases hlen : rows.length ≤ 1
  · rw [if_pos hlen] at h
    exact absurd (congrArg Prod.fst h) (by simp)
  · rw [if_neg hlen] at h
    refine ⟨by omega, ?_⟩
    cases hloop : importLoop R { skipped := 0, operations := [] } (rows.drop 1) with
    | mk e st =>
      rw [hloop] at h
      cases e with
      | some e => exact absurd (congrArg Prod.fst h) (by simp)
      | none =>
        simp only [Prod.mk.injEq, ImportResponse.counters.injEq] at h
        refine ⟨st, rfl, h.1.symm, h.2.symm, ?_⟩
        obtain ⟨h1, _, _⟩ := importLoop_complete R _ _ _ hloop
        have hf := foldl_settle (operationResults S s st.operations)
          { inserted := 0, updated := 0, skipped := st.skipped }
        have hl := operationResults_length S st.operations s
        obtain ⟨f1, f2, f3, f4⟩ := hf
        rw [← h.1, runOperations_fold, f1, f2, f3]
        simp only [List.length_nil, Nat.add_zero, Nat.zero_add] at h1
        dsimp only at h1 ⊢
        omega

/-- When the loop completes on a sheet with a row below the header, the
response is the counters. -/
theorem importRows_complete {σ : Type} (R : Runtime) (S : Store σ) (s : σ)
    (rows : List (Option (List Cell))) (st : LoopState) (hlen : 1 < rows.length)
    (hloop : importLoop R { skipped := 0, operations := [] } (rows.drop 1) = (none, st)) :
    importRows R S s rows =
      (.counters (runOperations S s { inserted := 0, updated := 0, skipped := st.skipped }
          st.operations).1,
        (runOperations S s { inserted := 0, updated := 0, skipped := st.skipped }
          st.operations).2) := by
  unfold importRows
  rw [if_neg (by omega), hloop]

/-- The store state after the import is the state after the operations the
loop issued. -/
theorem importRows_state {σ : Type} (R : Runtime) (S : Store σ) (s : σ)
    (rows : List (Option (List Cell))) :
    (importRows R S s rows).2 = s ∨
      ∃ c ops, (importRows R S s rows).2 = (runOperations S s c ops).2 := by
  unfold importRows
  split_ifs
  · exact Or.inl rfl
  · right
    cases importLoop R { skipped := 0, operations := [] } (rows.drop 1) with
    | mk e st =>
      cases e with
      | some e => exact ⟨_, _, rfl⟩
      | none => exact ⟨_, _, rfl⟩

/-- On the store of the specification the operations of a completed loop all
resolve with a record: `updated` counts them and nothing else moves. -/
theorem runOperations_specStore (ops : List UpsertArgs) (db : List OrderRecord) (c : Counters)
    (hkeys : ∀ a ∈ ops, a.createTrackingCode = a.whereTrackingCode) :
    (runOperations specStore db c ops).1 =
      { inserted := c.inserted, updated := c.updated + ops.length, skipped := c.skipped } := by
  induction ops generalizing db c with
  | nil => rfl
  | cons op rest ih =>
    have hop := specUpsert_resolves db op (hkeys op (List.mem_cons_self _ _))
    simp only [runOperations]
    rw [ih _ _ (fun a ha => hkeys a (List.mem_cons_of_mem _ ha))]
    have hs : specStore.upsert db op = specUpsert db op := rfl
    rw [hs]
    cases hres : (specUpsert db op).1 with
    | error e => rw [hres] at hop; simp [isRecord] at hop
    | ok v =>
      cases v with
      | none => rw [hres] at hop; simp [isRecord] at hop
      | some r =>
        simp only [settle, List.length_cons, Counters.mk.injEq, true_and, and_true]
        omega

theorem loop_operations_keyed (R : Runtime) (rows : List (Option (List Cell)))
    (st : LoopState)
    (hloop : importLoop R { skipped := 0, operations := [] } rows = (none, st)) :
    ∀ a ∈ st.operations, a.createTrackingCode = a.whereTrackingCode ∧
      a.createFields = a.updateFields := by
  obtain ⟨_, hops, _⟩ := importLoop_complete R _ _ _ hloop
  intro a ha
  rw [hops] at ha
  simp only [List.nil_append, List.mem_filterMap] at ha
  obtain ⟨row, _, hrow⟩ := ha
  obtain ⟨cells, _, hp⟩ := rowOperation_eq_some R row a hrow
  have := processRow_upsert R cells a hp
  exact ⟨this.1, this.2.1⟩

/-- Operations under other keys leave the record under `code` as it is. -/
theorem runOperations_keeps (post : List UpsertArgs) (db : List OrderRecord) (c : Counters)
    (code : String)
    (hpost : ∀ b ∈ post, b.whereTrackingCode ≠ code ∧ b.createTrackingCode ≠ code) :
    findByTrackingCode (runOperations specStore db c post).2 code =
      findByTrackingCode db code := by
  induction post generalizing db c with
  | nil => rfl
  | cons b rest ih =>
    simp only [runOperations]
    rw [ih _ _ (fun x hx => hpost x (List.mem_cons_of_mem _ hx))]
    exact specUpsert_find_other db b code (hpost b (List.mem_cons_self _ _)).1
      (hpost b (List.mem_cons_self _ _)).2

/-- The last operation under a key decides the record under that key. -/
theorem runOperations_last_writer (pre post : List UpsertArgs) (args : UpsertArgs)
    (db : List OrderRecord) (c : Counters)
    (hkey : args.createTrackingCode = args.whereTrackingCode)
    (hfields : args.createFields = args.updateFields)
    (hpost : ∀ b ∈ post, b.whereTrackingCode ≠ args.whereTrackingCode ∧
      b.createTrackingCode ≠ args.whereTrackingCode) :
    ∃ r, findByTrackingCode (runOperations specStore db c (pre ++ args :: post)).2
        args.whereTrackingCode = some r ∧ r.fields = args.updateFields := by
  rw [runOperations_append]
  simp only [runOperations]
  rw [runOperations_keeps post _ _ _ hpost]
  have hs : ∀ d, specStore.upsert d args = specUpsert d args := fun _ => rfl
  rw [hs]
  generalize (runOperations specStore db c pre).2 = db1
  cases hf : findByTrackingCode db1 args.whereTrackingCode with
  | some r => exact ⟨_, ((specUpsert_find db1 args hkey).1 r hf).2, rfl⟩
  | none => exact ⟨_, ((specUpsert_find db1 args hkey).2 hf).2.2, hfields⟩

/-- Whatever the store does, every operation the loop issued is attempted
and settled by the callbacks: a rejected write adds one to `skipped`, every
other write adds one to `updated` or `inserted`, and when the loop has
completed the import answers with the counters. -/
theorem operations_all_settled {σ : Type} (S : Store σ) (s : σ) (c : Counters)
    (ops : List UpsertArgs) :
    (operationResults S s ops).length = ops.length ∧
      (runOperations S s c ops).1 = (operationResults S s ops).foldl settle c ∧
      (runOperations S s c ops).1.skipped =
        c.skipped + ((operationResults S s ops).filter isRejected).length ∧
      (runOperations S s c ops).1.updated =
        c.updated + ((operationResults S s ops).filter isRecord).length ∧
      (runOperations S s c ops).1.inserted =
        c.inserted + ((operationResults S s ops).filter isNull).length ∧
      ((operationResults S s ops).filter isRejected).length +
          ((operationResults S s ops).filter isRecord).length +
          ((operationResults S s ops).filter isNull).length = ops.length ∧
      (∀ (R : Runtime) (rows : List (Option (List Cell))) (st : LoopState),
        1 < rows.length →
        importLoop R { skipped := 0, operations := [] } (rows.drop 1) = (none, st) →
        (importRows R S s rows).1 =
          .counters (runOperations S s { inserted := 0, updated := 0, skipped := st.skipped }
            st.operations).1) := by
  have hf := foldl_settle (operationResults S s ops) c
  have hl := operationResults_length S ops s
  rw [runOperations_fold]
  refine ⟨hl, rfl, hf.1, hf.2.1, hf.2.2.1, by rw [hf.2.2.2, hl], ?_⟩
  intro R rows st hlen hloop
  rw [importRows_complete R S s rows st hlen hloop]

/-- On a store that fails the write of `VN123` that row is skipped, the row
of `VN456` is written and counted, and the counters are returned. -/
theorem operations_all_settled_sample :
    (importRows testRuntime (faultyStore fun code => code = "VN123") []
        [headerRow, some sampleRow, some otherRow]).1 =
      .counters { inserted := 0, updated := 1, skipped := 1 } :=
  (operations_all_settled (faultyStore fun code => code = "VN123") []
    { inserted := 0, updated := 0, skipped := 0 } []).2.2.2.2.2.2 testRuntime
    [headerRow, some sampleRow, some otherRow]
    { skipped := 0, operations := [sampleArgs, otherArgs] } (by decide)
    (by with_unfolding_all rfl)

/-! ## Lemmas on the sign of parsed amounts -/

theorem decimalValue_nonneg (ip fp : List Char) (e : Int) : 0 ≤ decimalValue ip fp e := by
  unfold decimalValue
  positivity

theorem ofDecimal_cases (q : ℚ) (hq : 0 ≤ q) :
    JSNum.ofDecimal q = .posInf ∨
      ∃ r : ℚ, 0 ≤ r ∧ r < overflowBound ∧ JSNum.ofDecimal q = .fin r := by
  unfold JSNum.ofDecimal
  by_cases h : overflowBound ≤ q
  · rw [if_pos h]
    exact Or.inl rfl
  · rw [if_neg h]
    exact Or.inr ⟨q, hq, lt_of_not_le h, rfl⟩

theorem parseUnsignedDecimal_nonneg (cs : List Char) :
    parseUnsignedDecimal cs = .nan ∨ parseUnsignedDecimal cs = .posInf ∨
      ∃ q : ℚ, 0 ≤ q ∧ q < overflowBound ∧ parseUnsignedDecimal cs = .fin q := by
  unfold parseUnsignedDecimal
  simp only
  split
  · split_ifs
    · exact Or.inl rfl
    · exact Or.inr (ofDecimal_cases _ (decimalValue_nonneg _ _ _))
  · split_ifs
    · exact Or.inl rfl
    · exact Or.inr (ofDecimal_cases _ (decimalValue_nonneg _ _ _))

theorem cleanAmount_chars (cs : List Char) : ∀ c ∈ cleanAmount cs, isAmountChar c = true := by
  intro c hc
  unfold cleanAmount at hc
  rcases mem_replaceFirst hc with h | h
  · rw [h]; decide
  · simp only [List.mem_filter] at h
    exact h.1.2

/-! ## Lemmas on the recording store and on the edit data -/

theorem runOperations_recording (ops : List UpsertArgs) (log : List UpsertArgs) (c : Counters) :
    (runOperations recordingStore log c ops).2 = log ++ ops := by
  induction ops generalizing log c with
  | nil => simp [runOperations]
  | cons op rest ih =>
    simp only [runOperations]
    rw [ih]
    simp [recordingStore]

/-- The value under a key in the pairs built from the own properties of
`body` for the keys `names`. -/
theorem lookup_filterMap_names (g : String → JSValue → JSValue)
    (body : List (String × JSValue)) (names : List String) (k : String) :
    (names.filterMap fun key => (body.lookup key).map fun v => (key, g key v)).lookup k =
      if k ∈ names then (body.lookup k).map (g k) else none := by
  induction names with
  | nil => simp
  | cons key rest ih =>
    cases hkey : body.lookup key with
    | none =>
      simp only [List.filterMap_cons, hkey, Option.map_none', ih, List.mem_cons]
      by_cases hk : k = key
      · subst hk
        simp [hkey]
      · simp [hk]
    | some v =>
      simp only [List.filterMap_cons, hkey, Option.map_some', List.mem_cons]
      by_cases hk : k = key
      · subst hk
        simp [List.lookup, hkey]
      · have hne : (k == key) = false := by simpa using hk
        simp only [List.lookup, hne, ih, hk, false_or]

theorem keys_filterMap_names (g : String → JSValue → JSValue)
    (body : List (String × JSValue)) (names : List String) :
    (names.filterMap fun key => (body.lookup key).map fun v => (key, g key v)).map Prod.fst =
      names.filter fun key => (body.lookup key).isSome := by
  induction names with
  | nil => rfl
  | cons key rest ih =>
    cases hkey : body.lookup key with
    | none => simp [List.filterMap_cons, List.filter_cons, hkey, ih]
    | some v => simp [List.filterMap_cons, List.filter_cons, hkey, ih]

/-! ## Lemmas on the monthly statistics -/

theorem distinctKeys_append (ks : List String) (k : String) :
    distinctKeys (ks ++ [k]) =
      if k ∈ distinctKeys ks then distinctKeys ks else distinctKeys ks ++ [k] := by
  simp [distinctKeys, List.foldl_append]

theorem mem_distinctKeys (ks : List String) : ∀ k, k ∈ distinctKeys ks ↔ k ∈ ks := by
  induction ks using List.reverseRecOn with
  | nil => simp [distinctKeys]
  | append_singleton ks a ih =>
    intro k
    rw [distinctKeys_append]
    by_cases ha : a ∈ distinctKeys ks
    · rw [if_pos ha, List.mem_append, ih, List.mem_singleton]
      constructor
      · exact Or.inl
      · rintro (h | h)
        · exact h
        · rw [h]; exact (ih a).1 ha
    · rw [if_neg ha, List.mem_append, List.mem_append, ih]

theorem nodup_distinctKeys (ks : List String) : (distinctKeys ks).Nodup := by
  induction ks using List.reverseRecOn with
  | nil => simp [distinctKeys]
  | append_singleton ks a ih =>
    rw [distinctKeys_append]
    by_cases ha : a ∈ distinctKeys ks
    · rw [if_pos ha]; exact ih
    · rw [if_neg ha]
      exact List.Nodup.append ih (List.nodup_singleton a) (by simpa using ha)

theorem foldl_addRow_month (rows : List StatRow) :
    ∀ e : MonthEntry, (rows.foldl addRow e).month = e.month := by
  induction rows with
  | nil => intro e; rfl
  | cons row rows ih => intro e; rw [List.foldl_cons, ih]; rfl

theorem entryOf_month (R : Runtime) (key : String) (rows : List StatRow) :
    (entryOf R key rows).month = key := by
  unfold entryOf
  rw [foldl_addRow_month]; rfl

theorem entryOf_append (R : Runtime) (key : String) (rows : List StatRow) (row : StatRow) :
    entryOf R key (rows ++ [row]) =
      if monthKey R row = some key then addRow (entryOf R key rows) row
      else entryOf R key rows := by
  unfold entryOf
  by_cases h : monthKey R row = some key
  · simp [List.filter_append, List.filter_cons, h, List.foldl_append]
  · simp [List.filter_append, List.filter_cons, h]

theorem entryOf_absent (R : Runtime) (key : String) (rows : List StatRow)
    (h : key ∉ rows.filterMap (monthKey R)) : entryOf R key rows = emptyEntry key := by
  unfold entryOf
  have : rows.filter (fun row => monthKey R row = some key) = [] := by
    rw [List.filter_eq_nil_iff]
    intro row hrow hk
    exact h (List.mem_filterMap.2 ⟨row, hrow, by simpa using hk⟩)
  rw [this]; rfl

/-- The own entries of `map` after the loop, when no row has a month key
that `map` inherits: one entry per distinct key, in order of first
occurrence, accumulated over the rows of the key. -/
theorem foldl_statsStep (R : Runtime) (rows : List StatRow)
    (h : ∀ row ∈ rows, ∀ k, monthKey R row = some k → k ∉ objectPrototypeKeys) :
    rows.foldl (statsStep R) [] =
      (distinctKeys (rows.filterMap (monthKey R))).map fun k => entryOf R k rows := by
  induction rows using List.reverseRecOn with
  | nil => rfl
  | append_singleton rows row ih =>
    have ih1 := ih fun r hr => h r (List.mem_append_left _ hr)
    have hrow := h row (List.mem_append_right _ (List.mem_singleton_self row))
    rw [List.foldl_append, List.foldl_cons, List.foldl_nil, ih1, List.filterMap_append]
    unfold statsStep
    cases hk : monthKey R row with
    | none =>
      simp only [List.filterMap_cons, List.filterMap_nil, hk, List.append_nil]
      apply List.map_congr_left
      intro k _
      rw [entryOf_append, hk, if_neg (by simp)]
    | some key =>
      simp only [List.filterMap_cons, List.filterMap_nil, hk]
      rw [distinctKeys_append]
      have hany : (List.map (fun k => entryOf R k rows)
            (distinctKeys (rows.filterMap (monthKey R)))).any (fun e => e.month = key) = true ↔
          key ∈ distinctKeys (rows.filterMap (monthKey R)) := by
        simp [entryOf_month]
      by_cases hmem : key ∈ distinctKeys (rows.filterMap (monthKey R))
      · rw [if_pos (hany.2 hmem), if_pos hmem, List.map_map]
        apply List.map_congr_left
        intro k _
        simp only [Function.comp, entryOf_month, entryOf_append, hk, Option.some.injEq]
        by_cases hkk : k = key
        · simp [hkk]
        · rw [if_neg hkk, if_neg (fun h => hkk h.symm)]
      · rw [if_neg (fun h => hmem (hany.1 h)), if_neg (hrow key hk), if_neg hmem,
          List.map_append, List.map_cons, List.map_nil]
        congr 1
        · apply List.map_congr_left
          intro k hkm
          rw [entryOf_append, hk, if_neg]
          intro heq
          exact hmem ((Option.some.inj heq) ▸ hkm)
        · rw [entryOf_append, hk, if_pos rfl,
            entryOf_absent R key rows (fun hh => hmem ((mem_distinctKeys _ key).2 hh))]

theorem addAmount_eq (total : JSNum) (c : Cell) : addAmount total c = total.add (amountOf c) := by
  cases c <;> cases total <;> simp [addAmount, amountOf, JSNum.add]

theorem foldl_addRow_fields (rows : List StatRow) : ∀ e : MonthEntry,
    (rows.foldl addRow e).total_orders = e.total_orders + rows.length ∧
    (rows.foldl addRow e).total_original =
      (rows.map fun r => amountOf r.original_amount).foldl JSNum.add e.total_original ∧
    (rows.foldl addRow e).total_discounted =
      (rows.map fun r => amountOf r.discounted_amount).foldl JSNum.add e.total_discounted ∧
    ((rows.foldl addRow e).total_profit =
        (rows.foldl addRow e).total_original.sub (rows.foldl addRow e).total_discounted ∨
      rows = []) := by
  induction rows using List.reverseRecOn with
  | nil => intro e; simp
  | append_singleton rows row ih =>
    intro e
    obtain ⟨h1, h2, h3, _⟩ := ih e
    simp only [List.foldl_append, List.foldl_cons, List.foldl_nil, List.map_append,
      List.map_cons, List.map_nil, List.length_append, List.length_singleton]
    refine ⟨?_, ?_, ?_, Or.inl rfl⟩
    · show (rows.foldl addRow e).total_orders + 1 = _
      rw [h1, Nat.add_assoc]
    · show addAmount (rows.foldl addRow e).total_original row.original_amount = _
      rw [addAmount_eq, h2]
    · show addAmount (rows.foldl addRow e).total_discounted row.discounted_amount = _
      rw [addAmount_eq, h3]

/-- The fields of the entry of a month key. -/
theorem entryOf_fields (R : Runtime) (key : String) (rows : List StatRow) :
    (entryOf R key rows).month = key ∧
    (entryOf R key rows).total_orders = (rowsOfMonth R key rows).length ∧
    (entryOf R key rows).total_original =
      sumAmounts ((rowsOfMonth R key rows).map fun r => amountOf r.original_amount) ∧
    (entryOf R key rows).total_discounted =
      sumAmounts ((rowsOfMonth R key rows).map fun r => amountOf r.discounted_amount) ∧
    (entryOf R key rows).total_profit =
      (entryOf R key rows).total_original.sub (entryOf R key rows).total_discounted := by
  obtain ⟨h1, h2, h3, h4⟩ :=
    foldl_addRow_fields (rows.filter fun row => monthKey R row = some key) (emptyEntry key)
  refine ⟨entryOf_month R key rows, ?_, h2, h3, ?_⟩
  · unfold entryOf rowsOfMonth
    rw [h1]; simp [emptyEntry]
  · rcases h4 with h4 | h4
    · exact h4
    · unfold entryOf
      rw [h4]
      simp [emptyEntry, JSNum.sub]

theorem sum_total_orders (R : Runtime) (rows : List StatRow) :
    ((distinctKeys (rows.filterMap (monthKey R))).map fun k =>
        (entryOf R k rows).total_orders).sum = (rows.filterMap (monthKey R)).length := by
  have hperm : (distinctKeys (rows.filterMap (monthKey R))).Perm
      (rows.filterMap (monthKey R)).dedup := by
    rw [List.perm_ext_iff_of_nodup (nodup_distinctKeys _) (List.nodup_dedup _)]
    intro k
    rw [mem_distinctKeys, List.mem_dedup]
  have hcount : ∀ k, (entryOf R k rows).total_orders = (rows.filterMap (monthKey R)).count k := by
    intro k
    rw [(entryOf_fields R k rows).2.1, List.count_filterMap, List.countP_eq_length_filter]
    unfold rowsOfMonth
    congr 1
    apply List.filter_congr
    intro row _
    by_cases hk : monthKey R row = some k <;> simp [hk]
  simp only [hcount]
  rw [(hperm.map _).sum_eq]
  exact List.sum_map_count_dedup_eq_length _

theorem objectValues_perm (map : List MonthEntry) : (objectValues map).Perm map := by
  unfold objectValues
  exact ((List.perm_insertionSort _ _).append_right _).trans (List.filter_append_perm _ map)

/-- The statistics when no row has a month key that `map` inherits and the
comparison of `localeCompare` is total and transitive: the entries of the
distinct month keys, each once, sorted by month. -/
theorem monthlyStats_spec (R : Runtime) (localeCompare : String → String → Int)
    (rows : List StatRow)
    (h : ∀ row ∈ rows, ∀ k, monthKey R row = some k → k ∉ objectPrototypeKeys)
    (htotal : ∀ a b, localeCompare a b ≤ 0 ∨ localeCompare b a ≤ 0)
    (htrans : ∀ a b c, localeCompare a b ≤ 0 → localeCompare b c ≤ 0 → localeCompare a c ≤ 0) :
    (monthlyStats R localeCompare rows).Perm
        ((distinctKeys (rows.filterMap (monthKey R))).map fun k => entryOf R k rows) ∧
      (monthlyStats R localeCompare rows).Sorted
        (fun a b => localeCompare a.month b.month ≤ 0) ∧
      ((monthlyStats R localeCompare rows).map fun e => e.total_orders).sum =
        (rows.filter fun row => (monthKey R row).isSome).length := by
  have hperm : (monthlyStats R localeCompare rows).Perm
      ((distinctKeys (rows.filterMap (monthKey R))).map fun k => entryOf R k rows) := by
    unfold monthlyStats
    rw [← foldl_statsStep R rows h]
    exact (List.perm_insertionSort _ _).trans (objectValues_perm _)
  refine ⟨hperm, ?_, ?_⟩
  · haveI : IsTotal MonthEntry (fun a b => localeCompare a.month b.month ≤ 0) :=
      ⟨fun a b => htotal a.month b.month⟩
    haveI : IsTrans MonthEntry (fun a b => localeCompare a.month b.month ≤ 0) :=
      ⟨fun a b c => htrans a.month b.month c.month⟩
    exact List.sorted_insertionSort _ _
  · rw [(hperm.map _).sum_eq, List.map_map]
    exact (sum_total_orders R rows).trans
      (by rw [List.length_filterMap_eq_countP, List.countP_eq_length_filter])

theorem statsStep_months (R : Runtime) (map : List MonthEntry) (row : StatRow)
    (h : ∀ e ∈ map, e.month ∉ objectPrototypeKeys) :
    ∀ e ∈ statsStep R map row, e.month ∉ objectPrototypeKeys := by
  unfold statsStep
  cases monthKey R row with
  | none => exact h
  | some key =>
    dsimp only
    split_ifs with h1 h2
    · intro e he
      obtain ⟨e0, he0, rfl⟩ := List.mem_map.1 he
      by_cases hk : e0.month = key
      · rw [if_pos hk]; exact h e0 he0
      · rw [if_neg hk]; exact h e0 he0
    · exact h
    · intro e he
      rcases List.mem_append.1 he with he | he
      · exact h e he
      · rw [List.mem_singleton.1 he]; exact h2

/-- No own entry of `map` has a month key that `map` inherits. -/
theorem foldl_statsStep_months (R : Runtime) (rows : List StatRow) :
    ∀ map : List MonthEntry, (∀ e ∈ map, e.month ∉ objectPrototypeKeys) →
      ∀ e ∈ rows.foldl (statsStep R) map, e.month ∉ objectPrototypeKeys := by
  induction rows with
  | nil => intro map h; exact h
  | cons row rows ih =>
    intro map h
    rw [List.foldl_cons]
    exact ih _ (statsStep_months R map row h)

theorem mem_monthlyStats (R : Runtime) (localeCompare : String → String → Int)
    (rows : List StatRow) (e : MonthEntry) :
    e ∈ monthlyStats R localeCompare rows ↔ e ∈ rows.foldl (statsStep R) [] := by
  unfold monthlyStats
  exact ((List.perm_insertionSort _ _).trans (objectValues_perm _)).mem_iff

theorem unitsLt_asymm : ∀ x y : List Nat, unitsLt x y = true → unitsLt y x = false
  | _, [], h => by simp [unitsLt] at h
  | [], _ :: _, _ => by simp [unitsLt]
  | a :: as, b :: bs, h => by
    simp only [unitsLt, Bool.or_eq_true, Bool.and_eq_true, decide_eq_true_eq] at h
    simp only [unitsLt, Bool.or_eq_false_iff, Bool.and_eq_false_iff, decide_eq_false_iff_not]
    rcases h with h | ⟨h, hl⟩
    · exact ⟨by omega, Or.inl (by omega)⟩
    · exact ⟨by omega, Or.inr (unitsLt_asymm as bs hl)⟩

theorem unitsLt_cotrans : ∀ x y z : List Nat, unitsLt x z = true →
    unitsLt x y = true ∨ unitsLt y z = true
  | _, _, [], h => by simp [unitsLt] at h
  | [], [], _ :: _, _ => by simp [unitsLt]
  | [], _ :: _, _ :: _, _ => by simp [unitsLt]
  | _ :: _, [], _ :: _, _ => by simp [unitsLt]
  | a :: as, b :: bs, c :: cs, h => by
    simp only [unitsLt, Bool.or_eq_true, Bool.and_eq_true, decide_eq_true_eq] at h ⊢
    rcases h with h | ⟨h, hl⟩
    · by_cases hab : a < b
      · exact Or.inl (Or.inl hab)
      · exact Or.inr (Or.inl (by omega))
    · by_cases hab : a < b
      · exact Or.inl (Or.inl hab)
      · by_cases hba : b < a
        · exact Or.inr (Or.inl (by omega))
        · have heq : a = b := by omega
          rcases unitsLt_cotrans as bs cs hl with h1 | h1
          · exact Or.inl (Or.inr ⟨heq, h1⟩)
          · exact Or.inr (Or.inr ⟨by omega, h1⟩)

theorem codeUnitCompare_le (a b : String) :
    codeUnitCompare a b ≤ 0 ↔ jsGt a.data b.data = false := by
  unfold codeUnitCompare
  by_cases h1 : jsGt b.data a.data = true
  · rw [if_pos h1]
    exact ⟨fun _ => unitsLt_asymm _ _ h1, fun _ => by decide⟩
  · rw [if_neg h1]
    by_cases h2 : jsGt a.data b.data = true
    · rw [if_pos h2]; simp [h2]
    · rw [if_neg h2]; simp [h2]

theorem codeUnitCompare_total (a b : String) :
    codeUnitCompare a b ≤ 0 ∨ codeUnitCompare b a ≤ 0 := by
  rw [codeUnitCompare_le, codeUnitCompare_le]
  by_cases h : jsGt a.data b.data = true
  · exact Or.inr (unitsLt_asymm _ _ h)
  · exact Or.inl (by simpa using h)

theorem codeUnitCompare_trans (a b c : String) (hab : codeUnitCompare a b ≤ 0)
    (hbc : codeUnitCompare b c ≤ 0) : codeUnitCompare a c ≤ 0 := by
  rw [codeUnitCompare_le] at *
  by_contra h
  rcases unitsLt_cotrans _ (b.data.map utf16Units).flatten _ (by simpa [jsGt] using h) with h1 | h1
  · exact absurd hbc (by simp [jsGt, h1])
  · exact absurd hab (by simp [jsGt, h1])

/-- The statistics of `sampleStatRows`, whose month keys are `2023-06` and
`2023-03` and are not inherited by `map`: the entries are sorted by month and
their orders add up to the number of dated rows. -/
theorem monthlyStats_spec_sample :
    (monthlyStats testRuntime codeUnitCompare sampleStatRows).Sorted
        (fun a b => codeUnitCompare a.month b.month ≤ 0) ∧
      ((monthlyStats testRuntime codeUnitCompare sampleStatRows).map fun e =>
          e.total_orders).sum =
        (sampleStatRows.filter fun row => (monthKey testRuntime row).isSome).length := by
  have h : ∀ row ∈ sampleStatRows, ∀ k, monthKey testRuntime row = some k →
      k ∉ objectPrototypeKeys := by
    have hall : sampleStatRows.all (fun row =>
        match monthKey testRuntime row with
        | none => true
        | some k => decide (k ∉ objectPrototypeKeys)) = true := by
      with_unfolding_all rfl
    intro row hrow k hk
    have hrow1 := List.all_eq_true.1 hall row hrow
    rw [hk] at hrow1
    exact of_decide_eq_true hrow1
  exact (monthlyStats_spec testRuntime codeUnitCompare sampleStatRows h codeUnitCompare_total
    codeUnitCompare_trans).2

/-! ## The claims -/

/-- C1. For every string cell, `parseAmount` is the specified pipeline: delete
what is not a digit, comma or period, remove the periods, replace the commas
by periods, parse as a decimal number, absent when the parse fails; and
`"1.234.567,50"` gives 1234567.5, `"abc"` gives absent. -/
theorem parseAmount_string_spec :
    (∀ s : String, parseAmount (.str s) = specParseAmount s) ∧
      parseAmount (.str "1.234.567,50") = some (.fin 1234567.5) ∧
      parseAmount (.str "abc") = none := by
  refine ⟨?_, ?_, ?_⟩
  · intro s
    simp only [parseAmount, specParseAmount, parseFloat_clean_eq]
  · with_unfolding_all rfl
  · decide

/-- C2. A whole date serial `n` from 1 to 2958465 is parsed to the ISO date
of the calendar day `n` days after 1899-12-30, the day that lies 25569 days
before 1970-01-01. -/
theorem parseExcelDate_serial (R : Runtime) (n : Nat) (h1 : 1 ≤ n) (h2 : n ≤ 2958465) :
    parseExcelDate R (.num (.fin n)) = .ok (some (isoDate (nextDay^[n] spreadsheetEpoch))) ∧
      nextDay^[25569] spreadsheetEpoch = { year := 1970, month := 1, day := 1 } := by
  constructor
  · have hq : ((n : Nat) : ℚ) ≠ 0 := by
      exact_mod_cast (show n ≠ 0 by omega)
    have ht := serial_time (n : Int) (by simp only [maxTime]; omega)
    have hdiv : ((n : Int) - 25569) * 86400000 / msPerDay = (n : Int) - 25569 := by
      simp only [msPerDay]
      omega
    have hy := yearFromDay_range ((n : Int) - 25569) (by omega) (by omega)
    have hiso := toISOString_take (((n : Int) - 25569) * 86400000) (by rw [hdiv]; exact hy)
    rw [hdiv] at hiso
    have hciv : nextDay^[n] spreadsheetEpoch = civilOfDay ((n : Int) - 25569) := by
      rw [← civilOfDay_epoch, civilOfDay_iterate,
        show (-25569 : Int) + (n : Int) = (n : Int) - 25569 by omega]
    have hcast : (JSNum.fin ((n : Nat) : ℚ)) = JSNum.fin (((n : Nat) : Int) : ℚ) := by
      simp
    simp only [parseExcelDate, Cell.truthy, hq, ne_eq, not_false_eq_true, decide_True,
      Bool.not_true, Bool.false_eq_true, if_false]
    rw [hcast, ht, hciv, ← hiso]
    rfl
  · rw [← civilOfDay_epoch, civilOfDay_iterate]
    decide

/-- C2, at serial 45092: the day 45092 days after 1899-12-30 is 2023-06-15. -/
theorem parseExcelDate_serial_witness :
    1 ≤ 45092 ∧ 45092 ≤ 2958465 ∧
      (parseExcelDate testRuntime (.num (.fin (45092 : Nat))) =
          .ok (some (isoDate (nextDay^[45092] spreadsheetEpoch))) ∧
        nextDay^[25569] spreadsheetEpoch = { year := 1970, month := 1, day := 1 }) :=
  ⟨by decide, by decide, parseExcelDate_serial testRuntime 45092 (by decide) (by decide)⟩

/-- C3, as stated, fails: serial 45000 is 2023-03-15, not 2023-06-15. -/
theorem serial_45000_counterexample :
    ¬ (∀ R : Runtime, parseExcelDate R (.num (.fin 45000)) = .ok (some "2023-06-15") ∧
        parseExcelDate R (.str "15/6/2023") = .ok (some "2023-06-15")) := by
  intro h
  have h1 := (h testRuntime).1
  have h2 : parseExcelDate testRuntime (.num (.fin 45000)) = .ok (some "2023-03-15") := by
    with_unfolding_all rfl
  rw [h2] at h1
  have h3 := Option.some.inj (Except.ok.inj h1)
  revert h3
  decide

/-- C3, amended: serial 45000 is parsed to 2023-03-15; the string
`15/6/2023` is parsed to 2023-06-15, the date of serial 45092. -/
theorem serial_45000_and_string (R : Runtime) :
    parseExcelDate R (.num (.fin 45000)) = .ok (some "2023-03-15") ∧
      parseExcelDate R (.str "15/6/2023") = .ok (some "2023-06-15") ∧
      parseExcelDate R (.num (.fin 45092)) = .ok (some "2023-06-15") := by
  refine ⟨?_, ?_, ?_⟩
  · with_unfolding_all rfl
  · with_unfolding_all rfl
  · with_unfolding_all rfl

/-- C4, as stated, fails: the year token `50` is mapped to 2050, not 1950. -/
theorem two_digit_year_counterexample :
    parseExcelDate testRuntime (.str "1/1/50") = .ok (some "2050-01-01") ∧
      ¬ (∀ (R : Runtime) (d m y : List Char) (sep : Char), (sep = '/' ∨ sep = '-') →
        isShortToken d → isShortToken m → (y.length = 2 ∧ ∀ c ∈ y, isDigit c = true) →
        isRealDay { year := specYearValue y, month := digitsVal m, day := digitsVal d } →
        parseExcelDate R (.str (dmyString [] d m y [] sep)) =
          .ok (some (isoDate
            { year := specYearValue y, month := digitsVal m, day := digitsVal d }))) := by
  have hcode : parseExcelDate testRuntime (.str "1/1/50") = .ok (some "2050-01-01") := by
    with_unfolding_all rfl
  refine ⟨hcode, ?_⟩
  intro h
  have h1 := h testRuntime ['1'] ['1'] ['5', '0'] '/' (Or.inl rfl)
    ⟨Or.inl rfl, by decide⟩ ⟨Or.inl rfl, by decide⟩ ⟨rfl, by decide⟩ (by decide)
  have h2 : parseExcelDate testRuntime (.str (dmyString [] ['1'] ['1'] ['5', '0'] [] '/')) =
      .ok (some "2050-01-01") := hcode
  rw [h2] at h1
  have h3 := Option.some.inj (Except.ok.inj h1)
  revert h3
  decide

/-- C4, amended: in a `D/M/YY` or `D-M-YY` string with a two-digit year token,
a token of 50 or below is mapped to 20YY and a token above 50 to 19YY. -/
theorem parseExcelDate_two_digit_year (R : Runtime) (ws1 ws2 d m y : List Char) (sep : Char)
    (hsep : sep = '/' ∨ sep = '-')
    (h1 : ∀ c ∈ ws1, isJSWhitespace c = true) (h2 : ∀ c ∈ ws2, isJSWhitespace c = true)
    (hd : isShortToken d) (hm : isShortToken m)
    (hy : y.length = 2 ∧ ∀ c ∈ y, isDigit c = true)
    (hreal : isRealDay
      { year := ((if digitsVal y ≤ 50 then 2000 + digitsVal y else 1900 + digitsVal y : Nat) : Int)
        month := digitsVal m
        day := digitsVal d }) :
    parseExcelDate R (.str (dmyString ws1 d m y ws2 sep)) =
      .ok (some (isoDate
        { year := ((if digitsVal y ≤ 50 then 2000 + digitsVal y else 1900 + digitsVal y : Nat) : Int)
          month := digitsVal m
          day := digitsVal d })) := by
  have hyv : yearValue y = (if digitsVal y ≤ 50 then 2000 + digitsVal y else 1900 + digitsVal y) := by
    simp only [yearValue, hy.1, if_true]
    split_ifs <;> omega
  have hdate : tokenDate d m y =
      { year := ((if digitsVal y ≤ 50 then 2000 + digitsVal y else 1900 + digitsVal y : Nat) : Int)
        month := digitsVal m
        day := digitsVal d } := by
    simp only [tokenDate, hyv]
  rw [← hdate] at hreal ⊢
  exact parseExcelDate_dmy R ws1 ws2 d m y sep hsep h1 h2 hd hm ⟨Or.inl hy.1, hy.2⟩ hreal

/-- C4, amended, at `" 7-3-50"` and `"7/3/51"`: the years are 2050 and 1951. -/
theorem parseExcelDate_two_digit_year_witness :
    parseExcelDate testRuntime (.str (dmyString [' '] ['7'] ['3'] ['5', '0'] [] '-')) =
        .ok (some "2050-03-07") ∧
      parseExcelDate testRuntime (.str (dmyString [] ['7'] ['3'] ['5', '1'] [] '/')) =
        .ok (some "1951-03-07") :=
  ⟨parseExcelDate_two_digit_year testRuntime [' '] [] ['7'] ['3'] ['5', '0'] '-' (Or.inr rfl)
      (by decide) (by decide) ⟨Or.inl rfl, by decide⟩ ⟨Or.inl rfl, by decide⟩ ⟨rfl, by decide⟩
      (by decide),
    parseExcelDate_two_digit_year testRuntime [] [] ['7'] ['3'] ['5', '1'] '/' (Or.inl rfl)
      (by decide) (by decide) ⟨Or.inl rfl, by decide⟩ ⟨Or.inl rfl, by decide⟩ ⟨rfl, by decide⟩
      (by decide)⟩

/-- C5. A string of a 1-2 digit day, a 1-2 digit month and a 4-digit year,
separated by `/` or by `-` and possibly surrounded by white space, that names
a real calendar day is parsed to the zero-padded ISO date with the first
token as day and the second as month. -/
theorem parseExcelDate_day_first (R : Runtime) (ws1 ws2 d m y : List Char) (sep : Char)
    (hsep : sep = '/' ∨ sep = '-')
    (h1 : ∀ c ∈ ws1, isJSWhitespace c = true) (h2 : ∀ c ∈ ws2, isJSWhitespace c = true)
    (hd : isShortToken d) (hm : isShortToken m)
    (hy : y.length = 4 ∧ ∀ c ∈ y, isDigit c = true)
    (hreal : isRealDay { year := digitsVal y, month := digitsVal m, day := digitsVal d }) :
    parseExcelDate R (.str (dmyString ws1 d m y ws2 sep)) =
      .ok (some (isoDate { year := digitsVal y, month := digitsVal m, day := digitsVal d })) := by
  have hyv : yearValue y = digitsVal y := by
    simp [yearValue, hy.1]
  have hdate : tokenDate d m y =
      { year := digitsVal y, month := digitsVal m, day := digitsVal d } := by
    simp only [tokenDate, hyv]
  rw [← hdate] at hreal ⊢
  exact parseExcelDate_dmy R ws1 ws2 d m y sep hsep h1 h2 hd hm ⟨Or.inr hy.1, hy.2⟩ hreal

/-- C5 at `" 1/2/2023 "`: day 1 of month 2, not month 1 day 2. -/
theorem parseExcelDate_day_first_witness :
    parseExcelDate testRuntime (.str " 1/2/2023 ") = .ok (some "2023-02-01") :=
  parseExcelDate_day_first testRuntime [' '] [' '] ['1'] ['2'] ['2', '0', '2', '3'] '/'
    (Or.inl rfl) (by decide) (by decide) ⟨Or.inl rfl, by decide⟩ ⟨Or.inl rfl, by decide⟩
    ⟨rfl, by decide⟩ (by decide)

/-- C6: on the date serial 123456789012 and on an invalid native date the
code throws a `RangeError` instead of returning absent. -/
theorem parseExcelDate_throws (R : Runtime) :
    parseExcelDate R (.num (.fin 123456789012)) = .error .rangeError ∧
      parseExcelDate R (.date none) = .error .rangeError := by
  constructor
  · with_unfolding_all rfl
  · rfl

/-- C7: on the date serial 2958466 (10000-01-01) the code returns the first
ten characters of the extended-year form, which is not a calendar date. -/
theorem parseExcelDate_truncated_year (R : Runtime) :
    parseExcelDate R (.num (.fin 2958466)) = .ok (some "+010000-01") ∧
      parseExcelDate R (.date (some 253402300800000)) = .ok (some "+010000-01") := by
  constructor
  · with_unfolding_all rfl
  · with_unfolding_all rfl

/-- C8, as stated, fails: the number 0 is not an empty cell and its string
form `0` is not empty, yet it is classified `CHUA_NHAN`. -/
theorem parseStatus_zero_counterexample :
    parseStatus testRuntime (.num (.fin 0)) = .CHUA_NHAN ∧
      specStatus testRuntime (.num (.fin 0)) = .DA_NHAN ∧
      ¬ (∀ (R : Runtime) (c : Cell), parseStatus R c = specStatus R c) := by
  have h1 : parseStatus testRuntime (.num (.fin 0)) = .CHUA_NHAN := by
    with_unfolding_all rfl
  have h2 : specStatus testRuntime (.num (.fin 0)) = .DA_NHAN := by
    with_unfolding_all rfl
  refine ⟨h1, h2, ?_⟩
  intro h
  have h3 := h testRuntime (.num (.fin 0))
  rw [h1, h2] at h3
  exact absurd h3 (by decide)

/-- C8, amended: `parseStatus` is `CHUA_NHAN` when the cell is empty, the
number 0 or `NaN`, or `false`, or its string form is empty after trimming;
otherwise `HOAN` when the lower-cased string form without combining marks
contains `hoan`; otherwise `DA_NHAN`.  The text `Đã hoàn hàng` is `HOAN` in
every runtime that lower-cases and decomposes it as Unicode prescribes. -/
theorem parseStatus_spec (R : Runtime) (c : Cell) :
    parseStatus R c =
        (if isFalsy c ∨ trim (jsString R c) = [] then Status.CHUA_NHAN
        else if includes "hoan".data (plainText R (trim (jsString R c))) = true then Status.HOAN
        else Status.DA_NHAN) ∧
      (parseStatus R c = .CHUA_NHAN ∨ parseStatus R c = .HOAN ∨ parseStatus R c = .DA_NHAN) ∧
      (R.toLowerCase "Đã hoàn hàng".data = "đã hoàn hàng".data →
        R.normalizeNFD "đã hoàn hàng".data = "đa\u0303 hoa\u0300n ha\u0300ng".data →
        parseStatus R (.str "Đã hoàn hàng") = .HOAN) := by
  refine ⟨?_, ?_, ?_⟩
  · unfold parseStatus
    by_cases hf : isFalsy c
    · have ht := (truthy_false_iff c).mpr hf
      simp [ht, hf]
    · have ht : c.truthy = true := by
        cases h : c.truthy
        · exact absurd ((truthy_false_iff c).mp h) hf
        · rfl
      simp only [ht, Bool.not_true, Bool.false_eq_true, if_false, hf, false_or,
        List.isEmpty_iff]
  · cases parseStatus R c <;> simp
  · intro hl hn
    have htrim : trim "Đã hoàn hàng".data = "Đã hoàn hàng".data := by decide
    have hplain : plainText R "Đã hoàn hàng".data = "đa hoan hang".data := by
      simp only [plainText, hl, hn]
      decide
    unfold parseStatus
    simp only [jsString, htrim, hplain]
    decide

/-- C8, amended, in the test runtime. -/
theorem parseStatus_spec_witness :
    parseStatus testRuntime (.str "Đã hoàn hàng") = .HOAN :=
  (parseStatus_spec testRuntime (.str "Đã hoàn hàng")).2.2 (by decide) (by decide)

/-- C9. In every payload the import builds, `received_date` is null unless
the status is `DA_NHAN`, and then it is `parseExcelDate` of the received cell
that determined the status. -/
theorem payload_received_date (R : Runtime) (row : List Cell) (args : UpsertArgs)
    (h : processRow R (some row) = .ok (.upsert args)) :
    ∀ f : ImportFields, f = args.createFields ∨ f = args.updateFields →
      f.status = parseStatus R (cellAt row 7) ∧
        (f.status ≠ .DA_NHAN → f.received_date = none) ∧
        (f.status = .DA_NHAN → parseExcelDate R (cellAt row 7) = .ok f.received_date) := by
  unfold processRow at h
  simp only at h
  split_ifs at h with hlen
  · exact absurd h (by simp)
  all_goals
    split at h
    · exact absurd h (by simp)
    · rename_i orderDate hod
      split at h
      · exact absurd h (by simp)
      · rename_i receivedDate hrd
        split at h
        · exact absurd h (by simp)
        · rename_i code hcode
          split_ifs at h with hempty
          · exact absurd h (by simp)
          · have hargs := RowOutcome.upsert.inj (Except.ok.inj h)
            subst hargs
            intro f hf
            have hf' : f.status = parseStatus R (cellAt row 7) ∧
                f.received_date = receivedDate := by
              rcases hf with rfl | rfl <;> exact ⟨rfl, rfl⟩
            obtain ⟨hs, hr⟩ := hf'
            refine ⟨hs, ?_, ?_⟩
            · intro hne
              rw [hs] at hne
              first
                | contradiction
                | (rw [hr]; exact (Except.ok.inj hrd).symm)
            · intro heq
              rw [hs] at heq
              first
                | contradiction
                | (rw [hr]; exact hrd)

/-- C9 on `sampleRow`: the status is `DA_NHAN` and `received_date` is the
parsed received cell. -/
theorem payload_received_date_witness :
    processRow testRuntime (some sampleRow) = .ok (.upsert sampleArgs) ∧
      ∀ f : ImportFields, f = sampleArgs.createFields ∨ f = sampleArgs.updateFields →
        f.status = parseStatus testRuntime (cellAt sampleRow 7) ∧
          (f.status ≠ .DA_NHAN → f.received_date = none) ∧
          (f.status = .DA_NHAN →
            parseExcelDate testRuntime (cellAt sampleRow 7) = .ok f.received_date) :=
  ⟨by with_unfolding_all rfl,
    payload_received_date testRuntime sampleRow sampleArgs (by with_unfolding_all rfl)⟩

/-- C10, as stated, fails: a row without cells has no tracking code, and it
is not counted in `skipped`. -/
theorem empty_row_counterexample :
    isBlankCell (cellAt [] 6) ∧
      loopStep testRuntime { skipped := 0, operations := [] } (some []) =
        .ok { skipped := 0, operations := [] } ∧
      ¬ (∀ (R : Runtime) (st : LoopState) (row : List Cell), isBlankCell (cellAt row 6) →
        ∃ st', loopStep R st (some row) = .ok st' ∧ st'.skipped = st.skipped + 1 ∧
          st'.operations = st.operations) := by
  refine ⟨Or.inl rfl, rfl, ?_⟩
  intro h
  obtain ⟨st', h1, h2, _⟩ := h testRuntime { skipped := 0, operations := [] } [] (Or.inl rfl)
  have h3 : loopStep testRuntime { skipped := 0, operations := [] } (some []) =
      .ok { skipped := 0, operations := [] } := rfl
  rw [h3] at h1
  have h4 := Except.ok.inj h1
  rw [← h4] at h2
  exact absurd h2 (by decide)

/-- C10, amended: a data row that has at least one cell, whose date cells
are parsed without an exception and whose tracking-code cell is empty,
missing or white space only, adds exactly one to `skipped` and issues no
store operation; a row that is undefined or has no cell changes nothing. -/
theorem blank_tracking_code_skipped (R : Runtime) (st : LoopState) (row : List Cell)
    (hne : row ≠ []) (hblank : isBlankCell (cellAt row 6))
    (hdate : ∃ od, parseExcelDate R (cellAt row 5) = .ok od)
    (hrecv : parseStatus R (cellAt row 7) = .DA_NHAN →
      ∃ rd, parseExcelDate R (cellAt row 7) = .ok rd) :
    loopStep R st (some row) = .ok { skipped := st.skipped + 1, operations := st.operations } ∧
      loopStep R st none = .ok st ∧ loopStep R st (some []) = .ok st := by
  refine ⟨?_, rfl, rfl⟩
  obtain ⟨od, hod⟩ := hdate
  have hlen : ¬ row.length = 0 := by
    intro h
    exact hne (List.length_eq_zero.mp h)
  have hrd : ∃ rd, (if parseStatus R (cellAt row 7) = .DA_NHAN then
      parseExcelDate R (cellAt row 7) else .ok none) = .ok rd := by
    by_cases hs : parseStatus R (cellAt row 7) = .DA_NHAN
    · obtain ⟨rd, hrd⟩ := hrecv hs
      exact ⟨rd, by rw [if_pos hs, hrd]⟩
    · exact ⟨none, by rw [if_neg hs]⟩
  obtain ⟨rd, hrd⟩ := hrd
  have hproc : processRow R (some row) = .ok .skipped := by
    unfold processRow
    simp only [hlen, if_false, hod, hrd]
    rcases trimmedText_blank R (cellAt row 6) hblank with h | ⟨code, h, hc⟩
    · rw [h]
    · rw [h]
      simp only [hc, if_true]
  unfold loopStep
  rw [hproc]

/-- C10, amended, on a row whose tracking-code cell is three spaces. -/
theorem blank_tracking_code_skipped_witness :
    loopStep testRuntime { skipped := 4, operations := [] } (some blankCodeRow) =
      .ok { skipped := 5, operations := [] } :=
  (blank_tracking_code_skipped testRuntime { skipped := 4, operations := [] } blankCodeRow
    (by decide) (Or.inr (Or.inr ⟨"   ", rfl, by decide⟩))
    ⟨some "2023-03-15", by with_unfolding_all rfl⟩
    (fun h => absurd h (by with_unfolding_all decide))).1

/-- C11, as stated, fails: a blank row below the header is in no counter, so
the three counters add up to less than the number of rows below the
header. -/
theorem blank_row_counterexample :
    importRows testRuntime specStore [] [headerRow, some [], some sampleRow] =
        (.counters { inserted := 0, updated := 1, skipped := 0 },
          [{ id := 1, tracking_code := "VN123", fields := sampleFields }]) ∧
      ¬ (∀ (R : Runtime) (db db' : List OrderRecord) (rows : List (Option (List Cell)))
        (c : Counters), 1 < rows.length → importRows R specStore db rows = (.counters c, db') →
        c.inserted + c.updated + c.skipped = rows.length - 1) := by
  have heval : importRows testRuntime specStore [] [headerRow, some [], some sampleRow] =
      (.counters { inserted := 0, updated := 1, skipped := 0 },
        [{ id := 1, tracking_code := "VN123", fields := sampleFields }]) := by
    with_unfolding_all rfl
  refine ⟨heval, ?_⟩
  intro h
  have h1 := h testRuntime [] _ [headerRow, some [], some sampleRow] _ (by decide) heval
  exact absurd h1 (by decide)

/-- C11, amended: when every row below the header of the selected sheet is
defined and has at least one cell and the import answers with the counters,
`inserted + updated + skipped` is the number of rows below the header, which
is at least one. -/
theorem counters_cover_rows {σ : Type} (R : Runtime) (S : Store σ) (s s' : σ) (wb : Workbook)
    (sheet : Sheet) (c : Counters) (hsel : selectSheet wb = some sheet)
    (hrows : ∀ row ∈ sheet.rows.drop 1, isHandledRow row = true)
    (h : importWorkbook R S s wb = (.counters c, s')) :
    1 ≤ sheet.rows.length - 1 ∧
      c.inserted + c.updated + c.skipped = sheet.rows.length - 1 := by
  unfold importWorkbook at h
  rw [hsel] at h
  obtain ⟨hlen, st, _, _, _, hsum⟩ := importRows_counters R S s s' sheet.rows c h
  refine ⟨by omega, ?_⟩
  rw [hsum, List.filter_eq_self.mpr hrows, List.length_drop]

/-- C11, amended, on a sheet with a blank-code row and two rows with a
tracking code: the counters add up to 3. -/
theorem counters_cover_rows_witness :
    1 ≤ [headerRow, some blankCodeRow, some sampleRow, some otherRow].length - 1 ∧
      (0 + 2 + 1 = [headerRow, some blankCodeRow, some sampleRow, some otherRow].length - 1) :=
  counters_cover_rows testRuntime specStore []
    [{ id := 1, tracking_code := "VN123", fields := sampleFields },
      { id := 2, tracking_code := "VN456", fields := otherFields }]
    (workbookOf [headerRow, some blankCodeRow, some sampleRow, some otherRow])
    { rows := [headerRow, some blankCodeRow, some sampleRow, some otherRow] }
    { inserted := 0, updated := 2, skipped := 1 } rfl (by decide)
    (by with_unfolding_all rfl)

/-- C12: a row whose tracking code has no record yet is created and counted
in `updated`; `inserted` stays 0, also for two rows with the same new
code. -/
theorem new_code_counted_as_updated :
    importRows testRuntime specStore [] [headerRow, some sampleRow] =
        (.counters { inserted := 0, updated := 1, skipped := 0 },
          [{ id := 1, tracking_code := "VN123", fields := sampleFields }]) ∧
      importRows testRuntime specStore [] [headerRow, some sampleRow, some sampleRowLater] =
        (.counters { inserted := 0, updated := 2, skipped := 0 },
          [{ id := 1, tracking_code := "VN123", fields := sampleFieldsLater }]) := by
  constructor
  · with_unfolding_all rfl
  · with_unfolding_all rfl

/-- C13. On the store of the specification, with the operations run in the
order of the rows, the import keeps at most one record per tracking code, and
the record under a tracking code carries the import fields of the last row
of the batch with that code. -/
theorem import_keeps_codes_unique (R : Runtime) (db : List OrderRecord)
    (rows : List (Option (List Cell))) (hdb : uniqueCodes db) :
    uniqueCodes (importRows R specStore db rows).2 ∧
      ∀ (pre post : List (Option (List Cell))) (row : Option (List Cell)) (args : UpsertArgs)
        (st : LoopState), rows.drop 1 = pre ++ row :: post →
        importLoop R { skipped := 0, operations := [] } (rows.drop 1) = (none, st) →
        rowOperation R row = some args →
        (∀ later ∈ post, ∀ b, rowOperation R later = some b →
          b.whereTrackingCode ≠ args.whereTrackingCode) →
        ∃ r, findByTrackingCode (importRows R specStore db rows).2 args.whereTrackingCode =
            some r ∧
          r.fields = args.updateFields ∧
          ((importRows R specStore db rows).2.map fun x => x.tracking_code).count
            args.whereTrackingCode = 1 := by
  have huniq : uniqueCodes (importRows R specStore db rows).2 := by
    rcases importRows_state R specStore db rows with h | ⟨c, ops, h⟩
    · rw [h]; exact hdb
    · rw [h]; exact runOperations_unique ops db c hdb
  refine ⟨huniq, ?_⟩
  intro pre post row args st hsplit hloop hrow hlater
  have hlen : 1 < rows.length := by
    have : (rows.drop 1).length = (pre ++ row :: post).length := by rw [hsplit]
    simp only [List.length_drop, List.length_append, List.length_cons] at this
    omega
  have hstate := importRows_complete R specStore db rows st hlen hloop
  obtain ⟨_, hops, _⟩ := importLoop_complete R _ _ _ hloop
  rw [hsplit] at hops
  simp only [List.nil_append, List.filterMap_append, List.filterMap_cons, hrow] at hops
  obtain ⟨cells, _, hproc⟩ := rowOperation_eq_some R row args hrow
  have hargs := processRow_upsert R cells args hproc
  have hpost : ∀ b ∈ post.filterMap (rowOperation R),
      b.whereTrackingCode ≠ args.whereTrackingCode ∧
        b.createTrackingCode ≠ args.whereTrackingCode := by
    intro b hb
    obtain ⟨later, hmem, hop⟩ := List.mem_filterMap.mp hb
    obtain ⟨cells', _, hproc'⟩ := rowOperation_eq_some R later b hop
    have hb' := processRow_upsert R cells' b hproc'
    have hne := hlater later hmem b hop
    exact ⟨hne, by rw [hb'.1]; exact hne⟩
  obtain ⟨r, hfind, hfields⟩ := runOperations_last_writer (pre.filterMap (rowOperation R))
    (post.filterMap (rowOperation R)) args db
    { inserted := 0, updated := 0, skipped := st.skipped } hargs.1 hargs.2.1 hpost
  have hdb' : (importRows R specStore db rows).2 =
      (runOperations specStore db { inserted := 0, updated := 0, skipped := st.skipped }
        (pre.filterMap (rowOperation R) ++ args :: post.filterMap (rowOperation R))).2 := by
    rw [hstate, hops]
  rw [← hdb'] at hfind
  refine ⟨r, hfind, hfields, ?_⟩
  apply List.count_eq_one_of_mem huniq
  have hr := findByTrackingCode_some hfind
  exact List.mem_map.mpr ⟨r, hr.1, hr.2⟩

/-- C13 on two rows with the tracking code `VN123`: one record is left and
it carries the fields of the later row. -/
theorem import_keeps_codes_unique_witness :
    uniqueCodes (importRows testRuntime specStore []
        [headerRow, some sampleRow, some sampleRowLater]).2 ∧
      ∃ r, findByTrackingCode (importRows testRuntime specStore []
          [headerRow, some sampleRow, some sampleRowLater]).2 "VN123" = some r ∧
        r.fields = sampleFieldsLater ∧
        ((importRows testRuntime specStore []
          [headerRow, some sampleRow, some sampleRowLater]).2.map
            fun x => x.tracking_code).count "VN123" = 1 :=
  ⟨(import_keeps_codes_unique testRuntime [] [headerRow, some sampleRow, some sampleRowLater]
      List.nodup_nil).1,
    (import_keeps_codes_unique testRuntime [] [headerRow, some sampleRow, some sampleRowLater]
      List.nodup_nil).2 [some sampleRow] [] (some sampleRowLater) sampleArgsLater
      { skipped := 0, operations := [sampleArgs, sampleArgsLater] } rfl
      (by with_unfolding_all rfl) (by with_unfolding_all rfl)
      (fun later h => absurd h (List.not_mem_nil _))⟩

/-- C14. On the store of the specification, importing a row whose tracking
code has a record overwrites the seven import fields of that record with the
row's normalised values and sets `note` and `shop_name` to null, whatever they
were, leaving `id` and `tracking_code`; a row whose code has no record creates
one with `note` and `shop_name` null. -/
theorem import_overwrites_record (R : Runtime) (db : List OrderRecord)
    (header : Option (List Cell)) (row : List Cell) (args : UpsertArgs)
    (hrow : processRow R (some row) = .ok (.upsert args)) :
    (importRows R specStore db [header, some row]).2 = (specUpsert db args).2 ∧
      trimmedText R (cellAt row 6) = some args.whereTrackingCode ∧
      (∃ r', findByTrackingCode (specUpsert db args).2 args.whereTrackingCode = some r' ∧
        r'.tracking_code = args.whereTrackingCode ∧
        (∀ r, findByTrackingCode db args.whereTrackingCode = some r →
          r'.id = r.id ∧ r'.tracking_code = r.tracking_code) ∧
        r'.fields.product_name = (if (cellAt row 1).truthy then cellAt row 1 else Cell.null) ∧
        r'.fields.original_amount = parseAmount (cellAt row 2) ∧
        r'.fields.discounted_amount = parseAmount (cellAt row 3) ∧
        r'.fields.address_code = trimmedText R (cellAt row 4) ∧
        parseExcelDate R (cellAt row 5) = .ok r'.fields.order_date ∧
        (if parseStatus R (cellAt row 7) = .DA_NHAN then parseExcelDate R (cellAt row 7)
          else .ok none) = .ok r'.fields.received_date ∧
        r'.fields.status = parseStatus R (cellAt row 7) ∧
        r'.fields.note = none ∧ r'.fields.shop_name = none) := by
  obtain ⟨hkey, hfields, hcode, _, h1, h2, h3, h4, h5, h6, h7, h8, h9⟩ :=
    processRow_upsert R row args hrow
  have hloop : importLoop R { skipped := 0, operations := [] } ([header, some row].drop 1) =
      (none, { skipped := 0, operations := [args] }) := by
    simp only [List.drop_succ_cons, List.drop_zero, importLoop, loopStep, hrow,
      List.nil_append]
  have himp := importRows_complete R specStore db [header, some row] _
    (by simp) hloop
  refine ⟨by rw [himp]; rfl, hcode, ?_⟩
  cases hf : findByTrackingCode db args.whereTrackingCode with
  | some r =>
    have hr := findByTrackingCode_some hf
    refine ⟨_, ((specUpsert_find db args hkey).1 r hf).2, hr.2, ?_, h1, h2, h3, h4, h5, h6,
      h7, h8, h9⟩
    intro r0 hr0
    have := Option.some.inj hr0
    subst this
    exact ⟨rfl, rfl⟩
  | none =>
    refine ⟨_, ((specUpsert_find db args hkey).2 hf).2.2, rfl, ?_, ?_⟩
    · intro r0 hr0
      exact absurd hr0 (by simp)
    · rw [hfields]
      exact ⟨h1, h2, h3, h4, h5, h6, h7, h8, h9⟩

/-- C14 on the record of `VN123` edited to `note = "VIP"`: the import of
`sampleRowLater` leaves the record with its id, the fields of the row and an
empty note. -/
theorem import_overwrites_record_witness :
    (importRows testRuntime specStore [editedRecord] [headerRow, some sampleRowLater]).2 =
        [{ id := 7, tracking_code := "VN123", fields := sampleFieldsLater }] ∧
      editedRecord.fields.note = some "VIP" :=
  ⟨((import_overwrites_record testRuntime [editedRecord] headerRow sampleRowLater
      sampleArgsLater (by with_unfolding_all rfl)).1).trans (by with_unfolding_all rfl), rfl⟩

/-- C15: in a batch where the write of the first row fails and the next row
holds the number 123456789012 in its order-date cell, the import answers 500
and not the counters, on every store; the store receives the upsert of the
first row only, so the row after the bad one is never attempted; on the
store that fails the writes of `VN123` nothing is stored.  Without the bad
row the failed write is counted in `skipped` and the counters are
returned. -/
theorem failed_write_batch_answers_500 {σ : Type} (S : Store σ) (s : σ) :
    importRows testRuntime S s
        [headerRow, some sampleRow, some badDateRow, some otherRow] =
      (.failure 500 "Lỗi đọc file Excel", (S.upsert s sampleArgs).2) ∧
    importRows testRuntime (faultyStore fun code => code = "VN123") []
        [headerRow, some sampleRow, some badDateRow, some otherRow] =
      (.failure 500 "Lỗi đọc file Excel", []) ∧
    (importRows testRuntime (faultyStore fun code => code = "VN123") []
        [headerRow, some sampleRow, some otherRow]).1 =
      .counters { inserted := 0, updated := 1, skipped := 1 } := by
  refine ⟨?_, ?_, ?_⟩
  · with_unfolding_all rfl
  · with_unfolding_all rfl
  · with_unfolding_all rfl

/-- C16: a numeric order-date cell of 123456789012 in a row with a tracking
code makes the import answer 500 instead of the counters, in every runtime
and on every store. -/
theorem out_of_range_date_fails_import {σ : Type} (R : Runtime) (S : Store σ) (s : σ) :
    importRows R S s [headerRow, some badDateRow] =
      (.failure 500 "Lỗi đọc file Excel", s) := by
  with_unfolding_all rfl

/-- C17, as stated, fails: with a blank row below the header the second run
of the import reports `updated = 1` although two rows lie below the header
and none is skipped; and the second run on a sheet with the header row only
reports no counters at all. -/
theorem reimport_blank_row_counterexample :
    (importRows testRuntime specStore
        (importRows testRuntime specStore [] [headerRow, some [], some sampleRow]).2
        [headerRow, some [], some sampleRow]).1 =
      .counters { inserted := 0, updated := 1, skipped := 0 } ∧
    ([headerRow, some [], some sampleRow].drop 1).length = 2 ∧
    (1 : Nat) ≠ 2 - 0 ∧
    (importRows testRuntime specStore
        (importRows testRuntime specStore [] [headerRow]).2 [headerRow]).1 =
      .failure 400 "Sheet không có dữ liệu" := by
  refine ⟨?_, by decide, by decide, ?_⟩
  · with_unfolding_all rfl
  · with_unfolding_all rfl

/-- C17, amended: on the store of the specification, when the second import
of the same rows, run on the store the first import left, answers with
counters, it reports `inserted = 0` and `updated` equal to the number of rows
below the header that are defined and have at least one cell, minus
`skipped`; `updated` is the number of rows that issue an upsert, and the
first import reported the same counters. -/
theorem reimport_counters (R : Runtime) (db db2 : List OrderRecord)
    (rows : List (Option (List Cell))) (c2 : Counters)
    (h : importRows R specStore (importRows R specStore db rows).2 rows = (.counters c2, db2)) :
    c2.inserted = 0 ∧
      c2.skipped ≤ ((rows.drop 1).filter isHandledRow).length ∧
      c2.updated = ((rows.drop 1).filter isHandledRow).length - c2.skipped ∧
      c2.updated = ((rows.drop 1).filterMap (rowOperation R)).length ∧
      (importRows R specStore db rows).1 = .counters c2 := by
  obtain ⟨hlen, st, hloop, hc, _, hsum⟩ := importRows_counters R specStore _ db2 rows c2 h
  have hkeys : ∀ a ∈ st.operations, a.createTrackingCode = a.whereTrackingCode := fun a ha =>
    (loop_operations_keyed R _ st hloop a ha).1
  obtain ⟨_, hops, _⟩ := importLoop_complete R _ _ _ hloop
  rw [runOperations_specStore _ _ _ hkeys] at hc
  have h1 : c2.inserted = 0 := by rw [hc]
  have h2 : c2.updated = st.operations.length := by rw [hc]; simp
  refine ⟨h1, by omega, by omega, ?_, ?_⟩
  · rw [h2, hops, List.nil_append]
  · rw [importRows_complete R specStore db rows st hlen hloop,
      runOperations_specStore _ _ _ hkeys, hc]

/-- C17, amended, on a sheet with one blank-code row and two rows with a
tracking code: the second import reports 0 inserted, 2 updated, 1 skipped,
as the first did. -/
theorem reimport_counters_witness :
    (importRows testRuntime specStore
        (importRows testRuntime specStore []
          [headerRow, some blankCodeRow, some sampleRow, some otherRow]).2
        [headerRow, some blankCodeRow, some sampleRow, some otherRow]).1 =
      .counters { inserted := 0, updated := 2, skipped := 1 } ∧
    (importRows testRuntime specStore []
        [headerRow, some blankCodeRow, some sampleRow, some otherRow]).1 =
      .counters { inserted := 0, updated := 2, skipped := 1 } :=
  ⟨by with_unfolding_all rfl,
    (reimport_counters testRuntime []
      (importRows testRuntime specStore
        (importRows testRuntime specStore []
          [headerRow, some blankCodeRow, some sampleRow, some otherRow]).2
        [headerRow, some blankCodeRow, some sampleRow, some otherRow]).2
      [headerRow, some blankCodeRow, some sampleRow, some otherRow]
      { inserted := 0, updated := 2, skipped := 1 }
      (Prod.ext (by with_unfolding_all rfl) rfl)).2.2.2.2⟩

set_option maxRecDepth 100000 in
/-- C18, as stated, fails: a negative numeric cell is returned as it is, and
a string of 310 nines gives `Infinity`, which is no decimal. -/
theorem negative_amount_counterexample :
    parseAmount (.num (.fin (-5))) = some (.fin (-5)) ∧
      parseAmount (.str (String.mk (List.replicate 310 '9'))) = some .posInf ∧
      ¬ (∀ c : Cell, ((∃ s, c = .str s) ∨ ∃ n, c = .num n) →
        parseAmount c = none ∨ ∃ q : ℚ, 0 ≤ q ∧ parseAmount c = some (.fin q)) := by
  refine ⟨rfl, by with_unfolding_all rfl, ?_⟩
  intro h
  rcases h (.num (.fin (-5))) (Or.inr ⟨_, rfl⟩) with h1 | ⟨q, hq, h1⟩
  · exact absurd h1 (by simp [parseAmount])
  · simp only [parseAmount, Option.some.injEq, JSNum.fin.injEq] at h1
    rw [← h1] at hq
    norm_num at hq

/-- C18, amended: for a string cell the amount is absent, or `Infinity` (when
the digits denote a value from `overflowBound` on), or a non-negative
decimal below that bound; a numeric cell is returned as it is, whatever its
sign; and these values are the `original_amount` and `discounted_amount`
that the import writes. -/
theorem parseAmount_sign (R : Runtime) :
    (∀ s : String, parseAmount (.str s) = none ∨ parseAmount (.str s) = some .posInf ∨
        ∃ q : ℚ, 0 ≤ q ∧ q < overflowBound ∧ parseAmount (.str s) = some (.fin q)) ∧
      (∀ n : JSNum, parseAmount (.num n) = some n) ∧
      (∀ (row : List Cell) (args : UpsertArgs), processRow R (some row) = .ok (.upsert args) →
        args.createFields.original_amount = parseAmount (cellAt row 2) ∧
        args.createFields.discounted_amount = parseAmount (cellAt row 3) ∧
        args.updateFields.original_amount = parseAmount (cellAt row 2) ∧
        args.updateFields.discounted_amount = parseAmount (cellAt row 3)) := by
  refine ⟨?_, fun n => rfl, ?_⟩
  · intro s
    simp only [parseAmount]
    rw [parseFloat_amountChars _ (cleanAmount_chars s.data)]
    rcases parseUnsignedDecimal_nonneg (cleanAmount s.data) with h | h | ⟨q, hq, hlt, h⟩
    · left
      rw [h]
      rfl
    · right
      left
      rw [h]
      rfl
    · right
      right
      refine ⟨q, hq, hlt, ?_⟩
      rw [h]
      rfl
  · intro row args h
    have := processRow_upsert R row args h
    rw [this.2.1]
    exact ⟨this.2.2.2.2.2.1, this.2.2.2.2.2.2.1, this.2.2.2.2.2.1, this.2.2.2.2.2.2.1⟩

/-- C18, amended, on `sampleRow`. -/
theorem parseAmount_sign_witness :
    sampleArgs.createFields.original_amount = parseAmount (cellAt sampleRow 2) ∧
      sampleArgs.createFields.discounted_amount = parseAmount (cellAt sampleRow 3) ∧
      sampleArgs.updateFields.original_amount = parseAmount (cellAt sampleRow 2) ∧
      sampleArgs.updateFields.discounted_amount = parseAmount (cellAt sampleRow 3) :=
  (parseAmount_sign testRuntime).2.2 sampleRow sampleArgs (by with_unfolding_all rfl)

/-- C19, as stated, fails: in `sampleRow` the product name is the second
cell and the tracking code the seventh, not the first and the sixth. -/
theorem first_cell_counterexample :
    processRow testRuntime (some sampleRow) = .ok (.upsert sampleArgs) ∧
      cellNumber sampleRow 1 = .num (.fin 1) ∧
      sampleArgs.createFields.product_name = cellNumber sampleRow 2 ∧
      ¬ (∀ (R : Runtime) (row : List Cell) (args : UpsertArgs),
        processRow R (some row) = .ok (.upsert args) →
        args.createFields.product_name =
            (if (cellNumber row 1).truthy then cellNumber row 1 else Cell.null) ∧
          args.createFields.original_amount = parseAmount (cellNumber row 2) ∧
          args.createFields.discounted_amount = parseAmount (cellNumber row 3) ∧
          args.createFields.address_code = trimmedText R (cellNumber row 4) ∧
          parseExcelDate R (cellNumber row 5) = .ok args.createFields.order_date ∧
          trimmedText R (cellNumber row 6) = some args.createTrackingCode ∧
          args.createFields.status = parseStatus R (cellNumber row 7)) := by
  have heval : processRow testRuntime (some sampleRow) = .ok (.upsert sampleArgs) := by
    with_unfolding_all rfl
  refine ⟨heval, rfl, rfl, ?_⟩
  intro h
  have h1 := (h testRuntime sampleRow sampleArgs heval).1
  have h2 : (if (cellNumber sampleRow 1).truthy then cellNumber sampleRow 1 else Cell.null) =
      .num (.fin 1) := by
    with_unfolding_all rfl
  rw [h2] at h1
  exact absurd h1 (by simp [sampleArgs, sampleFields])

/-- C19, amended: counting cells from 1, the import takes the product name
from the 2nd cell, the original amount from the 3rd, the discounted amount
from the 4th, the address code from the 5th, the order date from the 6th, the
tracking code from the 7th and the received-date/status marker from the 8th
cell; what the 1st cell holds changes nothing. -/
theorem import_reads_cells_two_to_eight (R : Runtime) (row : List Cell) (args : UpsertArgs)
    (h : processRow R (some row) = .ok (.upsert args)) :
    args.createFields = args.updateFields ∧
      args.createFields.product_name =
        (if (cellNumber row 2).truthy then cellNumber row 2 else Cell.null) ∧
      args.createFields.original_amount = parseAmount (cellNumber row 3) ∧
      args.createFields.discounted_amount = parseAmount (cellNumber row 4) ∧
      args.createFields.address_code = trimmedText R (cellNumber row 5) ∧
      parseExcelDate R (cellNumber row 6) = .ok args.createFields.order_date ∧
      trimmedText R (cellNumber row 7) = some args.createTrackingCode ∧
      args.createTrackingCode = args.whereTrackingCode ∧
      args.createFields.status = parseStatus R (cellNumber row 8) ∧
      (if parseStatus R (cellNumber row 8) = .DA_NHAN then parseExcelDate R (cellNumber row 8)
        else .ok none) = .ok args.createFields.received_date ∧
      (∀ (x first : Cell) (rest : List Cell), row = first :: rest →
        processRow R (some (x :: rest)) = processRow R (some row)) := by
  obtain ⟨hkey, hfields, hcode, _, h1, h2, h3, h4, h5, h6, h7, _, _⟩ :=
    processRow_upsert R row args h
  rw [hfields, hkey]
  refine ⟨rfl, h1, h2, h3, h4, h5, hcode, rfl, h7, h6, ?_⟩
  intro x first rest hrow
  subst hrow
  rfl

/-- C19, amended, on `sampleRow`. -/
theorem import_reads_cells_two_to_eight_witness :
    sampleArgs.createFields.product_name = Cell.str "Ao thun" ∧
      cellNumber sampleRow 2 = Cell.str "Ao thun" ∧
      trimmedText testRuntime (cellNumber sampleRow 7) = some sampleArgs.createTrackingCode :=
  ⟨rfl, rfl,
    (import_reads_cells_two_to_eight testRuntime sampleRow sampleArgs
      (by with_unfolding_all rfl)).2.2.2.2.2.2.1⟩

/-- C20, as stated, fails: with the current year 2026 and sheets `2026` and
`2025`, the import reads the sheet `2025`. -/
theorem sheet_2026_counterexample :
    (selectSheet twoYearWorkbook).map (fun sheet => sheet.rows) =
        some [headerRow, some otherRow] ∧
      (specSelectSheet "2026" twoYearWorkbook).map (fun sheet => sheet.rows) =
        some [headerRow, some sampleRow] ∧
      ¬ (∀ (wb : Workbook) (year : String), selectSheet wb = specSelectSheet year wb) := by
  have h1 : (selectSheet twoYearWorkbook).map (fun sheet => sheet.rows) =
      some [headerRow, some otherRow] := by
    with_unfolding_all rfl
  have h2 : (specSelectSheet "2026" twoYearWorkbook).map (fun sheet => sheet.rows) =
      some [headerRow, some sampleRow] := by
    with_unfolding_all rfl
  refine ⟨h1, h2, ?_⟩
  intro h
  rw [h twoYearWorkbook "2026", h2] at h1
  have h3 := congrArg (fun rows => rows.map fun r : List (Option (List Cell)) => r.getD 1 none) h1
  revert h3
  with_unfolding_all decide

/-- C20, amended: the import reads the sheet named `2025` when the workbook
has one, and otherwise the first sheet of the workbook; the current year
plays no part. -/
theorem selectSheet_literal_2025 (wb : Workbook) :
    (∀ sheet, wb.Sheets "2025" = some sheet → selectSheet wb = some sheet) ∧
      (wb.Sheets "2025" = none → ∀ name rest, wb.SheetNames = name :: rest →
        selectSheet wb = wb.Sheets name) ∧
      (wb.SheetNames ≠ [] → selectSheet wb = specSelectSheet "2025" wb) ∧
      (∀ {σ : Type} (R : Runtime) (S : Store σ) (s : σ) (sheet : Sheet),
        selectSheet wb = some sheet → importWorkbook R S s wb = importRows R S s sheet.rows) := by
  refine ⟨?_, ?_, ?_, ?_⟩
  · intro sheet h
    simp [selectSheet, h]
  · intro h name rest hn
    simp [selectSheet, h, hn]
  · intro hne
    unfold selectSheet specSelectSheet
    cases wb.Sheets "2025" with
    | some sheet => rfl
    | none =>
      cases hn : wb.SheetNames with
      | nil => exact absurd hn hne
      | cons name rest => rfl
  · intro σ R S s sheet h
    simp [importWorkbook, h]

/-- C20, amended, on a workbook without a sheet `2025`: the first sheet is
read. -/
theorem selectSheet_literal_2025_witness :
    selectSheet plainWorkbook = plainWorkbook.Sheets "Sheet1" :=
  (selectSheet_literal_2025 plainWorkbook).2.1 rfl "Sheet1" ["Sheet2"] rfl

/-- C21. When the selected sheet has no row below the header (no row at all,
or the header only), the import answers the error 400 and not the counters,
and no store operation is issued: every store is left in its state and a
recording store records nothing. -/
theorem header_only_sheet_rejected {σ : Type} (R : Runtime) (S : Store σ) (s : σ)
    (wb : Workbook) (sheet : Sheet) (hsel : selectSheet wb = some sheet)
    (hrows : sheet.rows.length ≤ 1) :
    importWorkbook R S s wb = (.failure 400 "Sheet không có dữ liệu", s) ∧
      (∀ c : Counters, (importWorkbook R S s wb).1 ≠ .counters c) ∧
      (∀ log : List UpsertArgs, (importWorkbook R recordingStore log wb).2 = log) := by
  have h : ∀ {τ : Type} (T : Store τ) (t : τ),
      importWorkbook R T t wb = (.failure 400 "Sheet không có dữ liệu", t) := by
    intro τ T t
    unfold importWorkbook importRows
    rw [hsel]
    simp only [hrows, if_true]
  refine ⟨h S s, ?_, ?_⟩
  · intro c
    rw [h S s]
    simp
  · intro log
    rw [h recordingStore log]

/-- C21 on a workbook whose sheet `2025` holds the header row only. -/
theorem header_only_sheet_rejected_witness :
    importWorkbook testRuntime specStore [editedRecord] (workbookOf [headerRow]) =
      (.failure 400 "Sheet không có dữ liệu", [editedRecord]) :=
  (header_only_sheet_rejected testRuntime specStore [editedRecord] (workbookOf [headerRow])
    { rows := [headerRow] } rfl (by decide)).1

/-- C22. The upsert the import issues for a row is `rowOperation` of the
row, a function of its cells alone: it is the same from every loop state and
so at every position of every batch, the store receives it whatever its
state, and its `create` and `update` data agree, with `note` and `shop_name`
null. -/
theorem payload_depends_on_row_only (R : Runtime) (row : Option (List Cell)) :
    (∀ st1 st2 st1' st2' : LoopState, loopStep R st1 row = .ok st1' →
        loopStep R st2 row = .ok st2' →
        st1'.operations = st1.operations ++ (rowOperation R row).toList ∧
          st2'.operations = st2.operations ++ (rowOperation R row).toList) ∧
      (∀ (pre1 post1 pre2 post2 : List (Option (List Cell))) (st1 st2 : LoopState),
        importLoop R { skipped := 0, operations := [] } (pre1 ++ row :: post1) = (none, st1) →
        importLoop R { skipped := 0, operations := [] } (pre2 ++ row :: post2) = (none, st2) →
        st1.operations = pre1.filterMap (rowOperation R) ++ (rowOperation R row).toList ++
            post1.filterMap (rowOperation R) ∧
          st2.operations = pre2.filterMap (rowOperation R) ++ (rowOperation R row).toList ++
            post2.filterMap (rowOperation R)) ∧
      (∀ (rows : List (Option (List Cell))) (st : LoopState) (log : List UpsertArgs),
        1 < rows.length →
        importLoop R { skipped := 0, operations := [] } (rows.drop 1) = (none, st) →
        (importRows R recordingStore log rows).2 =
          log ++ (rows.drop 1).filterMap (rowOperation R)) ∧
      (∀ args, rowOperation R row = some args →
        args.createTrackingCode = args.whereTrackingCode ∧
          args.createFields = args.updateFields ∧
          args.createFields.note = none ∧ args.createFields.shop_name = none) := by
  have hsplit : ∀ (pre post : List (Option (List Cell))) (st : LoopState),
      importLoop R { skipped := 0, operations := [] } (pre ++ row :: post) = (none, st) →
      st.operations = pre.filterMap (rowOperation R) ++ (rowOperation R row).toList ++
        post.filterMap (rowOperation R) := by
    intro pre post st h
    obtain ⟨_, hops, _⟩ := importLoop_complete R _ _ _ h
    rw [hops]
    cases hrow : rowOperation R row <;>
      simp [List.filterMap_append, List.filterMap_cons, hrow]
  refine ⟨?_, ?_, ?_, ?_⟩
  · intro st1 st2 st1' st2' h1 h2
    exact ⟨(loopStep_ok R st1 st1' row h1).2.1, (loopStep_ok R st2 st2' row h2).2.1⟩
  · intro pre1 post1 pre2 post2 st1 st2 h1 h2
    exact ⟨hsplit pre1 post1 st1 h1, hsplit pre2 post2 st2 h2⟩
  · intro rows st log hlen hloop
    rw [importRows_complete R recordingStore log rows st hlen hloop]
    obtain ⟨_, hops, _⟩ := importLoop_complete R _ _ _ hloop
    simp only [runOperations_recording, hops, List.nil_append]
  · intro args hargs
    obtain ⟨cells, _, hp⟩ := rowOperation_eq_some R row args hargs
    have h := processRow_upsert R cells args hp
    refine ⟨h.1, h.2.1, ?_, ?_⟩
    · rw [h.2.1]
      exact h.2.2.2.2.2.2.2.2.2.2.2.1
    · rw [h.2.1]
      exact h.2.2.2.2.2.2.2.2.2.2.2.2

/-- C22 on `sampleRow` as first row of one batch and last row of another,
with different stores: the same upsert `sampleArgs` reaches the store. -/
theorem payload_depends_on_row_only_witness :
    (importRows testRuntime recordingStore [] [headerRow, some sampleRow, some otherRow]).2 =
        [sampleArgs, otherArgs] ∧
      (importRows testRuntime recordingStore [otherArgs]
          [headerRow, some blankCodeRow, some [], some sampleRow]).2 =
        [otherArgs, sampleArgs] :=
  ⟨((payload_depends_on_row_only testRuntime (some sampleRow)).2.2.1
      [headerRow, some sampleRow, some otherRow]
      { skipped := 0, operations := [sampleArgs, otherArgs] } [] (by decide)
      (by with_unfolding_all rfl)).trans (by with_unfolding_all rfl),
    ((payload_depends_on_row_only testRuntime (some sampleRow)).2.2.1
      [headerRow, some blankCodeRow, some [], some sampleRow]
      { skipped := 1, operations := [sampleArgs] } [otherArgs] (by decide)
      (by with_unfolding_all rfl)).trans (by with_unfolding_all rfl)⟩

/-- C23. The update data of a manual edit holds exactly those of the ten
order fields that are own properties of the request body: an amount field as
`null` when its value is `null` or `undefined` and as `Number(value)`
otherwise, every other field as given; so a partial update with this data
leaves every column absent from the body as it was. -/
theorem editData_fields (toNumber : JSValue → JSNum) (body : List (String × JSValue)) :
    (editData toNumber body).map Prod.fst =
        orderFieldNames.filter (fun key => (body.lookup key).isSome) ∧
      (∀ key v, key ∈ orderFieldNames → body.lookup key = some v →
        (editData toNumber body).lookup key =
          some (if key = "original_amount" ∨ key = "discounted_amount" then
            (if v.isNullish then JSValue.null else JSValue.num (toNumber v)) else v)) ∧
      (∀ key, body.lookup key = none ∨ key ∉ orderFieldNames →
        (editData toNumber body).lookup key = none) ∧
      (∀ (record : String → JSValue) (key : String),
        body.lookup key = none ∨ key ∉ orderFieldNames →
        applyData record (editData toNumber body) key = record key) ∧
      (∀ (record : String → JSValue) (key : String) (v : JSValue), key ∈ orderFieldNames →
        body.lookup key = some v →
        applyData record (editData toNumber body) key = editValue toNumber key v) := by
  have hlook := lookup_filterMap_names (editValue toNumber) body orderFieldNames
  have hnone : ∀ key, body.lookup key = none ∨ key ∉ orderFieldNames →
      (editData toNumber body).lookup key = none := by
    intro key h
    unfold editData
    rw [hlook]
    rcases h with h | h
    · simp [h]
    · simp [h]
  have hsome : ∀ key v, key ∈ orderFieldNames → body.lookup key = some v →
      (editData toNumber body).lookup key = some (editValue toNumber key v) := by
    intro key v hk hv
    unfold editData
    rw [hlook, if_pos hk, hv]
    rfl
  refine ⟨keys_filterMap_names _ _ _, ?_, hnone, ?_, ?_⟩
  · intro key v hk hv
    rw [hsome key v hk hv]
    rfl
  · intro record key h
    simp only [applyData, hnone key h]
  · intro record key v hk hv
    simp only [applyData, hsome key v hk hv]

/-- C23 on `sampleBody`: the data holds `original_amount`, `discounted_amount`
and `note` in the order of the fields, and the tracking code of the record is
left as it was. -/
theorem editData_fields_witness :
    (editData sampleToNumber sampleBody).map Prod.fst =
        ["original_amount", "discounted_amount", "note"] ∧
      (editData sampleToNumber sampleBody).lookup "original_amount" =
        some (JSValue.num (.fin 120000)) ∧
      (editData sampleToNumber sampleBody).lookup "discounted_amount" = some JSValue.null ∧
      applyData sampleColumns (editData sampleToNumber sampleBody) "tracking_code" =
        sampleColumns "tracking_code" :=
  ⟨((editData_fields sampleToNumber sampleBody).1).trans (by decide),
    ((editData_fields sampleToNumber sampleBody).2.1 "original_amount" (.str "120000")
      (by decide) rfl).trans (by with_unfolding_all rfl),
    ((editData_fields sampleToNumber sampleBody).2.1 "discounted_amount" .null
      (by decide) rfl).trans (by with_unfolding_all rfl),
    (editData_fields sampleToNumber sampleBody).2.2.2.1 sampleColumns "tracking_code"
      (Or.inl rfl)⟩

/-- C24. On every string the cleaning of the code, which replaces only the
first comma, and the specified cleaning, which replaces every comma, parse to
the same number; for `1,2,3` the cleaned texts `1.2,3` and `1.2.3` differ and
both parse to 1.2. -/
theorem first_comma_cleaning_agrees :
    (∀ s : String, parseFloat (cleanAmount s.data) = parseFloat (specCleanAmount s.data)) ∧
      cleanAmount "1,2,3".data = "1.2,3".data ∧
      specCleanAmount "1,2,3".data = "1.2.3".data ∧
      parseFloat "1.2,3".data = .fin 1.2 ∧
      parseFloat "1.2.3".data = .fin 1.2 := by
  refine ⟨fun s => parseFloat_clean_eq s.data, by decide, by decide, ?_, ?_⟩
  · with_unfolding_all rfl
  · with_unfolding_all rfl

/-- C25. When the import answers with the counters, the sheet has a row below
the header and `inserted + updated + skipped` is the number of rows below
the header that are defined and have at least one cell; a row that is
undefined or has no cell leaves the loop state as it is, so it moves no
counter and issues no operation. -/
theorem counters_count_handled_rows {σ : Type} (R : Runtime) (S : Store σ) (s s' : σ)
    (wb : Workbook) (sheet : Sheet) (c : Counters) (hsel : selectSheet wb = some sheet)
    (h : importWorkbook R S s wb = (.counters c, s')) :
    1 ≤ sheet.rows.length - 1 ∧
      c.inserted + c.updated + c.skipped = ((sheet.rows.drop 1).filter isHandledRow).length ∧
      (∀ (st : LoopState) (row : Option (List Cell)), isHandledRow row = false →
        loopStep R st row = .ok st ∧ rowOperation R row = none) := by
  unfold importWorkbook at h
  rw [hsel] at h
  obtain ⟨hlen, st, _, _, _, hsum⟩ := importRows_counters R S s s' sheet.rows c h
  refine ⟨by omega, hsum, ?_⟩
  intro st0 row hrow
  have hp := processRow_unhandled R row hrow
  constructor
  · simp only [loopStep, hp]
  · simp only [rowOperation, hp]

/-- C25 on a sheet with a blank row, an undefined row, a row with a tracking
code and a row without: the counters add up to 2. -/
theorem counters_count_handled_rows_witness :
    1 ≤ [headerRow, some [], none, some sampleRow, some blankCodeRow].length - 1 ∧
      0 + 1 + 1 =
        (([headerRow, some [], none, some sampleRow, some blankCodeRow].drop 1).filter
          isHandledRow).length :=
  ⟨(counters_count_handled_rows testRuntime specStore []
      [{ id := 1, tracking_code := "VN123", fields := sampleFields }]
      (workbookOf [headerRow, some [], none, some sampleRow, some blankCodeRow])
      { rows := [headerRow, some [], none, some sampleRow, some blankCodeRow] }
      { inserted := 0, updated := 1, skipped := 1 } rfl (by with_unfolding_all rfl)).1,
    (counters_count_handled_rows testRuntime specStore []
      [{ id := 1, tracking_code := "VN123", fields := sampleFields }]
      (workbookOf [headerRow, some [], none, some sampleRow, some blankCodeRow])
      { rows := [headerRow, some [], none, some sampleRow, some blankCodeRow] }
      { inserted := 0, updated := 1, skipped := 1 } rfl (by with_unfolding_all rfl)).2.1⟩

/-- C26: the monthly statistics miss a month.  A fetched row whose
`order_date` is the text `valueOf` has the month key `valueOf`, a property
that the object `map` inherits: alone it yields no entry at all, after the
sample rows it leaves their two entries as they are, and whatever the rows
no entry of the statistics has that month.  The sum of `total_orders` is then
below the number of rows with a non-empty `order_date`. -/
theorem inherited_month_key_dropped :
    monthKey testRuntime inheritedKeyRow = some "valueOf" ∧
      monthlyStats testRuntime codeUnitCompare [inheritedKeyRow] = [] ∧
      monthlyStats testRuntime codeUnitCompare (sampleStatRows ++ [inheritedKeyRow]) =
        [⟨"2023-03", 1, .fin 50000, .fin 0, .fin 50000⟩,
          ⟨"2023-06", 2, .fin 370000, .fin 299000, .fin 71000⟩] ∧
      ∀ (R : Runtime) (localeCompare : String → String → Int) (rows : List StatRow),
        ∀ e ∈ monthlyStats R localeCompare rows, e.month ≠ "valueOf" := by
  refine ⟨by with_unfolding_all rfl, by with_unfolding_all rfl, by with_unfolding_all rfl, ?_⟩
  intro R localeCompare rows e he hm
  have hmem := (mem_monthlyStats R localeCompare rows e).1 he
  have := foldl_statsStep_months R rows [] (fun _ h => absurd h (List.not_mem_nil _)) e hmem
  rw [hm] at this
  exact this (by decide)

end OrderImport
